import Mathlib

/-! A shallow embedding of connman `src/resolver.c`.

The module keeps two process-wide lists (`entry_list`, `resolvfile_list`) and a
mode flag (`dnsproxy_enabled`).  They become the fields of `State`, together
with what the C code reaches through GLib and its collaborators:

* the pending GLib timeout sources (`g_timeout_add_seconds`, `g_source_remove`),
* the heap (only the identity of the `entry_data` allocations is kept: an
  address, because timers hold the entry as `user_data` and
  `g_slist_remove` compares pointers),
* a trace of the calls made to the collaborators (DNS proxy, network service,
  router solicitation, resolver file writes).

`char *` is `Option String` (`NULL` is `none`), `int` is `Int`, `unsigned int`
and `guint` are `Nat`.  `g_try_new0` is taken to succeed.  `DBG` is logging
only and is dropped.
-/

namespace Resolver

/-! ## errno values (Linux) -/

def ENOENT : Int := 2
def ENOMEM : Int := 12
def EEXIST : Int := 17
def EINVAL : Int := 22

/-- Limits of `<resolv.h>`. -/
def MAXNS : Nat := 3
def MAXDNSRCH : Nat := 6

/-- Address family of IPv6 (`<sys/socket.h>`, Linux). -/
def AF_INET6 : Int := 10

def RESOLVER_FLAG_PUBLIC : Nat := 1

/-! ## `double` arithmetic of the lifetime intervals

`RESOLVER_LIFETIME_REFRESH_THRESHOLD` is the `double` literal `0.8`.  With IEEE
binary64 and round-to-nearest-even (`FLT_EVAL_METHOD` 0) that literal is
`3602879701896397 / 2^52` (`0x1.999999999999ap-1`), and `1 - 0.8` is computed
exactly as `900719925474099 / 2^52` (`0x1.9999999999998p-3`).  All values that
occur are non-negative multiples of `2^-52` below `2^33`, so a `double` is
represented by its numerator over `2^52`, a natural number.
-/

/-- Numerator over `2^52` of the `double` `0.8`. -/
def THRESHOLD_BITS : Nat := 3602879701896397

/-- Numerator over `2^52` of the `double` `1 - 0.8`. -/
def ONE_MINUS_THRESHOLD_BITS : Nat := 2 ^ 52 - THRESHOLD_BITS

/-- Number of low-order bits of `p` that do not fit a 53-bit significand:
the least `sh` with `p / 2^sh < 2^53` (`fuel` bounds the search). -/
def excess_bits : Nat → Nat → Nat
  | 0, _ => 0
  | fuel + 1, p => if p < 2 ^ 53 then 0 else excess_bits fuel (p / 2) + 1

/-- Round to nearest, ties to even, to 53 significant bits. -/
def round53 (p : Nat) : Nat :=
  let sh := excess_bits p p
  let q := p / 2 ^ sh
  let r := p % 2 ^ sh
  if 2 ^ sh < 2 * r ∨ (2 * r = 2 ^ sh ∧ q % 2 = 1) then (q + 1) * 2 ^ sh else q * 2 ^ sh

/-- Conversion of a non-negative `double` to `unsigned int` truncates. -/
def double_to_uint (p : Nat) : Nat := p / 2 ^ 52

/-- The C expression `interval = lifetime * RESOLVER_LIFETIME_REFRESH_THRESHOLD`
(`append_resolver`, `connman_resolver_append_lifetime`). -/
def refresh_interval (lifetime : Nat) : Nat :=
  double_to_uint (round53 (lifetime * THRESHOLD_BITS))

/-- The C expression
`interval = entry->lifetime * (1 - RESOLVER_LIFETIME_REFRESH_THRESHOLD) + 1.0`
(`resolver_refresh_cb`): a rounded product, then a rounded sum. -/
def expire_interval (lifetime : Nat) : Nat :=
  double_to_uint (round53 (round53 (lifetime * ONE_MINUS_THRESHOLD_BITS) + 2 ^ 52))

/-! ## Data model -/

/-- The record `struct entry_data`, with the address of its allocation. -/
structure entry_data where
  addr : Nat
  index : Int
  domain : Option String
  server : Option String
  family : Int
  flags : Nat
  lifetime : Nat
  timeout : Nat
deriving DecidableEq, Repr

/-- The record `struct resolvfile_entry`.  Nothing but the list itself refers
to these records, so they carry no address. -/
structure resolvfile_entry where
  index : Int
  domain : Option String
  server : Option String
deriving DecidableEq, Repr

/-- The two `GSourceFunc`s the module registers. -/
inductive Callback where
  | refresh
  | expire
deriving DecidableEq, Repr

/-- A pending GLib timeout source created by `g_timeout_add_seconds`. -/
structure source where
  id : Nat
  interval : Nat
  callback : Callback
  user_data : Nat
deriving DecidableEq, Repr

/-- Calls the module makes to its collaborators, in program order. -/
inductive Event where
  | dnsproxy_append (index : Int) (domain server : Option String)
  | dnsproxy_remove (index : Int) (domain server : Option String)
  | dnsproxy_cleanup
  | resolvfile_write (content : String)
  | service_nameserver_append (index : Int) (server : Option String)
  | service_nameserver_remove (index : Int) (server : Option String)
  | refresh_rs_ipv6 (index : Int)
deriving DecidableEq, Repr

/-- What the module asks of its environment. -/
structure Env where
  /-- Whether `__connman_service_lookup_from_index` returns a service. -/
  service_lookup : Int → Bool
  /-- The function `connman_inet_check_ipaddress`. -/
  check_ipaddress : String → Int
  /-- Result (0 or `-errno`) of opening, truncating and writing the file. -/
  export_result : String → Int
  /-- Result of `__connman_dnsproxy_init`. -/
  dnsproxy_init : Int
  /-- The list `connman_setting_get_string_list("FallbackNameservers")`. -/
  fallback_nameservers : List String

structure State where
  entry_list : List entry_data
  dnsproxy_enabled : Bool
  resolvfile_list : List resolvfile_entry
  /-- Pending timeout sources of the main loop. -/
  sources : List source
  /-- Number of source ids handed out so far; ids are positive. -/
  source_seq : Nat
  /-- Number of `entry_data` allocations so far. -/
  heap_seq : Nat
  trace : List Event
deriving DecidableEq, Repr

/-- The state before `__connman_resolver_init`, in the given backend mode. -/
def empty_state (dnsproxy : Bool) : State :=
  { entry_list := [], dnsproxy_enabled := dnsproxy, resolvfile_list := [],
    sources := [], source_seq := 0, heap_seq := 0, trace := [] }

def log (s : State) (ev : Event) : State :=
  { s with trace := s.trace ++ [ev] }

/-! ## GLib -/

/-- The call `g_timeout_add_seconds`: returns the new (positive) source id. -/
def g_timeout_add_seconds (s : State) (interval : Nat) (cb : Callback)
    (user_data : Nat) : Nat × State :=
  let id := s.source_seq + 1
  (id, { s with source_seq := id,
                sources := s.sources ++ [{ id := id, interval := interval,
                                           callback := cb, user_data := user_data }] })

/-- The call `g_source_remove`. -/
def g_source_remove (s : State) (id : Nat) : State :=
  { s with sources := s.sources.filter (fun src => src.id ≠ id) }

/-- The call `g_slist_remove`: drops the first element whose data pointer is `entry`. -/
def g_slist_remove (l : List entry_data) (entry : entry_data) : List entry_data :=
  l.eraseP (fun e => e.addr = entry.addr)

/-- The assignment `entry->timeout = id` through the pointer `entry`. -/
def set_timeout (l : List entry_data) (addr : Nat) (id : Nat) : List entry_data :=
  l.map (fun e => if e.addr = addr then { e with timeout := id } else e)

/-! ## Resolver file -/

/-- One `g_string_new` or `g_string_append_printf` call of `resolvfile_export`. -/
inductive Chunk where
  | header
  | search
  | domain (d : String)
  | eol
  | nameserver (s : String)
deriving DecidableEq, Repr

def Chunk.text : Chunk → String
  | .header => "# Generated by Connection Manager\n"
  | .search => "search "
  | .domain d => d ++ " "
  | .eol => "\n"
  | .nameserver s => "nameserver " ++ s ++ "\n"

def render (content : List Chunk) : String :=
  content.foldl (fun acc c => acc ++ c.text) ""

/-- First loop of `resolvfile_export`, over the list walked from its last
element (`list` is that walk); returns `count` and the content. -/
def export_domains : List resolvfile_entry → Nat → List Chunk → Nat × List Chunk
  | [], count, content => (count, content)
  | entry :: list, count, content =>
    if count < MAXDNSRCH then
      match entry.domain with
      | none => export_domains list count content
      | some d =>
        let content := if count = 0 then content ++ [Chunk.search] else content
        export_domains list (count + 1) (content ++ [Chunk.domain d])
    else (count, content)

/-- Second loop of `resolvfile_export`. -/
def export_servers : List resolvfile_entry → Nat → List Chunk → Nat × List Chunk
  | [], count, content => (count, content)
  | entry :: list, count, content =>
    if count < MAXNS then
      match entry.server with
      | none => export_servers list count content
      | some srv => export_servers list (count + 1) (content ++ [Chunk.nameserver srv])
    else (count, content)

/-- The content `resolvfile_export` generates, as the sequence of its
`g_string` calls. -/
def export_content (resolvfile_list : List resolvfile_entry) : List Chunk :=
  let content := [Chunk.header]
  let r := export_domains resolvfile_list.reverse 0 content
  let content := if r.1 ≠ 0 then r.2 ++ [Chunk.eol] else r.2
  (export_servers resolvfile_list.reverse 0 content).2

def resolvfile_export (env : Env) (s : State) : Int × State :=
  let content := render (export_content s.resolvfile_list)
  (env.export_result content, log s (Event.resolvfile_write content))

def __connman_resolvfile_append (env : Env) (s : State) (index : Int)
    (domain server : Option String) : Int × State :=
  if index < 0 then (-ENOENT, s)
  else
    let entry : resolvfile_entry := { index := index, domain := domain, server := server }
    resolvfile_export env { s with resolvfile_list := s.resolvfile_list ++ [entry] }

/-- The scan of `__connman_resolvfile_remove`: is `entry` put on `matches`? -/
def resolvfile_match (index : Int) (domain server : Option String)
    (entry : resolvfile_entry) : Bool :=
  if index ≥ 0 ∧ entry.index ≠ index then false
  else if domain ≠ none ∧ entry.domain ≠ domain then false
  else if entry.server ≠ server then false
  else true

/-- The function `resolvfile_remove_entries`: `g_list_remove` of every element of `entries`.
The pointer found by the scan and the first structurally equal record give the
same resulting list, since the scan collects every equal record. -/
def resolvfile_remove_entries (s : State) (entries : List resolvfile_entry) : State :=
  entries.foldl (fun s entry => { s with resolvfile_list := s.resolvfile_list.erase entry }) s

def __connman_resolvfile_remove (env : Env) (s : State) (index : Int)
    (domain server : Option String) : Int × State :=
  let matches_ := s.resolvfile_list.filter (resolvfile_match index domain server)
  resolvfile_export env (resolvfile_remove_entries s matches_)

/-! ## Backend dispatch and the entry store -/

def __connman_dnsproxy_append (s : State) (index : Int) (domain server : Option String) : State :=
  log s (Event.dnsproxy_append index domain server)

def __connman_dnsproxy_remove (s : State) (index : Int) (domain server : Option String) : State :=
  log s (Event.dnsproxy_remove index domain server)

/-- The dispatch `if (dnsproxy_enabled) __connman_dnsproxy_append(...) else
__connman_resolvfile_append(...)`; the result of the call is ignored. -/
def backend_append (env : Env) (s : State) (index : Int) (domain server : Option String) : State :=
  if s.dnsproxy_enabled then __connman_dnsproxy_append s index domain server
  else (__connman_resolvfile_append env s index domain server).2

/-- The dispatch `if (dnsproxy_enabled) __connman_dnsproxy_remove(...) else
__connman_resolvfile_remove(...)`; the result of the call is ignored. -/
def backend_remove (env : Env) (s : State) (index : Int) (domain server : Option String) : State :=
  if s.dnsproxy_enabled then __connman_dnsproxy_remove s index domain server
  else (__connman_resolvfile_remove env s index domain server).2

/-- Second loop of `__connman_resolver_append_fallback_nameservers`. -/
def append_fallback_loop (env : Env) : List entry_data → State → State
  | [], s => s
  | entry :: list, s =>
    if entry.index ≠ -1 ∨ entry.server = none then append_fallback_loop env list s
    else append_fallback_loop env list (backend_append env s entry.index entry.domain entry.server)

def __connman_resolver_append_fallback_nameservers (env : Env) (s : State) : State :=
  if s.entry_list.any (fun entry => entry.index ≥ 0 ∧ entry.server ≠ none) then s
  else append_fallback_loop env s.entry_list s

/-- Loop of `remove_fallback_nameservers`. -/
def remove_fallback_loop (env : Env) : List entry_data → State → State
  | [], s => s
  | entry :: list, s =>
    if entry.index ≥ 0 ∨ entry.server = none then remove_fallback_loop env list s
    else remove_fallback_loop env list (backend_remove env s entry.index entry.domain entry.server)

def remove_fallback_nameservers (env : Env) (s : State) : State :=
  remove_fallback_loop env s.entry_list s

/-- Body of the loop of `remove_entries`, for one element of `entries`. -/
def remove_entries_body (env : Env) (s : State) (entry : entry_data) : State :=
  let s := { s with entry_list := g_slist_remove s.entry_list entry }
  let s := backend_remove env s entry.index entry.domain entry.server
  if entry.timeout ≠ 0 then g_source_remove s entry.timeout else s

/-- Loop of `remove_entries`. -/
def remove_entries_loop (env : Env) : List entry_data → State → State
  | [], s => s
  | entry :: list, s => remove_entries_loop env list (remove_entries_body env s entry)

def remove_entries (env : Env) (s : State) (entries : List entry_data) : State :=
  __connman_resolver_append_fallback_nameservers env (remove_entries_loop env entries s)

def resolver_expire_cb (env : Env) (s : State) (entry : entry_data) : State :=
  let list := [entry]
  let s := if entry.index ≥ 0 ∧ env.service_lookup entry.index then
      log s (Event.service_nameserver_remove entry.index entry.server)
    else s
  remove_entries env s list

def resolver_refresh_cb (env : Env) (s : State) (entry : entry_data) : State :=
  let interval := expire_interval entry.lifetime
  let r := g_timeout_add_seconds s interval Callback.expire entry.addr
  let s := { r.2 with entry_list := set_timeout r.2.entry_list entry.addr r.1 }
  if entry.index ≥ 0 ∧ env.service_lookup entry.index then
    log s (Event.refresh_rs_ipv6 entry.index)
  else s

/-- The assignment `if (server) entry->family = connman_inet_check_ipaddress(server)`
on the zeroed allocation. -/
def entry_family (env : Env) (server : Option String) : Int :=
  match server with
  | some srv => env.check_ipaddress srv
  | none => 0

def append_resolver (env : Env) (s : State) (index : Int) (domain server : Option String)
    (lifetime flags : Nat) : Int × State :=
  if server = none ∧ domain = none then (-EINVAL, s)
  else
    let addr := s.heap_seq + 1
    let s := { s with heap_seq := addr }
    let r := if lifetime ≠ 0 then
        g_timeout_add_seconds s (refresh_interval lifetime) Callback.refresh addr
      else (0, s)
    let entry : entry_data :=
      { addr := addr, index := index, domain := domain, server := server,
        family := entry_family env server, flags := flags, lifetime := lifetime,
        timeout := r.1 }
    let s := r.2
    let s := if entry.index ≥ 0 ∧ entry.server ≠ none then remove_fallback_nameservers env s else s
    let s := { s with entry_list := s.entry_list ++ [entry] }
    let s := backend_append env s entry.index domain server
    let s := if server ≠ none ∧ entry.index ≥ 0 ∧ lifetime ≠ 0 ∧ env.service_lookup entry.index then
        log s (Event.service_nameserver_append entry.index server)
      else s
    (0, s)

/-- The key comparison shared by the scans: `index` equal, `g_strcmp0` of the
domains and of the servers zero. -/
def key_match (index : Int) (domain server : Option String) (entry : entry_data) : Bool :=
  entry.index = index ∧ entry.domain = domain ∧ entry.server = server

def connman_resolver_append (env : Env) (s : State) (index : Int)
    (domain server : Option String) : Int × State :=
  if server = none ∧ domain = none then (-EINVAL, s)
  else
    match s.entry_list.find? (fun entry => entry.timeout = 0 ∧ key_match index domain server entry) with
    | some entry =>
      let s := if s.dnsproxy_enabled then __connman_dnsproxy_append s entry.index domain server else s
      (-EEXIST, s)
    | none => append_resolver env s index domain server 0 0

def connman_resolver_append_lifetime (env : Env) (s : State) (index : Int)
    (domain server : Option String) (lifetime : Nat) : Int × State :=
  if server = none ∧ domain = none then (-EINVAL, s)
  else
    match s.entry_list.find? (fun entry => entry.timeout ≠ 0 ∧ key_match index domain server entry) with
    | some entry =>
      let s := g_source_remove s entry.timeout
      if lifetime = 0 then (0, resolver_expire_cb env s entry)
      else
        let r := g_timeout_add_seconds s (refresh_interval lifetime) Callback.refresh entry.addr
        (0, { r.2 with entry_list := set_timeout r.2.entry_list entry.addr r.1 })
    | none => append_resolver env s index domain server lifetime 0

def connman_resolver_remove (env : Env) (s : State) (index : Int)
    (domain server : Option String) : Int × State :=
  match s.entry_list.find? (key_match index domain server) with
  | none => (-ENOENT, s)
  | some entry => (0, remove_entries env s [entry])

def connman_resolver_remove_all (env : Env) (s : State) (index : Int) : Int × State :=
  if index < 0 then (-EINVAL, s)
  else
    let matches_ := s.entry_list.foldl
      (fun acc entry => if entry.index ≠ index then acc else entry :: acc) []
    if matches_ = [] then (-ENOENT, s)
    else (0, remove_entries env s matches_)

/-- First loop of `__connman_resolver_redo_servers`. -/
def redo_servers_loop (index : Int) : List entry_data → State → State
  | [], s => s
  | entry :: list, s =>
    if entry.timeout = 0 ∨ entry.index ≠ index then redo_servers_loop index list s
    else if entry.family ≠ AF_INET6 then redo_servers_loop index list s
    else
      let s := __connman_dnsproxy_remove s entry.index entry.domain entry.server
      let s := __connman_dnsproxy_append s entry.index entry.domain entry.server
      redo_servers_loop index list s

/-- Second loop of `__connman_resolver_redo_servers`. -/
def redo_domains_loop (index : Int) : List entry_data → State → State
  | [], s => s
  | entry :: list, s =>
    if entry.index ≠ index then redo_domains_loop index list s
    else if entry.server ≠ none then redo_domains_loop index list s
    else redo_domains_loop index list (__connman_dnsproxy_append s entry.index entry.domain none)

def __connman_resolver_redo_servers (s : State) (index : Int) : Int × State :=
  if ¬ s.dnsproxy_enabled then (0, s)
  else if index < 0 then (-EINVAL, s)
  else (0, redo_domains_loop index s.entry_list (redo_servers_loop index s.entry_list s))

/-- Loop of `__connman_resolver_init` over the configured nameservers. -/
def init_loop (env : Env) : List String → State → State
  | [], s => s
  | ns :: rest, s =>
    init_loop env rest (append_resolver env s (-1) none (some ns) 0 RESOLVER_FLAG_PUBLIC).2

def __connman_resolver_init (env : Env) (s : State) (dnsproxy : Bool) : Int × State :=
  if ¬ dnsproxy then (0, s)
  else if env.dnsproxy_init < 0 then (0, s)
  else (0, init_loop env env.fallback_nameservers { s with dnsproxy_enabled := true })

/-- The function `__connman_resolver_cleanup`; `free_entry` and
`free_resolvfile` only release memory. -/
def __connman_resolver_cleanup (s : State) : State :=
  if s.dnsproxy_enabled then log s Event.dnsproxy_cleanup
  else { s with resolvfile_list := [], entry_list := [] }

/-! ## The main loop -/

/-- The GLib main loop dispatches the pending timeout source `id`.  Both
callbacks return `FALSE`, so the source is destroyed.  `none` when no such
source is pending, or when its `user_data` is not an entry of the store
(the C code would then read freed memory). -/
def dispatch (env : Env) (s : State) (id : Nat) : Option State :=
  match s.sources.find? (fun src => src.id = id) with
  | none => none
  | some src =>
    let s := g_source_remove s id
    match s.entry_list.find? (fun e => e.addr = src.user_data) with
    | none => none
    | some entry =>
      match src.callback with
      | Callback.refresh => some (resolver_refresh_cb env s entry)
      | Callback.expire => some (resolver_expire_cb env s entry)

/-- The public mutation operations, and a timer firing. -/
inductive Op where
  | append (index : Int) (domain server : Option String)
  | append_lifetime (index : Int) (domain server : Option String) (lifetime : Nat)
  | remove (index : Int) (domain server : Option String)
  | remove_all (index : Int)
  | timer (id : Nat)
deriving DecidableEq, Repr

def step (env : Env) (s : State) : Op → Option State
  | Op.append index domain server => some (connman_resolver_append env s index domain server).2
  | Op.append_lifetime index domain server lifetime =>
    some (connman_resolver_append_lifetime env s index domain server lifetime).2
  | Op.remove index domain server => some (connman_resolver_remove env s index domain server).2
  | Op.remove_all index => some (connman_resolver_remove_all env s index).2
  | Op.timer id => dispatch env s id

/-- States reached from `s0` by operations that `allowed` admits. -/
inductive Reachable (env : Env) (allowed : State → Op → Bool) (s0 : State) : State → Prop where
  | start : Reachable env allowed s0 s0
  | next {s s' : State} (op : Op) : Reachable env allowed s0 s → allowed s op = true →
      step env s op = some s' → Reachable env allowed s0 s'

/-! ## Predicates used by the statements -/

/-- A notification that the network service drops a nameserver. -/
def Event.is_detach : Event → Bool
  | .service_nameserver_remove _ _ => true
  | _ => false

/-- The part of the state no backend call changes: the entry store, the mode,
the timers, the allocation counters, and the number of notifications that told
the network service to drop a nameserver. -/
structure Core where
  entry_list : List entry_data
  dnsproxy_enabled : Bool
  sources : List source
  source_seq : Nat
  heap_seq : Nat
  detaches : Nat

def State.core (s : State) : Core :=
  { entry_list := s.entry_list, dnsproxy_enabled := s.dnsproxy_enabled, sources := s.sources,
    source_seq := s.source_seq, heap_seq := s.heap_seq,
    detaches := s.trace.countP Event.is_detach }

/-- The entry `append_resolver` allocates and fills in. -/
def new_entry (env : Env) (s : State) (index : Int) (domain server : Option String)
    (lifetime flags : Nat) : entry_data :=
  { addr := s.heap_seq + 1, index := index, domain := domain, server := server,
    family := entry_family env server, flags := flags, lifetime := lifetime,
    timeout := if lifetime ≠ 0 then s.source_seq + 1 else 0 }

def Chunk.is_search : Chunk → Bool
  | .search => true
  | _ => false

def Chunk.is_domain : Chunk → Bool
  | .domain _ => true
  | _ => false

def Chunk.is_nameserver : Chunk → Bool
  | .nameserver _ => true
  | _ => false

/-- The content as the specification words it: the header, then (only when
some entry has a domain) one search line with the first `MAXDNSRCH` domains of
the list read from its most recent entry, then one nameserver line for each
of the first `MAXNS` servers in the same reading order. -/
def spec_content (l : List resolvfile_entry) : List Chunk :=
  let doms := (l.reverse.filterMap (fun e => e.domain)).take MAXDNSRCH
  let srvs := (l.reverse.filterMap (fun e => e.server)).take MAXNS
  Chunk.header ::
    ((if doms = [] then [] else Chunk.search :: (doms.map Chunk.domain ++ [Chunk.eol])) ++
      srvs.map Chunk.nameserver)

/-- An environment for the worked examples: every interface has a service,
every address is IPv6, file writes and the proxy start-up succeed. -/
def env_demo : Env :=
  { service_lookup := fun _ => true, check_ipaddress := fun _ => AF_INET6,
    export_result := fun _ => 0, dnsproxy_init := 0,
    fallback_nameservers := ["8.8.8.8"] }

/-- Two entries with the same (index, domain, server) key. -/
def same_key (a b : entry_data) : Prop :=
  a.index = b.index ∧ a.domain = b.domain ∧ a.server = b.server

/-- No two entries with an armed timer share a key. -/
def timed_unique (l : List entry_data) : Prop :=
  l.Pairwise (fun a b => a.timeout ≠ 0 → b.timeout ≠ 0 → ¬ same_key a b)

/-- Consistency of the heap and the timers with the entry store: allocations
are distinct, every pending source is the timer of an entry of the store, and
no two timed entries share a key. -/
structure Inv (c : Core) : Prop where
  addr_nodup : (c.entry_list.map entry_data.addr).Nodup
  addr_bound : ∀ e ∈ c.entry_list, e.addr ≤ c.heap_seq
  src_entry : ∀ src ∈ c.sources, src.id ≠ 0 ∧
    ∃ e ∈ c.entry_list, e.addr = src.user_data ∧ e.timeout = src.id
  timed : timed_unique c.entry_list

/-- The (index, domain, server) tuple a backend call names. -/
abbrev Key := Int × Option String × Option String

def entry_data.key (e : entry_data) : Key := (e.index, e.domain, e.server)

/-- Effect of one collaborator call on whether the tuple `k` is pushed. -/
def proxy_step (k : Key) (pushed : Bool) : Event → Bool
  | Event.dnsproxy_append i d srv => if (i, d, srv) = k then true else pushed
  | Event.dnsproxy_remove i d srv => if (i, d, srv) = k then false else pushed
  | _ => pushed

/-- Whether the tuple `k` has been pushed to the DNS proxy and not withdrawn
since: the last proxy call that names `k` is an append. -/
def proxy_has (trace : List Event) (k : Key) : Bool :=
  trace.foldl (proxy_step k) false

/-- Whether some entry is interface-scoped (`index >= 0`) with a server. -/
def has_iface_server (l : List entry_data) : Bool :=
  l.any (fun entry => entry.index ≥ 0 ∧ entry.server ≠ none)

/-- The operations the amended fallback rule admits: a key with index -1 and a
server is not appended while an interface-scoped server entry exists. -/
def fallback_allowed (s : State) : Op → Bool
  | Op.append index _ server =>
    !(decide (index = -1) && server.isSome && has_iface_server s.entry_list)
  | Op.append_lifetime index _ server _ =>
    !(decide (index = -1) && server.isSome && has_iface_server s.entry_list)
  | _ => true

/-- The fallback rule on a store and a trace: a fallback entry is pushed iff
there is no interface-scoped server entry. -/
def fallback_ok (l : List entry_data) (t : List Event) : Prop :=
  ∀ e ∈ l, e.index = -1 → e.server ≠ none →
    (proxy_has t e.key = true ↔ has_iface_server l = false)

/-- Every tuple of the resolv-file list is interface-scoped. -/
def file_ok (s : State) : Prop := ∀ r ∈ s.resolvfile_list, 0 ≤ r.index

/-- A store with one untimed entry for (1, none, "1.1.1.1"), in Proxy mode. -/
def state_demo : State :=
  (connman_resolver_append env_demo (empty_state true) 1 none (some "1.1.1.1")).2

/-- What the start-up registers for one configured nameserver: index -1, no
domain, the server, lifetime 0, no timer, the `PUBLIC` flag. -/
def fallback_registration (ns : String) : Key × Nat × Nat × Nat :=
  ((-1, none, some ns), 0, 0, RESOLVER_FLAG_PUBLIC)

/-- The key, lifetime, timer handle and flags of an entry. -/
def entry_data.registration (e : entry_data) : Key × Nat × Nat × Nat :=
  (e.key, e.lifetime, e.timeout, e.flags)

/-- The proxy calls `__connman_resolver_redo_servers` makes for its first loop:
a remove and then an append of the same tuple for each entry with an armed
timer, the given index and an IPv6 server, in store order. -/
def redo_server_events (index : Int) (l : List entry_data) : List Event :=
  ((l.filter (fun e => e.timeout ≠ 0 ∧ e.index = index ∧ e.family = AF_INET6)).map
    (fun e => [Event.dnsproxy_remove e.index e.domain e.server,
               Event.dnsproxy_append e.index e.domain e.server])).flatten

/-- The proxy calls of its second loop: an append of (index, domain, no server)
for each entry of the given index without a server, in store order. -/
def redo_domain_events (index : Int) (l : List entry_data) : List Event :=
  (l.filter (fun e => e.index = index ∧ e.server = none)).map
    (fun e => Event.dnsproxy_append e.index e.domain none)

/-- The notification `resolver_expire_cb` sends to the network service. -/
def detach_events (env : Env) (e : entry_data) : List Event :=
  if e.index ≥ 0 ∧ env.service_lookup e.index = true then
    [Event.service_nameserver_remove e.index e.server]
  else []

def resolvfile_entry.key (r : resolvfile_entry) : Key := (r.index, r.domain, r.server)

/-- Consistency of the timer handles: an entry has a handle iff its lifetime is
not 0, the handle of a timed entry is a pending source that carries the entry,
source ids are distinct and were handed out by the counter. -/
structure TimerInv (c : Core) : Prop where
  lifetime_iff : ∀ e ∈ c.entry_list, (e.timeout ≠ 0 ↔ e.lifetime ≠ 0)
  entry_src : ∀ e ∈ c.entry_list, e.timeout ≠ 0 →
    ∃ src ∈ c.sources, src.id = e.timeout ∧ src.user_data = e.addr
  src_nodup : (c.sources.map source.id).Nodup
  src_bound : ∀ src ∈ c.sources, src.id ≤ c.source_seq

/-- The store after `connman_resolver_append_lifetime(1, NULL, "2001:db8::1", 10)`
and `connman_resolver_append(1, NULL, "1.1.1.1")` on the empty store. -/
def state_timed : State :=
  (connman_resolver_append env_demo
    (connman_resolver_append_lifetime env_demo (empty_state true) 1 none
      (some "2001:db8::1") 10).2 1 none (some "1.1.1.1")).2

/-- The state `state_timed` after its refresh timer (source 1) has fired. -/
def state_refreshed : State :=
  resolver_refresh_cb env_demo (g_source_remove state_timed 1)
    ⟨1, 1, none, some "2001:db8::1", AF_INET6, 0, 10, 1⟩

/-- The concatenation of a list of strings, in order. -/
def concat_text (l : List String) : String :=
  l.foldr (fun a b => a ++ b) ""

/-- The text of the file as the specification words it: the header line; then,
only when some entry has a domain, the line `search d1 d2 ... ` with the first
`MAXDNSRCH` domains of the list read from its most recent entry; then a line
`nameserver <server>` for each of the first `MAXNS` servers in the same
reading order. -/
def spec_text (l : List resolvfile_entry) : String :=
  let doms := (l.reverse.filterMap (fun e => e.domain)).take MAXDNSRCH
  let srvs := (l.reverse.filterMap (fun e => e.server)).take MAXNS
  "# Generated by Connection Manager\n" ++
    ((if doms = [] then "" else "search " ++ (concat_text (doms.map (fun d => d ++ " ")) ++ "\n")) ++
      concat_text (srvs.map (fun srv => "nameserver " ++ srv ++ "\n")))

/-- The lines of a text: the pieces between its newline characters. -/
def text_lines (text : String) : List (List Char) :=
  text.data.splitOn '\n'

/-- Does the line begin with the keyword? -/
def starts_with (kw : String) (line : List Char) : Bool :=
  line.take kw.data.length = kw.data

/-- The words of a line: the non-empty pieces between its blanks. -/
def line_words (line : List Char) : List (List Char) :=
  (line.splitOn ' ').filter (fun w => w ≠ [])

/-- The line `search d1 d2 ... ` as characters. -/
def search_line (doms : List String) : List Char :=
  "search ".data ++ (concat_text (doms.map (fun d => d ++ " "))).data

/-! # Theorems -/

/-! ## Frame lemmas -/

theorem key_match_iff (index : Int) (domain server : Option String) (e : entry_data) :
    key_match index domain server e = true ↔
      e.index = index ∧ e.domain = domain ∧ e.server = server := by
  simp [key_match]


theorem core_log (s : State) (ev : Event) (hev : ev.is_detach = false) :
    (log s ev).core = s.core := by
  simp [State.core, log, List.countP_append, List.countP_cons, hev]

@[simp] theorem core_dnsproxy_append (s : State) (index : Int) (domain server : Option String) :
    (__connman_dnsproxy_append s index domain server).core = s.core :=
  core_log s _ rfl

@[simp] theorem core_dnsproxy_remove (s : State) (index : Int) (domain server : Option String) :
    (__connman_dnsproxy_remove s index domain server).core = s.core :=
  core_log s _ rfl

@[simp] theorem core_export (env : Env) (s : State) : (resolvfile_export env s).2.core = s.core :=
  core_log s _ rfl

@[simp] theorem core_remove_entries_file (entries : List resolvfile_entry) (s : State) :
    (resolvfile_remove_entries s entries).core = s.core := by
  unfold resolvfile_remove_entries
  induction entries generalizing s with
  | nil => rfl
  | cons e rest ih =>
    rw [List.foldl_cons, ih]
    rfl

@[simp] theorem core_resolvfile_append (env : Env) (s : State) (index : Int)
    (domain server : Option String) :
    (__connman_resolvfile_append env s index domain server).2.core = s.core := by
  unfold __connman_resolvfile_append
  split
  · rfl
  · rw [core_export]; rfl

@[simp] theorem core_resolvfile_remove (env : Env) (s : State) (index : Int)
    (domain server : Option String) :
    (__connman_resolvfile_remove env s index domain server).2.core = s.core := by
  unfold __connman_resolvfile_remove
  rw [core_export, core_remove_entries_file]

@[simp] theorem core_backend_append (env : Env) (s : State) (index : Int)
    (domain server : Option String) : (backend_append env s index domain server).core = s.core := by
  unfold backend_append
  split <;> simp

@[simp] theorem core_backend_remove (env : Env) (s : State) (index : Int)
    (domain server : Option String) : (backend_remove env s index domain server).core = s.core := by
  unfold backend_remove
  split <;> simp

@[simp] theorem core_append_fallback_loop (env : Env) (l : List entry_data) (s : State) :
    (append_fallback_loop env l s).core = s.core := by
  induction l generalizing s with
  | nil => rfl
  | cons e rest ih =>
    unfold append_fallback_loop
    split
    · exact ih s
    · rw [ih, core_backend_append]

@[simp] theorem core_append_fallback (env : Env) (s : State) :
    (__connman_resolver_append_fallback_nameservers env s).core = s.core := by
  unfold __connman_resolver_append_fallback_nameservers
  split
  · rfl
  · exact core_append_fallback_loop env _ s

@[simp] theorem core_remove_fallback_loop (env : Env) (l : List entry_data) (s : State) :
    (remove_fallback_loop env l s).core = s.core := by
  induction l generalizing s with
  | nil => rfl
  | cons e rest ih =>
    unfold remove_fallback_loop
    split
    · exact ih s
    · rw [ih, core_backend_remove]

@[simp] theorem core_remove_fallback (env : Env) (s : State) :
    (remove_fallback_nameservers env s).core = s.core :=
  core_remove_fallback_loop env _ s

theorem core_entry_list (s : State) : s.entry_list = s.core.entry_list := rfl

theorem core_dnsproxy_enabled (s : State) : s.dnsproxy_enabled = s.core.dnsproxy_enabled := rfl

theorem core_sources (s : State) : s.sources = s.core.sources := rfl

theorem core_source_seq (s : State) : s.source_seq = s.core.source_seq := rfl

theorem core_heap_seq (s : State) : s.heap_seq = s.core.heap_seq := rfl

theorem remove_entries_body_core (env : Env) (s : State) (entry : entry_data) :
    (remove_entries_body env s entry).core =
      { s.core with
        entry_list := g_slist_remove s.entry_list entry,
        sources := if entry.timeout ≠ 0 then s.sources.filter (fun src => src.id ≠ entry.timeout)
          else s.sources } := by
  unfold remove_entries_body
  split
  · simp only [g_source_remove, State.core]
    have h := core_backend_remove env { s with entry_list := g_slist_remove s.entry_list entry }
      entry.index entry.domain entry.server
    simp only [State.core, Core.mk.injEq] at h
    obtain ⟨h1, h2, h3, h4, h5, h6⟩ := h
    simp only [h1, h2, h3, h4, h5, h6]
  · rw [core_backend_remove]
    rfl

theorem remove_entries_body_entry_list (env : Env) (s : State) (entry : entry_data) :
    (remove_entries_body env s entry).entry_list = g_slist_remove s.entry_list entry := by
  rw [core_entry_list, remove_entries_body_core]

theorem remove_entries_loop_entry_list (env : Env) (entries : List entry_data) (s : State) :
    (remove_entries_loop env entries s).entry_list =
      entries.foldl g_slist_remove s.entry_list := by
  induction entries generalizing s with
  | nil => rfl
  | cons e rest ih =>
    unfold remove_entries_loop
    rw [ih, remove_entries_body_entry_list, List.foldl_cons]

theorem remove_entries_entry_list (env : Env) (entries : List entry_data) (s : State) :
    (remove_entries env s entries).entry_list =
      entries.foldl g_slist_remove s.entry_list := by
  unfold remove_entries
  rw [core_entry_list, core_append_fallback, ← core_entry_list, remove_entries_loop_entry_list]

theorem eraseP_addr_of_find (p : entry_data → Bool) (l : List entry_data) (e : entry_data)
    (hnd : (l.map entry_data.addr).Nodup) (hf : l.find? p = some e) :
    g_slist_remove l e = l.eraseP p := by
  unfold g_slist_remove
  induction l with
  | nil => simp at hf
  | cons x rest ih =>
    rw [List.map_cons, List.nodup_cons] at hnd
    by_cases hx : p x = true
    · rw [List.find?_cons_of_pos _ hx] at hf
      cases hf
      simp [hx]
    · rw [List.find?_cons_of_neg _ hx] at hf
      have hmem : e ∈ rest := List.mem_of_find?_eq_some hf
      have hne : x.addr ≠ e.addr := by
        intro h
        exact hnd.1 (h ▸ List.mem_map_of_mem _ hmem)
      rw [List.eraseP_cons_of_neg (by simpa using hne), List.eraseP_cons_of_neg hx, ih hnd.2 hf]


theorem g_slist_remove_eq_filter (l : List entry_data) (m : entry_data)
    (hnd : (l.map entry_data.addr).Nodup) :
    g_slist_remove l m = l.filter (fun e => e.addr ≠ m.addr) := by
  unfold g_slist_remove
  induction l with
  | nil => rfl
  | cons x rest ih =>
    rw [List.map_cons, List.nodup_cons] at hnd
    by_cases hx : x.addr = m.addr
    · rw [List.eraseP_cons_of_pos (by simpa using hx), List.filter_cons_of_neg (by simpa using hx)]
      symm
      rw [List.filter_eq_self]
      intro a ha
      have : a.addr ≠ x.addr := fun h => hnd.1 (h ▸ List.mem_map_of_mem _ ha)
      simpa [← hx] using this
    · rw [List.eraseP_cons_of_neg (by simpa using hx), List.filter_cons_of_pos (by simpa using hx),
        ih hnd.2]

theorem nodup_addr_filter (l : List entry_data) (p : entry_data → Bool)
    (hnd : (l.map entry_data.addr).Nodup) : ((l.filter p).map entry_data.addr).Nodup :=
  List.Nodup.sublist (List.Sublist.map _ (List.filter_sublist l)) hnd

theorem foldl_g_slist_remove (ms l : List entry_data) (hnd : (l.map entry_data.addr).Nodup) :
    ms.foldl g_slist_remove l = l.filter (fun e => e.addr ∉ ms.map entry_data.addr) := by
  induction ms generalizing l with
  | nil => simp
  | cons m rest ih =>
    rw [List.foldl_cons, g_slist_remove_eq_filter l m hnd, ih _ (nodup_addr_filter l _ hnd),
      List.filter_filter]
    apply List.filter_congr
    intro e _
    by_cases h1 : e.addr = m.addr <;> by_cases h2 : e.addr ∈ rest.map entry_data.addr <;>
      simp [h1, h2]

theorem remove_all_matches (index : Int) (l acc : List entry_data) :
    l.foldl (fun acc entry => if entry.index ≠ index then acc else entry :: acc) acc =
      (l.filter (fun e => e.index = index)).reverse ++ acc := by
  induction l generalizing acc with
  | nil => simp
  | cons x rest ih =>
    rw [List.foldl_cons, ih]
    by_cases hx : x.index = index <;> simp [hx]

theorem export_domains_eq (l : List resolvfile_entry) (count : Nat) (content : List Chunk) :
    export_domains l count content =
      (count + ((l.filterMap (fun e => e.domain)).take (MAXDNSRCH - count)).length,
       content ++
        (if count = 0 ∧ (l.filterMap (fun e => e.domain)).take (MAXDNSRCH - count) ≠ []
          then [Chunk.search] else []) ++
        ((l.filterMap (fun e => e.domain)).take (MAXDNSRCH - count)).map Chunk.domain) := by
  induction l generalizing count content with
  | nil => simp [export_domains]
  | cons e rest ih =>
    unfold export_domains
    by_cases hc : count < MAXDNSRCH
    · rw [if_pos hc]
      cases hd : e.domain with
      | none =>
        simp only [List.filterMap_cons, hd]
        exact ih count content
      | some d =>
        simp only [List.filterMap_cons, hd]
        rw [ih]
        obtain ⟨k, hk⟩ : ∃ k, MAXDNSRCH - count = k + 1 := ⟨MAXDNSRCH - count - 1, by omega⟩
        have hk' : MAXDNSRCH - (count + 1) = k := by omega
        rw [hk, hk', List.take_succ_cons]
        by_cases h0 : count = 0 <;> simp [h0] <;> omega
    · rw [if_neg hc]
      have : MAXDNSRCH - count = 0 := by omega
      simp [this]

theorem export_servers_eq (l : List resolvfile_entry) (count : Nat) (content : List Chunk) :
    export_servers l count content =
      (count + ((l.filterMap (fun e => e.server)).take (MAXNS - count)).length,
       content ++ ((l.filterMap (fun e => e.server)).take (MAXNS - count)).map
         Chunk.nameserver) := by
  induction l generalizing count content with
  | nil => simp [export_servers]
  | cons e rest ih =>
    unfold export_servers
    by_cases hc : count < MAXNS
    · rw [if_pos hc]
      cases hd : e.server with
      | none =>
        simp only [List.filterMap_cons, hd]
        exact ih count content
      | some d =>
        simp only [List.filterMap_cons, hd]
        rw [ih]
        obtain ⟨k, hk⟩ : ∃ k, MAXNS - count = k + 1 := ⟨MAXNS - count - 1, by omega⟩
        have hk' : MAXNS - (count + 1) = k := by omega
        rw [hk, hk', List.take_succ_cons]
        simp; omega
    · rw [if_neg hc]
      have : MAXNS - count = 0 := by omega
      simp [this]

theorem export_content_eq_spec (l : List resolvfile_entry) :
    export_content l = spec_content l := by
  unfold export_content spec_content
  simp only [export_domains_eq, export_servers_eq, Nat.sub_zero]
  generalize (l.reverse.filterMap (fun e => e.domain)).take MAXDNSRCH = doms
  generalize (l.reverse.filterMap (fun e => e.server)).take MAXNS = srvs
  cases doms with
  | nil => simp
  | cons d ds => simp

theorem foldl_text (l : List Chunk) (init : String) :
    l.foldl (fun acc c => acc ++ c.text) init = init ++ render l := by
  unfold render
  induction l generalizing init with
  | nil => simp
  | cons c rest ih =>
    rw [List.foldl_cons, List.foldl_cons, ih, ih ("" ++ c.text), String.empty_append,
      String.append_assoc]

theorem render_cons (c : Chunk) (l : List Chunk) : render (c :: l) = c.text ++ render l := by
  show List.foldl _ _ _ = _
  rw [List.foldl_cons, foldl_text, String.empty_append]

theorem render_nil : render [] = "" := rfl

theorem countP_map_domain (p : Chunk → Bool) (q : Bool) (f : String → Chunk)
    (h : ∀ d, p (f d) = q) (l : List String) :
    (l.map f).countP p = if q then l.length else 0 := by
  induction l with
  | nil => simp
  | cons d rest ih =>
    rw [List.map_cons, List.countP_cons, ih, h d]
    cases q <;> simp

theorem excess_bits_le (fuel p j : Nat) (h : p < 2 ^ 53 * 2 ^ j) : excess_bits fuel p ≤ j := by
  induction fuel generalizing p j with
  | zero => simp [excess_bits]
  | succ f ih =>
    unfold excess_bits
    split
    · exact Nat.zero_le _
    · rename_i hp
      cases j with
      | zero => simp at h; omega
      | succ j =>
        have h2 : p / 2 < 2 ^ 53 * 2 ^ j := by
          rw [pow_succ] at h
          omega
        have := ih (p / 2) j h2
        omega

theorem round53_cases (p : Nat) :
    ∃ M q r, M = 2 ^ excess_bits p p ∧ 0 < M ∧ p = M * q + r ∧ r < M ∧
      (round53 p = M * q ∨ (round53 p = M * q + M ∧ M ≤ 2 * r)) ∧
      (r = 0 → round53 p = M * q) := by
  have hM : 0 < 2 ^ excess_bits p p := Nat.two_pow_pos _
  refine ⟨2 ^ excess_bits p p, p / 2 ^ excess_bits p p, p % 2 ^ excess_bits p p, rfl, hM,
    (Nat.div_add_mod p _).symm, Nat.mod_lt _ hM, ?_, ?_⟩
  · unfold round53
    simp only
    split
    · rename_i hc
      right
      refine ⟨by ring, ?_⟩
      rcases hc with h | h <;> omega
    · left; ring
  · intro hr
    unfold round53
    simp only
    rw [if_neg]
    · ring
    · rw [hr]
      omega

/-- Rounding stays above a smaller value that needs no rounding. -/
theorem le_round53 (p a j : Nat) (hap : a ≤ p) (hp : p < 2 ^ 53 * 2 ^ j) (hd : 2 ^ j ∣ a) :
    a ≤ round53 p := by
  obtain ⟨M, q, r, hM, hpos, hpq, hr, hres, _⟩ := round53_cases p
  have hsh : excess_bits p p ≤ j := excess_bits_le p p j hp
  have hdvd : M ∣ a := by
    rw [hM]
    exact Dvd.dvd.trans (pow_dvd_pow 2 hsh) hd
  obtain ⟨c, rfl⟩ := hdvd
  have hcq : c ≤ q := by
    by_contra hlt
    have : M * (q + 1) ≤ M * c := Nat.mul_le_mul_left M (by omega)
    rw [Nat.mul_add, Nat.mul_one] at this
    omega
  have : M * c ≤ M * q := Nat.mul_le_mul_left M hcq
  rcases hres with h | ⟨h, _⟩ <;> omega

/-- Rounding stays below a larger value that needs no rounding. -/
theorem round53_le (p a j : Nat) (hpa : p ≤ a) (ha : a < 2 ^ 53 * 2 ^ j) (hd : 2 ^ j ∣ a) :
    round53 p ≤ a := by
  obtain ⟨M, q, r, hM, hpos, hpq, hr, hres, hzero⟩ := round53_cases p
  have hsh : excess_bits p p ≤ j := excess_bits_le p p j (lt_of_le_of_lt hpa ha)
  have hdvd : M ∣ a := by
    rw [hM]
    exact Dvd.dvd.trans (pow_dvd_pow 2 hsh) hd
  obtain ⟨c, rfl⟩ := hdvd
  have hqc : q ≤ c := by
    by_contra hlt
    have : M * (c + 1) ≤ M * q := Nat.mul_le_mul_left M (by omega)
    rw [Nat.mul_add, Nat.mul_one] at this
    omega
  rcases Nat.lt_or_ge q c with hlt | hge
  · have : M * (q + 1) ≤ M * c := Nat.mul_le_mul_left M (by omega)
    rw [Nat.mul_add, Nat.mul_one] at this
    rcases hres with h | ⟨h, _⟩ <;> omega
  · have hqeq : q = c := by omega
    subst hqeq
    have hr0 : r = 0 := by omega
    rw [hzero hr0]

/-- Rounding moves a value up by at most half a unit in the last place. -/
theorem round53_le_add (p j : Nat) (hp : p < 2 ^ 53 * 2 ^ j) :
    2 * round53 p ≤ 2 * p + 2 ^ j := by
  obtain ⟨M, q, r, hM, hpos, hpq, hr, hres, _⟩ := round53_cases p
  have hsh : excess_bits p p ≤ j := excess_bits_le p p j hp
  have hMj : M ≤ 2 ^ j := by
    rw [hM]
    exact Nat.pow_le_pow_right (by norm_num) hsh
  generalize M * q = X at *
  rcases hres with h | ⟨h, _⟩ <;> omega

theorem refresh_interval_eq (L : Nat) (hL : L < 2 ^ 32) : refresh_interval L = 4 * L / 5 := by
  unfold refresh_interval double_to_uint
  have hC : THRESHOLD_BITS = 3602879701896397 := rfl
  rw [hC]
  have hp : L * 3602879701896397 < 2 ^ 53 * 2 ^ 31 := by
    norm_num at hL ⊢
    omega
  have hlow : (4 * L / 5) * 2 ^ 52 ≤ round53 (L * 3602879701896397) := by
    apply le_round53 _ _ 52
    · norm_num
      omega
    · norm_num at hL ⊢
      omega
    · exact Dvd.intro_left _ rfl
  have hup := round53_le_add _ 31 hp
  apply Nat.div_eq_of_lt_le hlow
  norm_num at hup hL ⊢
  omega

theorem expire_interval_eq (L : Nat) (h0 : 0 < L) (hL : L < 2 ^ 32) :
    expire_interval L = (L + 4) / 5 := by
  unfold expire_interval double_to_uint
  have hC : ONE_MINUS_THRESHOLD_BITS = 900719925474099 := by
    unfold ONE_MINUS_THRESHOLD_BITS THRESHOLD_BITS; norm_num
  rw [hC]
  have hp : L * 900719925474099 < 2 ^ 53 * 2 ^ 31 := by
    norm_num at hL ⊢
    omega
  have ht_up := round53_le_add _ 31 hp
  have ht_low : ((L - 1) / 5) * 2 ^ 52 ≤ round53 (L * 900719925474099) := by
    apply le_round53 _ _ 52
    · norm_num
      omega
    · norm_num at hL ⊢
      omega
    · exact Dvd.intro_left _ rfl
  have hp2 : round53 (L * 900719925474099) + 2 ^ 52 < 2 ^ 53 * 2 ^ 31 := by
    norm_num at hL ht_up ⊢
    omega
  have hu_up := round53_le_add _ 31 hp2
  have hu_low : ((L + 4) / 5) * 2 ^ 52 ≤ round53 (round53 (L * 900719925474099) + 2 ^ 52) := by
    apply le_round53 _ _ 52
    · norm_num at ht_low ⊢
      omega
    · norm_num at hL ht_up ⊢
      omega
    · exact Dvd.intro_left _ rfl
  apply Nat.div_eq_of_lt_le hu_low
  by_cases h5 : L % 5 = 0
  · -- the product is just below an integer and stays there
    obtain ⟨k, rfl⟩ : ∃ k, L = 5 * k := ⟨L / 5, by omega⟩
    have hk : 0 < k := by omega
    have hj1 : 2 ^ Nat.log2 k ≤ k := Nat.log2_self_le (by omega)
    have hj2 : k < 2 ^ (Nat.log2 k + 1) := Nat.lt_log2_self
    have hj3 : Nat.log2 k < 32 := by
      rw [Nat.log2_lt (by omega)]
      norm_num at hL ⊢
      omega
    have hd52 : 2 ^ Nat.log2 k ∣ 2 ^ 52 := pow_dvd_pow 2 (by omega)
    have ht : round53 (5 * k * 900719925474099) ≤ k * 2 ^ 52 - 2 ^ Nat.log2 k := by
      apply round53_le _ _ (Nat.log2 k)
      · norm_num
        omega
      · rw [pow_succ] at hj2
        norm_num
        omega
      · exact Nat.dvd_sub' (Dvd.dvd.mul_left hd52 k) (dvd_refl _)
    have hu : round53 (round53 (5 * k * 900719925474099) + 2 ^ 52) ≤
        (k + 1) * 2 ^ 52 - 2 ^ Nat.log2 k := by
      apply round53_le _ _ (Nat.log2 k)
      · have : 2 ^ Nat.log2 k ≤ k * 2 ^ 52 := by
          norm_num; omega
        norm_num at this ht ⊢
        omega
      · rw [pow_succ] at hj2
        norm_num
        omega
      · exact Nat.dvd_sub' (Dvd.dvd.mul_left hd52 (k + 1)) (dvd_refl _)
    have hpos : 0 < 2 ^ Nat.log2 k := Nat.two_pow_pos _
    have : (5 * k + 4) / 5 = k := by omega
    rw [this]
    norm_num at hu hpos ⊢
    omega
  · norm_num at hu_up ht_up hL ⊢
    omega

@[simp] theorem backend_append_entry_list (env : Env) (s : State) (index : Int) (domain server : Option String) :
    (backend_append env s index domain server).entry_list = s.entry_list := by
  rw [core_entry_list, core_backend_append]
  rfl

@[simp] theorem backend_append_dnsproxy_enabled (env : Env) (s : State) (index : Int) (domain server : Option String) :
    (backend_append env s index domain server).dnsproxy_enabled = s.dnsproxy_enabled := by
  rw [core_dnsproxy_enabled, core_backend_append]
  rfl

@[simp] theorem backend_append_sources (env : Env) (s : State) (index : Int) (domain server : Option String) :
    (backend_append env s index domain server).sources = s.sources := by
  rw [core_sources, core_backend_append]
  rfl

@[simp] theorem backend_append_source_seq (env : Env) (s : State) (index : Int) (domain server : Option String) :
    (backend_append env s index domain server).source_seq = s.source_seq := by
  rw [core_source_seq, core_backend_append]
  rfl

@[simp] theorem backend_append_heap_seq (env : Env) (s : State) (index : Int) (domain server : Option String) :
    (backend_append env s index domain server).heap_seq = s.heap_seq := by
  rw [core_heap_seq, core_backend_append]
  rfl

@[simp] theorem backend_remove_entry_list (env : Env) (s : State) (index : Int) (domain server : Option String) :
    (backend_remove env s index domain server).entry_list = s.entry_list := by
  rw [core_entry_list, core_backend_remove]
  rfl

@[simp] theorem backend_remove_dnsproxy_enabled (env : Env) (s : State) (index : Int) (domain server : Option String) :
    (backend_remove env s index domain server).dnsproxy_enabled = s.dnsproxy_enabled := by
  rw [core_dnsproxy_enabled, core_backend_remove]
  rfl

@[simp] theorem backend_remove_sources (env : Env) (s : State) (index : Int) (domain server : Option String) :
    (backend_remove env s index domain server).sources = s.sources := by
  rw [core_sources, core_backend_remove]
  rfl

@[simp] theorem backend_remove_source_seq (env : Env) (s : State) (index : Int) (domain server : Option String) :
    (backend_remove env s index domain server).source_seq = s.source_seq := by
  rw [core_source_seq, core_backend_remove]
  rfl

@[simp] theorem backend_remove_heap_seq (env : Env) (s : State) (index : Int) (domain server : Option String) :
    (backend_remove env s index domain server).heap_seq = s.heap_seq := by
  rw [core_heap_seq, core_backend_remove]
  rfl

@[simp] theorem remove_fallback_entry_list (env : Env) (s : State) :
    (remove_fallback_nameservers env s).entry_list = s.entry_list := by
  rw [core_entry_list, core_remove_fallback]
  rfl

@[simp] theorem remove_fallback_dnsproxy_enabled (env : Env) (s : State) :
    (remove_fallback_nameservers env s).dnsproxy_enabled = s.dnsproxy_enabled := by
  rw [core_dnsproxy_enabled, core_remove_fallback]
  rfl

@[simp] theorem remove_fallback_sources (env : Env) (s : State) :
    (remove_fallback_nameservers env s).sources = s.sources := by
  rw [core_sources, core_remove_fallback]
  rfl

@[simp] theorem remove_fallback_source_seq (env : Env) (s : State) :
    (remove_fallback_nameservers env s).source_seq = s.source_seq := by
  rw [core_source_seq, core_remove_fallback]
  rfl

@[simp] theorem remove_fallback_heap_seq (env : Env) (s : State) :
    (remove_fallback_nameservers env s).heap_seq = s.heap_seq := by
  rw [core_heap_seq, core_remove_fallback]
  rfl

@[simp] theorem append_fallback_entry_list (env : Env) (s : State) :
    (__connman_resolver_append_fallback_nameservers env s).entry_list = s.entry_list := by
  rw [core_entry_list, core_append_fallback]
  rfl

@[simp] theorem append_fallback_dnsproxy_enabled (env : Env) (s : State) :
    (__connman_resolver_append_fallback_nameservers env s).dnsproxy_enabled = s.dnsproxy_enabled := by
  rw [core_dnsproxy_enabled, core_append_fallback]
  rfl

@[simp] theorem append_fallback_sources (env : Env) (s : State) :
    (__connman_resolver_append_fallback_nameservers env s).sources = s.sources := by
  rw [core_sources, core_append_fallback]
  rfl

@[simp] theorem append_fallback_source_seq (env : Env) (s : State) :
    (__connman_resolver_append_fallback_nameservers env s).source_seq = s.source_seq := by
  rw [core_source_seq, core_append_fallback]
  rfl

@[simp] theorem append_fallback_heap_seq (env : Env) (s : State) :
    (__connman_resolver_append_fallback_nameservers env s).heap_seq = s.heap_seq := by
  rw [core_heap_seq, core_append_fallback]
  rfl

@[simp] theorem resolvfile_append_entry_list (env : Env) (s : State) (index : Int) (domain server : Option String) :
    (__connman_resolvfile_append env s index domain server).2.entry_list = s.entry_list := by
  rw [core_entry_list, core_resolvfile_append]
  rfl

@[simp] theorem resolvfile_append_dnsproxy_enabled (env : Env) (s : State) (index : Int) (domain server : Option String) :
    (__connman_resolvfile_append env s index domain server).2.dnsproxy_enabled = s.dnsproxy_enabled := by
  rw [core_dnsproxy_enabled, core_resolvfile_append]
  rfl

@[simp] theorem resolvfile_append_sources (env : Env) (s : State) (index : Int) (domain server : Option String) :
    (__connman_resolvfile_append env s index domain server).2.sources = s.sources := by
  rw [core_sources, core_resolvfile_append]
  rfl

@[simp] theorem resolvfile_append_source_seq (env : Env) (s : State) (index : Int) (domain server : Option String) :
    (__connman_resolvfile_append env s index domain server).2.source_seq = s.source_seq := by
  rw [core_source_seq, core_resolvfile_append]
  rfl

@[simp] theorem resolvfile_append_heap_seq (env : Env) (s : State) (index : Int) (domain server : Option String) :
    (__connman_resolvfile_append env s index domain server).2.heap_seq = s.heap_seq := by
  rw [core_heap_seq, core_resolvfile_append]
  rfl

@[simp] theorem resolvfile_remove_entry_list (env : Env) (s : State) (index : Int) (domain server : Option String) :
    (__connman_resolvfile_remove env s index domain server).2.entry_list = s.entry_list := by
  rw [core_entry_list, core_resolvfile_remove]
  rfl

@[simp] theorem resolvfile_remove_dnsproxy_enabled (env : Env) (s : State) (index : Int) (domain server : Option String) :
    (__connman_resolvfile_remove env s index domain server).2.dnsproxy_enabled = s.dnsproxy_enabled := by
  rw [core_dnsproxy_enabled, core_resolvfile_remove]
  rfl

@[simp] theorem resolvfile_remove_sources (env : Env) (s : State) (index : Int) (domain server : Option String) :
    (__connman_resolvfile_remove env s index domain server).2.sources = s.sources := by
  rw [core_sources, core_resolvfile_remove]
  rfl

@[simp] theorem resolvfile_remove_source_seq (env : Env) (s : State) (index : Int) (domain server : Option String) :
    (__connman_resolvfile_remove env s index domain server).2.source_seq = s.source_seq := by
  rw [core_source_seq, core_resolvfile_remove]
  rfl

@[simp] theorem resolvfile_remove_heap_seq (env : Env) (s : State) (index : Int) (domain server : Option String) :
    (__connman_resolvfile_remove env s index domain server).2.heap_seq = s.heap_seq := by
  rw [core_heap_seq, core_resolvfile_remove]
  rfl

theorem core_ite (c : Prop) [Decidable c] (a b : State) :
    (if c then a else b).core = if c then a.core else b.core := by
  split <;> rfl

theorem core_set_entry_list (s : State) (l : List entry_data) :
    ({ s with entry_list := l } : State).core = { s.core with entry_list := l } := rfl

theorem append_resolver_core (env : Env) (s : State) (index : Int)
    (domain server : Option String) (lifetime flags : Nat)
    (hkey : ¬ (server = none ∧ domain = none)) :
    (append_resolver env s index domain server lifetime flags).1 = 0 ∧
    (append_resolver env s index domain server lifetime flags).2.core =
      { entry_list := s.entry_list ++ [new_entry env s index domain server lifetime flags],
        dnsproxy_enabled := s.dnsproxy_enabled,
        sources := if lifetime ≠ 0 then
            s.sources ++ [{ id := s.source_seq + 1, interval := refresh_interval lifetime,
                            callback := Callback.refresh, user_data := s.heap_seq + 1 }]
          else s.sources,
        source_seq := if lifetime ≠ 0 then s.source_seq + 1 else s.source_seq,
        heap_seq := s.heap_seq + 1,
        detaches := s.core.detaches } := by
  unfold append_resolver
  rw [if_neg hkey]
  refine ⟨rfl, ?_⟩
  simp only [core_ite, core_log _ _ (rfl : (Event.service_nameserver_append _ _).is_detach = false),
    ite_self, core_backend_append, core_set_entry_list, core_remove_fallback]
  by_cases hl : lifetime = 0
  · simp [hl, new_entry, State.core, apply_ite State.entry_list]
  · simp [hl, new_entry, State.core, g_timeout_add_seconds, apply_ite State.entry_list]

theorem remove_entries_loop_core (env : Env) (entries : List entry_data) (s : State) :
    (remove_entries_loop env entries s).core =
      { s.core with
        entry_list := entries.foldl g_slist_remove s.entry_list,
        sources := entries.foldl (fun srcs e =>
          if e.timeout ≠ 0 then srcs.filter (fun src => src.id ≠ e.timeout) else srcs) s.sources } := by
  induction entries generalizing s with
  | nil => rfl
  | cons e rest ih =>
    unfold remove_entries_loop
    rw [ih, remove_entries_body_core]
    simp only [List.foldl_cons, remove_entries_body_entry_list]
    have hs : (remove_entries_body env s e).sources =
        if e.timeout ≠ 0 then s.sources.filter (fun src => src.id ≠ e.timeout) else s.sources := by
      rw [core_sources, remove_entries_body_core]
    rw [hs]

theorem remove_entries_core (env : Env) (entries : List entry_data) (s : State) :
    (remove_entries env s entries).core =
      { s.core with
        entry_list := entries.foldl g_slist_remove s.entry_list,
        sources := entries.foldl (fun srcs e =>
          if e.timeout ≠ 0 then srcs.filter (fun src => src.id ≠ e.timeout) else srcs) s.sources } := by
  unfold remove_entries
  rw [core_append_fallback, remove_entries_loop_core]

theorem resolver_expire_cb_core (env : Env) (s : State) (e : entry_data) :
    (resolver_expire_cb env s e).core =
      { s.core with
        entry_list := g_slist_remove s.entry_list e,
        sources := if e.timeout ≠ 0 then s.sources.filter (fun src => src.id ≠ e.timeout)
          else s.sources,
        detaches := s.core.detaches +
          (if e.index ≥ 0 ∧ env.service_lookup e.index = true then 1 else 0) } := by
  unfold resolver_expire_cb
  rw [remove_entries_core]
  by_cases h : e.index ≥ 0 ∧ env.service_lookup e.index = true
  · simp [h, State.core, log, List.countP_append, List.countP_cons, Event.is_detach]
  · simp [h, State.core]

theorem resolver_refresh_cb_core (env : Env) (s : State) (e : entry_data) :
    (resolver_refresh_cb env s e).core =
      { s.core with
        entry_list := set_timeout s.entry_list e.addr (s.source_seq + 1),
        sources := s.sources ++ [{ id := s.source_seq + 1, interval := expire_interval e.lifetime,
                                   callback := Callback.expire, user_data := e.addr }],
        source_seq := s.source_seq + 1 } := by
  unfold resolver_refresh_cb
  simp only [core_ite, core_log _ _ (rfl : (Event.refresh_rs_ipv6 _).is_detach = false), ite_self]
  rfl

theorem find_source_new (l : List source) (src : source) (h : ∀ x ∈ l, x.id ≠ src.id) :
    (l ++ [src]).find? (fun x => x.id = src.id) = some src := by
  rw [List.find?_append]
  have : l.find? (fun x => decide (x.id = src.id)) = none := by
    rw [List.find?_eq_none]
    intro x hx
    simpa using h x hx
  simp [this]

theorem filter_source_new (l : List source) (src : source) (h : ∀ x ∈ l, x.id ≠ src.id) :
    (l ++ [src]).filter (fun x => x.id ≠ src.id) = l := by
  rw [List.filter_append]
  have : l.filter (fun x => decide (x.id ≠ src.id)) = l := by
    rw [List.filter_eq_self]
    intro x hx
    simpa using h x hx
  rw [this]
  simp

theorem find_entry_new (l : List entry_data) (e : entry_data) (h : ∀ x ∈ l, x.addr ≠ e.addr) :
    (l ++ [e]).find? (fun x => x.addr = e.addr) = some e := by
  rw [List.find?_append]
  have : l.find? (fun x => decide (x.addr = e.addr)) = none := by
    rw [List.find?_eq_none]
    intro x hx
    simpa using h x hx
  simp [this]

theorem set_timeout_new (l : List entry_data) (e : entry_data) (id : Nat)
    (h : ∀ x ∈ l, x.addr ≠ e.addr) :
    set_timeout (l ++ [e]) e.addr id = l ++ [{ e with timeout := id }] := by
  unfold set_timeout
  rw [List.map_append]
  congr 1
  · conv_rhs => rw [← List.map_id l]
    apply List.map_congr_left
    intro x hx
    simp [h x hx]
  · simp

theorem g_slist_remove_new (l : List entry_data) (e e' : entry_data)
    (h : ∀ x ∈ l, x.addr ≠ e.addr) (he : e'.addr = e.addr) :
    g_slist_remove (l ++ [e']) e = l := by
  unfold g_slist_remove
  rw [List.eraseP_append_right]
  · simp [he]
  · intro x hx
    simpa using h x hx

theorem append_lifetime_fresh (env : Env) (s : State) (index : Int)
    (domain server : Option String) (L : Nat)
    (hkey : ¬ (server = none ∧ domain = none))
    (hnew : ∀ e ∈ s.entry_list, e.timeout ≠ 0 →
      ¬ (e.index = index ∧ e.domain = domain ∧ e.server = server)) :
    connman_resolver_append_lifetime env s index domain server L =
      append_resolver env s index domain server L 0 := by
  unfold connman_resolver_append_lifetime
  rw [if_neg hkey]
  have hfind : s.entry_list.find?
      (fun entry => decide (entry.timeout ≠ 0 ∧ key_match index domain server entry = true)) =
      none := by
    rw [List.find?_eq_none]
    intro e he
    have := hnew e he
    simp only [key_match_iff, decide_eq_true_eq, not_and]
    intro h1 h2 h3 h4
    exact this h1 ⟨h2, h3, h4⟩
  rw [hfind]

theorem eq_of_addr_eq {l : List entry_data} (hnd : (l.map entry_data.addr).Nodup)
    {a b : entry_data} (ha : a ∈ l) (hb : b ∈ l) (h : a.addr = b.addr) : a = b :=
  List.inj_on_of_nodup_map hnd ha hb h

theorem mem_g_slist_remove {l : List entry_data} (hnd : (l.map entry_data.addr).Nodup)
    (e x : entry_data) : x ∈ g_slist_remove l e ↔ x ∈ l ∧ x.addr ≠ e.addr := by
  rw [g_slist_remove_eq_filter l e hnd, List.mem_filter]
  simp

theorem inv_append (c : Core) (e : entry_data) (srcs : List source) (q : Nat)
    (hinv : Inv c) (hea : e.addr = c.heap_seq + 1)
    (hnew : e.timeout ≠ 0 → ∀ x ∈ c.entry_list, x.timeout ≠ 0 → ¬ same_key x e)
    (hsrcs : ∀ src ∈ srcs, src ∈ c.sources ∨
      (src.id ≠ 0 ∧ src.user_data = e.addr ∧ e.timeout = src.id)) :
    Inv { c with entry_list := c.entry_list ++ [e], sources := srcs, heap_seq := c.heap_seq + 1,
                 source_seq := q } := by
  constructor
  · show ((c.entry_list ++ [e]).map entry_data.addr).Nodup
    rw [List.map_append, List.nodup_append]
    refine ⟨hinv.addr_nodup, by simp, ?_⟩
    intro a ha hb
    simp only [List.map_cons, List.map_nil, List.mem_singleton] at hb
    obtain ⟨x, hx, hxa⟩ := List.mem_map.mp ha
    have := hinv.addr_bound x hx
    omega
  · intro x hx
    show x.addr ≤ c.heap_seq + 1
    rcases List.mem_append.mp hx with h | h
    · have := hinv.addr_bound x h; omega
    · simp only [List.mem_singleton] at h
      rw [h, hea]
  · intro src hsrc
    rcases hsrcs src hsrc with h | ⟨h1, h2, h3⟩
    · obtain ⟨h0, x, hx, hxa, hxt⟩ := hinv.src_entry src h
      exact ⟨h0, x, List.mem_append_left _ hx, hxa, hxt⟩
    · exact ⟨h1, e, List.mem_append_right _ (List.mem_singleton_self e), h2.symm, h3⟩
  · show timed_unique (c.entry_list ++ [e])
    unfold timed_unique
    rw [List.pairwise_append]
    refine ⟨hinv.timed, List.pairwise_singleton _ _, ?_⟩
    intro a ha b hb hat hbt
    simp only [List.mem_singleton] at hb
    subst hb
    exact hnew hbt a ha hat

theorem inv_remove (c : Core) (e : entry_data) (srcs : List source) (q : Nat)
    (hinv : Inv c) (he : e ∈ c.entry_list)
    (hsrcs : ∀ src ∈ srcs, src ∈ c.sources ∧ (e.timeout ≠ 0 → src.id ≠ e.timeout)) :
    Inv { c with entry_list := g_slist_remove c.entry_list e, sources := srcs,
                 source_seq := q } := by
  have hsub : List.Sublist (g_slist_remove c.entry_list e) c.entry_list := List.eraseP_sublist _
  constructor
  · exact List.Nodup.sublist (List.Sublist.map _ hsub) hinv.addr_nodup
  · intro x hx
    exact hinv.addr_bound x (hsub.subset hx)
  · intro src hsrc
    obtain ⟨hmem, hne⟩ := hsrcs src hsrc
    obtain ⟨h0, x, hx, hxa, hxt⟩ := hinv.src_entry src hmem
    refine ⟨h0, x, ?_, hxa, hxt⟩
    show x ∈ g_slist_remove c.entry_list e
    rw [mem_g_slist_remove hinv.addr_nodup]
    refine ⟨hx, ?_⟩
    intro heq
    have hxe : x = e := eq_of_addr_eq hinv.addr_nodup hx he heq
    subst hxe
    by_cases ht : x.timeout = 0
    · exact h0 (hxt ▸ ht)
    · exact hne ht hxt.symm
  · exact List.Pairwise.sublist hsub hinv.timed

theorem inv_set_timeout (c : Core) (e : entry_data) (id : Nat) (srcs : List source) (q : Nat)
    (hinv : Inv c) (he : e ∈ c.entry_list) (het : e.timeout ≠ 0) (hid : id ≠ 0)
    (hsrcs : ∀ src ∈ srcs, (src ∈ c.sources ∧ src.id ≠ e.timeout) ∨
      (src.id = id ∧ src.user_data = e.addr)) :
    Inv { c with entry_list := set_timeout c.entry_list e.addr id, sources := srcs,
                 source_seq := q } := by
  have hmap : (set_timeout c.entry_list e.addr id).map entry_data.addr =
      c.entry_list.map entry_data.addr := by
    unfold set_timeout
    rw [List.map_map]
    apply List.map_congr_left
    intro x _
    simp only [Function.comp]
    split <;> rfl
  constructor
  · show ((set_timeout c.entry_list e.addr id).map entry_data.addr).Nodup
    rw [hmap]; exact hinv.addr_nodup
  · intro x hx
    have : x.addr ∈ (set_timeout c.entry_list e.addr id).map entry_data.addr :=
      List.mem_map_of_mem _ hx
    rw [hmap] at this
    obtain ⟨y, hy, hya⟩ := List.mem_map.mp this
    have := hinv.addr_bound y hy
    show x.addr ≤ c.heap_seq
    omega
  · intro src hsrc
    rcases hsrcs src hsrc with ⟨hmem, hne⟩ | ⟨h1, h2⟩
    · obtain ⟨h0, x, hx, hxa, hxt⟩ := hinv.src_entry src hmem
      refine ⟨h0, x, ?_, hxa, hxt⟩
      show x ∈ set_timeout c.entry_list e.addr id
      unfold set_timeout
      rw [List.mem_map]
      refine ⟨x, hx, ?_⟩
      have hxe : x.addr ≠ e.addr := by
        intro heq
        have := eq_of_addr_eq hinv.addr_nodup hx he heq
        subst this
        exact hne hxt.symm
      simp [hxe]
    · refine ⟨h1 ▸ hid, { e with timeout := id }, ?_, h2.symm, h1.symm⟩
      show _ ∈ set_timeout c.entry_list e.addr id
      unfold set_timeout
      rw [List.mem_map]
      exact ⟨e, he, by simp⟩
  · show timed_unique (set_timeout c.entry_list e.addr id)
    unfold timed_unique set_timeout
    rw [List.pairwise_map]
    refine List.Pairwise.imp_of_mem ?_ hinv.timed
    intro a b ha hb hab hat hbt
    have hta : a.timeout ≠ 0 := by
      by_cases h : a.addr = e.addr
      · rw [eq_of_addr_eq hinv.addr_nodup ha he h]; exact het
      · simpa [h] using hat
    have htb : b.timeout ≠ 0 := by
      by_cases h : b.addr = e.addr
      · rw [eq_of_addr_eq hinv.addr_nodup hb he h]; exact het
      · simpa [h] using hbt
    have := hab hta htb
    intro hk
    apply this
    unfold same_key at hk ⊢
    by_cases h1 : a.addr = e.addr <;> by_cases h2 : b.addr = e.addr <;>
      simpa [h1, h2] using hk

theorem Inv.of_eq {c c' : Core} (h : Inv c) (h1 : c'.entry_list = c.entry_list)
    (h2 : c'.sources = c.sources) (h3 : c'.heap_seq = c.heap_seq) : Inv c' := by
  obtain ⟨a, b, d, e⟩ := h
  constructor
  · rw [h1]; exact a
  · rw [h1, h3]; exact b
  · rw [h1, h2]; exact d
  · rw [h1]; exact e

theorem inv_remove_list (ms : List entry_data) (c : Core) (hinv : Inv c)
    (hmem : ∀ m ∈ ms, m ∈ c.entry_list) (hnd : (ms.map entry_data.addr).Nodup) :
    Inv { c with
      entry_list := ms.foldl g_slist_remove c.entry_list,
      sources := ms.foldl (fun srcs e =>
        if e.timeout ≠ 0 then srcs.filter (fun src => src.id ≠ e.timeout) else srcs) c.sources } := by
  induction ms generalizing c with
  | nil => exact hinv
  | cons m rest ih =>
    rw [List.map_cons, List.nodup_cons] at hnd
    have hm : m ∈ c.entry_list := hmem m (List.mem_cons_self _ _)
    have h1 := inv_remove c m
      (if m.timeout ≠ 0 then c.sources.filter (fun src => src.id ≠ m.timeout) else c.sources)
      c.source_seq hinv hm (by
        intro src hsrc
        split at hsrc
        · rename_i ht
          rw [List.mem_filter] at hsrc
          exact ⟨hsrc.1, fun _ => by simpa using hsrc.2⟩
        · rename_i ht
          exact ⟨hsrc, fun h => absurd h ht⟩)
    have h2 := ih _ h1 (by
      intro x hx
      show x ∈ g_slist_remove c.entry_list m
      rw [mem_g_slist_remove hinv.addr_nodup]
      refine ⟨hmem x (List.mem_cons_of_mem _ hx), ?_⟩
      intro heq
      exact hnd.1 (heq ▸ List.mem_map_of_mem _ hx)) hnd.2
    exact h2

theorem inv_remove_entries (env : Env) (s : State) (ms : List entry_data) (hinv : Inv s.core)
    (hmem : ∀ m ∈ ms, m ∈ s.entry_list) (hnd : (ms.map entry_data.addr).Nodup) :
    Inv (remove_entries env s ms).core := by
  rw [remove_entries_core]
  exact inv_remove_list ms s.core hinv hmem hnd

theorem inv_g_source_remove (s : State) (id : Nat) (hinv : Inv s.core) :
    Inv (g_source_remove s id).core := by
  obtain ⟨a, b, d, e⟩ := hinv
  refine ⟨a, b, ?_, e⟩
  intro src hsrc
  exact d src (List.mem_of_mem_filter hsrc)

theorem inv_expire_cb (env : Env) (s : State) (e : entry_data) (hinv : Inv s.core)
    (he : e ∈ s.entry_list) : Inv (resolver_expire_cb env s e).core := by
  unfold resolver_expire_cb
  apply inv_remove_entries
  · split
    · exact hinv.of_eq rfl rfl rfl
    · exact hinv
  · intro m hm
    simp only [List.mem_singleton] at hm
    subst hm
    split <;> exact he
  · simp

theorem inv_rearm (s : State) (e : entry_data) (interval : Nat) (cb : Callback)
    (hinv : Inv s.core) (he : e ∈ s.entry_list) (het : e.timeout ≠ 0) (c' : Core)
    (h1 : c'.entry_list = set_timeout s.entry_list e.addr (s.source_seq + 1))
    (h2 : c'.sources = s.sources.filter (fun src => src.id ≠ e.timeout) ++
      [⟨s.source_seq + 1, interval, cb, e.addr⟩])
    (h3 : c'.heap_seq = s.heap_seq) : Inv c' := by
  have := inv_set_timeout s.core e (s.source_seq + 1)
    (s.sources.filter (fun src => src.id ≠ e.timeout) ++ [⟨s.source_seq + 1, interval, cb, e.addr⟩])
    0 hinv he het (by omega) (by
      intro src hsrc
      rcases List.mem_append.mp hsrc with h | h
      · left
        rw [List.mem_filter] at h
        exact ⟨h.1, by simpa using h.2⟩
      · right
        simp only [List.mem_singleton] at h
        subst h
        exact ⟨rfl, rfl⟩)
  exact this.of_eq h1 h2 h3

theorem inv_append_resolver (env : Env) (s : State) (index : Int)
    (domain server : Option String) (lifetime flags : Nat) (hinv : Inv s.core)
    (hnew : lifetime ≠ 0 → ∀ x ∈ s.entry_list, x.timeout ≠ 0 →
      ¬ (x.index = index ∧ x.domain = domain ∧ x.server = server)) :
    Inv (append_resolver env s index domain server lifetime flags).2.core := by
  by_cases hkey : server = none ∧ domain = none
  · unfold append_resolver
    rw [if_pos hkey]
    exact hinv
  · rw [(append_resolver_core env s index domain server lifetime flags hkey).2]
    have := inv_append s.core (new_entry env s index domain server lifetime flags)
      (if lifetime ≠ 0 then
        s.sources ++ [⟨s.source_seq + 1, refresh_interval lifetime, Callback.refresh,
          s.heap_seq + 1⟩]
       else s.sources)
      (if lifetime ≠ 0 then s.source_seq + 1 else s.source_seq) hinv rfl
      (by
        intro ht x hx hxt
        have hl : lifetime ≠ 0 := by
          intro h0
          simp [new_entry, h0] at ht
        exact hnew hl x hx hxt)
      (by
        intro src hsrc
        split at hsrc
        · rename_i hl
          rcases List.mem_append.mp hsrc with h | h
          · exact Or.inl h
          · right
            simp only [List.mem_singleton] at h
            subst h
            simp [new_entry, hl]
        · exact Or.inl hsrc)
    exact this.of_eq rfl rfl rfl

theorem inv_resolver_append (env : Env) (s : State) (index : Int) (domain server : Option String)
    (hinv : Inv s.core) : Inv (connman_resolver_append env s index domain server).2.core := by
  unfold connman_resolver_append
  split
  · exact hinv
  · split
    · simp only []
      split
      · rw [core_dnsproxy_append]; exact hinv
      · exact hinv
    · exact inv_append_resolver env s index domain server 0 0 hinv (fun h => absurd rfl h)

theorem inv_append_lifetime (env : Env) (s : State) (index : Int)
    (domain server : Option String) (lifetime : Nat) (hinv : Inv s.core) :
    Inv (connman_resolver_append_lifetime env s index domain server lifetime).2.core := by
  unfold connman_resolver_append_lifetime
  split
  · exact hinv
  · split
    · rename_i entry hf
      have hmem : entry ∈ s.entry_list := List.mem_of_find?_eq_some hf
      have hp := List.find?_some hf
      simp only [key_match_iff, decide_eq_true_eq] at hp
      split
      · exact inv_expire_cb env _ entry (inv_g_source_remove s _ hinv) hmem
      · exact inv_rearm s entry (refresh_interval lifetime) Callback.refresh hinv hmem hp.1 _
          rfl rfl rfl
    · rename_i hf
      rw [List.find?_eq_none] at hf
      apply inv_append_resolver env s index domain server lifetime 0 hinv
      intro _ x hx hxt hk
      apply hf x hx
      simp only [key_match_iff, decide_eq_true_eq]
      exact ⟨hxt, hk⟩

theorem inv_remove_op (env : Env) (s : State) (index : Int) (domain server : Option String)
    (hinv : Inv s.core) : Inv (connman_resolver_remove env s index domain server).2.core := by
  unfold connman_resolver_remove
  split
  · exact hinv
  · rename_i entry hf
    apply inv_remove_entries env s _ hinv
    · intro m hm
      simp only [List.mem_singleton] at hm
      subst hm
      exact List.mem_of_find?_eq_some hf
    · simp

theorem inv_remove_all (env : Env) (s : State) (index : Int) (hinv : Inv s.core) :
    Inv (connman_resolver_remove_all env s index).2.core := by
  unfold connman_resolver_remove_all
  split
  · exact hinv
  · simp only [remove_all_matches, List.append_nil]
    split
    · exact hinv
    · apply inv_remove_entries env s _ hinv
      · intro m hm
        rw [List.mem_reverse] at hm
        exact List.mem_of_mem_filter hm
      · rw [List.map_reverse, List.nodup_reverse]
        exact nodup_addr_filter _ _ hinv.addr_nodup

theorem inv_dispatch (env : Env) (s s' : State) (id : Nat) (hinv : Inv s.core)
    (h : dispatch env s id = some s') : Inv s'.core := by
  unfold dispatch at h
  split at h
  · cases h
  · rename_i src hsrc
    have hsm : src ∈ s.sources := List.mem_of_find?_eq_some hsrc
    have hsid : src.id = id := by simpa using List.find?_some hsrc
    simp only [] at h
    split at h
    · cases h
    · rename_i entry hent
      have hem : entry ∈ s.entry_list := List.mem_of_find?_eq_some hent
      have hea : entry.addr = src.user_data := by simpa using List.find?_some hent
      obtain ⟨h0, x, hx, hxa, hxt⟩ := hinv.src_entry src hsm
      have hxe : x = entry := eq_of_addr_eq hinv.addr_nodup hx hem (hxa.trans hea.symm)
      subst hxe
      have het : x.timeout = id := hxt.trans hsid
      split at h
      · cases h
        rw [resolver_refresh_cb_core]
        apply inv_rearm s x (expire_interval x.lifetime) Callback.expire hinv hem (hxt ▸ h0)
        · rfl
        · show (s.sources.filter _) ++ _ = _
          rw [het]
          rfl
        · rfl
      · cases h
        exact inv_expire_cb env _ x (inv_g_source_remove s _ hinv) hem

theorem inv_step (env : Env) (s s' : State) (op : Op) (hinv : Inv s.core)
    (h : step env s op = some s') : Inv s'.core := by
  cases op with
  | append index domain server =>
    simp only [step, Option.some.injEq] at h
    subst h; exact inv_resolver_append env s index domain server hinv
  | append_lifetime index domain server lifetime =>
    simp only [step, Option.some.injEq] at h
    subst h; exact inv_append_lifetime env s index domain server lifetime hinv
  | remove index domain server =>
    simp only [step, Option.some.injEq] at h
    subst h; exact inv_remove_op env s index domain server hinv
  | remove_all index =>
    simp only [step, Option.some.injEq] at h
    subst h; exact inv_remove_all env s index hinv
  | timer id => exact inv_dispatch env s s' id hinv h

theorem inv_reachable (env : Env) (allowed : State → Op → Bool) (s0 s : State)
    (h0 : Inv s0.core) (h : Reachable env allowed s0 s) : Inv s.core := by
  induction h with
  | start => exact h0
  | next op _ _ hstep ih => exact inv_step env _ _ op ih hstep

theorem inv_empty (dnsproxy : Bool) : Inv (empty_state dnsproxy).core := by
  constructor
  · simp [empty_state, State.core]
  · simp [empty_state, State.core]
  · simp [empty_state, State.core]
  · simp [empty_state, State.core, timed_unique]

theorem set_timeout_keys (l : List entry_data) (addr id : Nat) :
    (set_timeout l addr id).map (fun e => (e.index, e.domain, e.server)) =
      l.map (fun e => (e.index, e.domain, e.server)) := by
  unfold set_timeout
  rw [List.map_map]
  apply List.map_congr_left
  intro x _
  simp only [Function.comp]
  split <;> rfl

theorem proxy_has_append (t evs : List Event) (k : Key) :
    proxy_has (t ++ evs) k = evs.foldl (proxy_step k) (proxy_has t k) := by
  unfold proxy_has
  rw [List.foldl_append]

theorem foldl_pushes (k : Key) (l : List entry_data) (b : Bool) :
    (l.map (fun e => Event.dnsproxy_append e.index e.domain e.server)).foldl (proxy_step k) b =
      if ∃ e ∈ l, e.key = k then true else b := by
  induction l generalizing b with
  | nil => simp
  | cons x rest ih =>
    rw [List.map_cons, List.foldl_cons, ih]
    by_cases hx : x.key = k
    · have : (x.index, x.domain, x.server) = k := hx
      simp [proxy_step, hx, this]
    · have : ¬ (x.index, x.domain, x.server) = k := hx
      simp [proxy_step, hx, this]

theorem foldl_withdraws (k : Key) (l : List entry_data) (b : Bool) :
    (l.map (fun e => Event.dnsproxy_remove e.index e.domain e.server)).foldl (proxy_step k) b =
      if ∃ e ∈ l, e.key = k then false else b := by
  induction l generalizing b with
  | nil => simp
  | cons x rest ih =>
    rw [List.map_cons, List.foldl_cons, ih]
    by_cases hx : x.key = k
    · have : (x.index, x.domain, x.server) = k := hx
      simp [proxy_step, hx, this]
    · have : ¬ (x.index, x.domain, x.server) = k := hx
      simp [proxy_step, hx, this]

theorem trace_backend_append (env : Env) (s : State) (index : Int) (domain server : Option String)
    (hp : s.dnsproxy_enabled = true) :
    (backend_append env s index domain server).trace =
      s.trace ++ [Event.dnsproxy_append index domain server] := by
  unfold backend_append
  rw [if_pos hp]
  rfl

theorem trace_backend_remove (env : Env) (s : State) (index : Int) (domain server : Option String)
    (hp : s.dnsproxy_enabled = true) :
    (backend_remove env s index domain server).trace =
      s.trace ++ [Event.dnsproxy_remove index domain server] := by
  unfold backend_remove
  rw [if_pos hp]
  rfl

theorem trace_append_fallback_loop (env : Env) (l : List entry_data) (s : State)
    (hp : s.dnsproxy_enabled = true) :
    (append_fallback_loop env l s).trace = s.trace ++
      (l.filter (fun e => e.index = -1 ∧ e.server ≠ none)).map
        (fun e => Event.dnsproxy_append e.index e.domain e.server) := by
  induction l generalizing s with
  | nil => simp [append_fallback_loop]
  | cons x rest ih =>
    unfold append_fallback_loop
    by_cases hx : x.index ≠ -1 ∨ x.server = none
    · rw [if_pos hx, ih s hp, List.filter_cons_of_neg]
      simp only [decide_eq_true_eq, not_and, not_not]
      intro h1
      rcases hx with h | h
      · exact absurd h1 h
      · exact h
    · rw [if_neg hx, ih _ (by rw [backend_append_dnsproxy_enabled]; exact hp),
        trace_backend_append env s _ _ _ hp, List.filter_cons_of_pos]
      · simp
      · simp only [not_or, not_not] at hx
        simpa using hx

theorem trace_remove_fallback_loop (env : Env) (l : List entry_data) (s : State)
    (hp : s.dnsproxy_enabled = true) :
    (remove_fallback_loop env l s).trace = s.trace ++
      (l.filter (fun e => ¬ e.index ≥ 0 ∧ e.server ≠ none)).map
        (fun e => Event.dnsproxy_remove e.index e.domain e.server) := by
  induction l generalizing s with
  | nil => simp [remove_fallback_loop]
  | cons x rest ih =>
    unfold remove_fallback_loop
    by_cases hx : x.index ≥ 0 ∨ x.server = none
    · rw [if_pos hx, ih s hp, List.filter_cons_of_neg]
      simp only [decide_eq_true_eq, not_and, not_not]
      intro h1
      rcases hx with h | h
      · exact absurd h h1
      · exact h
    · rw [if_neg hx, ih _ (by rw [backend_remove_dnsproxy_enabled]; exact hp),
        trace_backend_remove env s _ _ _ hp, List.filter_cons_of_pos]
      · simp
      · simp only [not_or, not_not] at hx
        simpa using hx

theorem trace_remove_entries_loop (env : Env) (ms : List entry_data) (s : State)
    (hp : s.dnsproxy_enabled = true) :
    (remove_entries_loop env ms s).trace = s.trace ++
      ms.map (fun e => Event.dnsproxy_remove e.index e.domain e.server) := by
  induction ms generalizing s with
  | nil => simp [remove_entries_loop]
  | cons m rest ih =>
    unfold remove_entries_loop
    have hb : (remove_entries_body env s m).trace =
        s.trace ++ [Event.dnsproxy_remove m.index m.domain m.server] := by
      unfold remove_entries_body
      simp only []
      split
      · exact trace_backend_remove env _ _ _ _ hp
      · exact trace_backend_remove env _ _ _ _ hp
    have hp' : (remove_entries_body env s m).dnsproxy_enabled = true := by
      rw [core_dnsproxy_enabled, remove_entries_body_core]; exact hp
    rw [ih _ hp', hb]
    simp

theorem trace_append_stage (env : Env) (s1 : State) (entry : entry_data) (c1 c2 : Prop)
    [Decidable c1] [Decidable c2] (index : Int) (domain server : Option String) (ev : Event)
    (hp : s1.dnsproxy_enabled = true) :
    (if c2 then
        log (backend_append env
          { (if c1 then remove_fallback_nameservers env s1 else s1) with
            entry_list := (if c1 then remove_fallback_nameservers env s1 else s1).entry_list ++
              [entry] } index domain server) ev
      else
        backend_append env
          { (if c1 then remove_fallback_nameservers env s1 else s1) with
            entry_list := (if c1 then remove_fallback_nameservers env s1 else s1).entry_list ++
              [entry] } index domain server).trace =
      s1.trace ++
        (if c1 then (s1.entry_list.filter (fun e => ¬ e.index ≥ 0 ∧ e.server ≠ none)).map
          (fun e => Event.dnsproxy_remove e.index e.domain e.server) else []) ++
        [Event.dnsproxy_append index domain server] ++ (if c2 then [ev] else []) := by
  have h2p : (if c1 then remove_fallback_nameservers env s1 else s1).dnsproxy_enabled = true := by
    split
    · rw [remove_fallback_dnsproxy_enabled]; exact hp
    · exact hp
  have h2t : (if c1 then remove_fallback_nameservers env s1 else s1).trace = s1.trace ++
      (if c1 then (s1.entry_list.filter (fun e => ¬ e.index ≥ 0 ∧ e.server ≠ none)).map
        (fun e => Event.dnsproxy_remove e.index e.domain e.server) else []) := by
    split
    · exact trace_remove_fallback_loop env _ s1 hp
    · simp
  generalize (if c1 then remove_fallback_nameservers env s1 else s1) = s2 at h2p h2t
  have h4 := trace_backend_append env { s2 with entry_list := s2.entry_list ++ [entry] }
    index domain server h2p
  have h4' : (backend_append env { s2 with entry_list := s2.entry_list ++ [entry] }
      index domain server).trace = s2.trace ++ [Event.dnsproxy_append index domain server] := h4
  split
  · show (backend_append env { s2 with entry_list := s2.entry_list ++ [entry] }
      index domain server).trace ++ [ev] = _
    rw [h4', h2t]
  · rw [h4', h2t]
    simp

theorem trace_append_resolver (env : Env) (s : State) (index : Int)
    (domain server : Option String) (lifetime flags : Nat)
    (hkey : ¬ (server = none ∧ domain = none)) (hp : s.dnsproxy_enabled = true) :
    (append_resolver env s index domain server lifetime flags).2.trace =
      s.trace ++
        (if index ≥ 0 ∧ server ≠ none then
          (s.entry_list.filter (fun e => ¬ e.index ≥ 0 ∧ e.server ≠ none)).map
            (fun e => Event.dnsproxy_remove e.index e.domain e.server) else []) ++
        [Event.dnsproxy_append index domain server] ++
        (if server ≠ none ∧ index ≥ 0 ∧ lifetime ≠ 0 ∧ env.service_lookup index = true then
          [Event.service_nameserver_append index server] else []) := by
  unfold append_resolver
  rw [if_neg hkey]
  by_cases hl : lifetime ≠ 0
  · simp only [if_pos hl]
    exact trace_append_stage env
      (g_timeout_add_seconds { s with heap_seq := s.heap_seq + 1 } (refresh_interval lifetime)
        Callback.refresh (s.heap_seq + 1)).2 _ _ _ index domain server _ hp
  · simp only [if_neg hl]
    exact trace_append_stage env { s with heap_seq := s.heap_seq + 1 } _ _ _ index domain server
      _ hp

theorem foldl_g_slist_remove_sublist (ms l : List entry_data) :
    (ms.foldl g_slist_remove l).Sublist l := by
  induction ms generalizing l with
  | nil => exact List.Sublist.refl l
  | cons m rest ih =>
    rw [List.foldl_cons]
    exact (ih _).trans (List.eraseP_sublist _)

theorem has_iface_server_of_sublist {l l' : List entry_data} (h : l'.Sublist l)
    (h' : has_iface_server l' = true) : has_iface_server l = true := by
  unfold has_iface_server at *
  rw [List.any_eq_true] at *
  obtain ⟨x, hx, hp⟩ := h'
  exact ⟨x, h.subset hx, hp⟩

theorem has_iface_server_append (l : List entry_data) (e : entry_data) :
    has_iface_server (l ++ [e]) =
      (has_iface_server l || decide (e.index ≥ 0 ∧ e.server ≠ none)) := by
  unfold has_iface_server
  simp [List.any_append]

theorem has_iface_server_set_timeout (l : List entry_data) (addr id : Nat) :
    has_iface_server (set_timeout l addr id) = has_iface_server l := by
  unfold has_iface_server set_timeout
  rw [List.any_map]
  congr 1
  funext x
  simp only [Function.comp]
  split <;> rfl

theorem fallback_ok_set_timeout (l : List entry_data) (t : List Event) (addr id : Nat)
    (h : fallback_ok l t) : fallback_ok (set_timeout l addr id) t := by
  intro e he hi hs
  rw [has_iface_server_set_timeout]
  unfold set_timeout at he
  obtain ⟨x, hx, hxe⟩ := List.mem_map.mp he
  have hk : e.key = x.key ∧ e.index = x.index ∧ e.server = x.server := by
    rw [← hxe]
    split <;> exact ⟨rfl, rfl, rfl⟩
  rw [hk.1]
  exact h x hx (hk.2.1 ▸ hi) (hk.2.2 ▸ hs)

theorem proxy_has_log (t : List Event) (ev : Event) (k : Key)
    (h : ∀ b, proxy_step k b ev = b) : proxy_has (t ++ [ev]) k = proxy_has t k := by
  rw [proxy_has_append]
  exact h _

theorem fallback_ok_log (l : List entry_data) (t : List Event) (ev : Event)
    (hev : ∀ k b, proxy_step k b ev = b) (h : fallback_ok l t) : fallback_ok l (t ++ [ev]) := by
  intro e he hi hs
  rw [proxy_has_log t ev e.key (hev e.key)]
  exact h e he hi hs

theorem fallback_ok_remove_entries (env : Env) (s : State) (ms : List entry_data)
    (hp : s.dnsproxy_enabled = true) (h : fallback_ok s.entry_list s.trace) :
    fallback_ok (remove_entries env s ms).entry_list (remove_entries env s ms).trace := by
  have hp1 : (remove_entries_loop env ms s).dnsproxy_enabled = true := by
    rw [core_dnsproxy_enabled, remove_entries_loop_core]; exact hp
  have hl1 := remove_entries_loop_entry_list env ms s
  have ht1 := trace_remove_entries_loop env ms s hp
  have hsub := foldl_g_slist_remove_sublist ms s.entry_list
  unfold remove_entries __connman_resolver_append_fallback_nameservers
  generalize remove_entries_loop env ms s = s1 at hp1 hl1 ht1
  rw [← hl1] at hsub
  by_cases hany : s1.entry_list.any (fun entry => entry.index ≥ 0 ∧ entry.server ≠ none) = true
  · rw [if_pos hany]
    intro e he hi hs
    have hif : has_iface_server s1.entry_list = true := hany
    have hif' := has_iface_server_of_sublist hsub hif
    have h0 := h e (hsub.subset he) hi hs
    rw [hif'] at h0
    rw [hif, ht1, proxy_has_append, foldl_withdraws]
    constructor
    · intro hc
      split at hc
      · cases hc
      · exact absurd (h0.mp hc) (by simp)
    · intro hc; cases hc
  · rw [if_neg hany]
    intro e he hi hs
    have hle : (append_fallback_loop env s1.entry_list s1).entry_list = s1.entry_list := by
      rw [core_entry_list, core_append_fallback_loop]; rfl
    rw [hle] at he ⊢
    have hif : has_iface_server s1.entry_list = false := by
      simpa [has_iface_server] using hany
    rw [hif, trace_append_fallback_loop env _ s1 hp1, proxy_has_append, foldl_pushes]
    have : ∃ x ∈ s1.entry_list.filter (fun e => e.index = -1 ∧ e.server ≠ none),
        x.key = e.key := by
      refine ⟨e, ?_, rfl⟩
      rw [List.mem_filter]
      exact ⟨he, by simp [hi, hs]⟩
    rw [if_pos this]
    simp

theorem fallback_ok_append_resolver (env : Env) (s : State) (index : Int)
    (domain server : Option String) (lifetime flags : Nat)
    (hp : s.dnsproxy_enabled = true) (h : fallback_ok s.entry_list s.trace)
    (hallow : index = -1 → server ≠ none → has_iface_server s.entry_list = false) :
    fallback_ok (append_resolver env s index domain server lifetime flags).2.entry_list
      (append_resolver env s index domain server lifetime flags).2.trace := by
  by_cases hkey : server = none ∧ domain = none
  · unfold append_resolver
    rw [if_pos hkey]
    exact h
  · have hl : (append_resolver env s index domain server lifetime flags).2.entry_list =
        s.entry_list ++ [new_entry env s index domain server lifetime flags] :=
      congrArg Core.entry_list (append_resolver_core env s index domain server lifetime flags hkey).2
    rw [hl, trace_append_resolver env s index domain server lifetime flags hkey hp]
    intro e he hi hs
    rw [has_iface_server_append, proxy_has_append, proxy_has_append, proxy_has_append]
    have hS : ∀ b, (if server ≠ none ∧ index ≥ 0 ∧ lifetime ≠ 0 ∧ env.service_lookup index = true
        then [Event.service_nameserver_append index server] else []).foldl
          (proxy_step e.key) b = b := by
      intro b
      split <;> rfl
    rw [hS]
    simp only [List.foldl_cons, List.foldl_nil, proxy_step]
    have hnew : (new_entry env s index domain server lifetime flags).index = index ∧
        (new_entry env s index domain server lifetime flags).server = server ∧
        (new_entry env s index domain server lifetime flags).key = (index, domain, server) :=
      ⟨rfl, rfl, rfl⟩
    rw [hnew.1, hnew.2.1]
    by_cases hc : index ≥ 0 ∧ server ≠ none
    · have hne : ¬ (index, domain, server) = e.key := by
        intro heq
        have : index = e.index := congrArg Prod.fst heq
        omega
      have hmem : e ∈ s.entry_list := by
        rcases List.mem_append.mp he with h1 | h1
        · exact h1
        · simp only [List.mem_singleton] at h1
          rw [h1, hnew.1] at hi
          omega
      rw [if_neg hne, if_pos hc, foldl_withdraws]
      have hex : ∃ x ∈ s.entry_list.filter (fun e => ¬ e.index ≥ 0 ∧ e.server ≠ none),
          x.key = e.key := by
        refine ⟨e, ?_, rfl⟩
        rw [List.mem_filter]
        refine ⟨hmem, ?_⟩
        simp only [decide_eq_true_eq]
        exact ⟨by omega, hs⟩
      rw [if_pos hex]
      simp [hc]
    · rw [if_neg hc]
      simp only [List.foldl_nil]
      have hdec : decide (index ≥ 0 ∧ server ≠ none) = false := by simpa using hc
      rw [hdec, Bool.or_false]
      by_cases heq : (index, domain, server) = e.key
      · rw [if_pos heq]
        have h1 : index = e.index := congrArg Prod.fst heq
        have h2 : server = e.server := congrArg (fun k => k.2.2) heq
        have := hallow (h1.trans hi) (h2 ▸ hs)
        simp [this]
      · rw [if_neg heq]
        have hmem : e ∈ s.entry_list := by
          rcases List.mem_append.mp he with h1 | h1
          · exact h1
          · simp only [List.mem_singleton] at h1
            exact absurd (h1 ▸ hnew.2.2).symm heq
        exact h e hmem hi hs

theorem allowed_of_bool (index : Int) (server : Option String) (l : List entry_data)
    (h : (!(decide (index = -1) && server.isSome && has_iface_server l)) = true) :
    index = -1 → server ≠ none → has_iface_server l = false := by
  intro hi hs
  cases hl : has_iface_server l
  · rfl
  · have : server.isSome = true := by
      cases server
      · exact absurd rfl hs
      · rfl
    simp [hi, this, hl] at h

theorem fallback_ok_append (env : Env) (s : State) (index : Int) (domain server : Option String)
    (hp : s.dnsproxy_enabled = true) (h : fallback_ok s.entry_list s.trace)
    (hallow : index = -1 → server ≠ none → has_iface_server s.entry_list = false) :
    fallback_ok (connman_resolver_append env s index domain server).2.entry_list
      (connman_resolver_append env s index domain server).2.trace := by
  unfold connman_resolver_append
  split
  · exact h
  · split
    · rename_i entry hf
      have hm := List.find?_some hf
      simp only [key_match_iff, decide_eq_true_eq] at hm
      simp only [hp, if_true, __connman_dnsproxy_append, log]
      intro e he hi hs
      rw [proxy_has_append]
      simp only [List.foldl_cons, List.foldl_nil, proxy_step, hm.2.1]
      by_cases heq : (index, domain, server) = e.key
      · rw [if_pos heq]
        have h1 : index = e.index := congrArg Prod.fst heq
        have h2 : server = e.server := congrArg (fun k => k.2.2) heq
        have := hallow (h1.trans hi) (h2 ▸ hs)
        simp [this]
      · rw [if_neg heq]
        exact h e he hi hs
    · exact fallback_ok_append_resolver env s index domain server 0 0 hp h hallow

theorem fallback_ok_expire_cb (env : Env) (s : State) (entry : entry_data)
    (hp : s.dnsproxy_enabled = true) (h : fallback_ok s.entry_list s.trace) :
    fallback_ok (resolver_expire_cb env s entry).entry_list
      (resolver_expire_cb env s entry).trace := by
  unfold resolver_expire_cb
  apply fallback_ok_remove_entries
  · split
    · exact hp
    · exact hp
  · split
    · exact fallback_ok_log _ _ _ (fun _ _ => rfl) h
    · exact h

theorem fallback_ok_refresh_cb (env : Env) (s : State) (entry : entry_data)
    (h : fallback_ok s.entry_list s.trace) :
    fallback_ok (resolver_refresh_cb env s entry).entry_list
      (resolver_refresh_cb env s entry).trace := by
  unfold resolver_refresh_cb
  split
  · exact fallback_ok_log _ _ _ (fun _ _ => rfl) (fallback_ok_set_timeout _ _ _ _ h)
  · exact fallback_ok_set_timeout _ _ _ _ h

theorem fallback_ok_append_lifetime (env : Env) (s : State) (index : Int)
    (domain server : Option String) (lifetime : Nat)
    (hp : s.dnsproxy_enabled = true) (h : fallback_ok s.entry_list s.trace)
    (hallow : index = -1 → server ≠ none → has_iface_server s.entry_list = false) :
    fallback_ok (connman_resolver_append_lifetime env s index domain server lifetime).2.entry_list
      (connman_resolver_append_lifetime env s index domain server lifetime).2.trace := by
  unfold connman_resolver_append_lifetime
  split
  · exact h
  · split
    · split
      · exact fallback_ok_expire_cb env (g_source_remove s _) _ hp h
      · exact fallback_ok_set_timeout _ _ _ _ h
    · exact fallback_ok_append_resolver env s index domain server lifetime 0 hp h hallow

theorem fallback_ok_remove (env : Env) (s : State) (index : Int) (domain server : Option String)
    (hp : s.dnsproxy_enabled = true) (h : fallback_ok s.entry_list s.trace) :
    fallback_ok (connman_resolver_remove env s index domain server).2.entry_list
      (connman_resolver_remove env s index domain server).2.trace := by
  unfold connman_resolver_remove
  split
  · exact h
  · exact fallback_ok_remove_entries env s _ hp h

theorem fallback_ok_remove_all (env : Env) (s : State) (index : Int)
    (hp : s.dnsproxy_enabled = true) (h : fallback_ok s.entry_list s.trace) :
    fallback_ok (connman_resolver_remove_all env s index).2.entry_list
      (connman_resolver_remove_all env s index).2.trace := by
  unfold connman_resolver_remove_all
  split
  · exact h
  · simp only []
    split
    · exact h
    · exact fallback_ok_remove_entries env s _ hp h

theorem fallback_ok_dispatch (env : Env) (s s' : State) (id : Nat)
    (hp : s.dnsproxy_enabled = true) (h : fallback_ok s.entry_list s.trace)
    (hd : dispatch env s id = some s') : fallback_ok s'.entry_list s'.trace := by
  unfold dispatch at hd
  split at hd
  · cases hd
  · simp only [] at hd
    split at hd
    · cases hd
    · split at hd
      · cases hd
        exact fallback_ok_refresh_cb env (g_source_remove s id) _ h
      · cases hd
        exact fallback_ok_expire_cb env (g_source_remove s id) _ hp h

theorem step_dnsproxy_enabled (env : Env) (s s' : State) (op : Op)
    (h : step env s op = some s') : s'.dnsproxy_enabled = s.dnsproxy_enabled := by
  cases op with
  | append index domain server =>
    simp only [step, Option.some.injEq] at h
    subst h
    unfold connman_resolver_append
    split
    · rfl
    · split
      · simp only []
        split <;> rfl
      · by_cases hkey : server = none ∧ domain = none
        · unfold append_resolver; rw [if_pos hkey]
        · exact congrArg Core.dnsproxy_enabled (append_resolver_core env s _ _ _ 0 0 hkey).2
  | append_lifetime index domain server lifetime =>
    simp only [step, Option.some.injEq] at h
    subst h
    unfold connman_resolver_append_lifetime
    split
    · rfl
    · split
      · split
        · simp only []
          rw [core_dnsproxy_enabled, resolver_expire_cb_core]; rfl
        · rfl
      · by_cases hkey : server = none ∧ domain = none
        · unfold append_resolver; rw [if_pos hkey]
        · exact congrArg Core.dnsproxy_enabled
            (append_resolver_core env s _ _ _ lifetime 0 hkey).2
  | remove index domain server =>
    simp only [step, Option.some.injEq] at h
    subst h
    unfold connman_resolver_remove
    split
    · rfl
    · simp only []
      rw [core_dnsproxy_enabled, remove_entries_core]; rfl
  | remove_all index =>
    simp only [step, Option.some.injEq] at h
    subst h
    unfold connman_resolver_remove_all
    split
    · rfl
    · simp only []
      split
      · rfl
      · simp only []
        rw [core_dnsproxy_enabled, remove_entries_core]; rfl
  | timer id =>
    simp only [step] at h
    unfold dispatch at h
    split at h
    · cases h
    · simp only [] at h
      split at h
      · cases h
      · split at h
        · cases h
          rw [core_dnsproxy_enabled, resolver_refresh_cb_core]; rfl
        · cases h
          rw [core_dnsproxy_enabled, resolver_expire_cb_core]; rfl

theorem fallback_ok_step (env : Env) (s s' : State) (op : Op)
    (hp : s.dnsproxy_enabled = true) (h : fallback_ok s.entry_list s.trace)
    (hal : fallback_allowed s op = true) (hs : step env s op = some s') :
    fallback_ok s'.entry_list s'.trace := by
  cases op with
  | append index domain server =>
    simp only [step, Option.some.injEq] at hs
    subst hs
    exact fallback_ok_append env s index domain server hp h (allowed_of_bool _ _ _ hal)
  | append_lifetime index domain server lifetime =>
    simp only [step, Option.some.injEq] at hs
    subst hs
    exact fallback_ok_append_lifetime env s index domain server lifetime hp h
      (allowed_of_bool _ _ _ hal)
  | remove index domain server =>
    simp only [step, Option.some.injEq] at hs
    subst hs
    exact fallback_ok_remove env s index domain server hp h
  | remove_all index =>
    simp only [step, Option.some.injEq] at hs
    subst hs
    exact fallback_ok_remove_all env s index hp h
  | timer id => exact fallback_ok_dispatch env s s' id hp h hs

theorem fallback_ok_init_loop (env : Env) (ns : List String) (s : State)
    (hp : s.dnsproxy_enabled = true) (h : fallback_ok s.entry_list s.trace)
    (hno : has_iface_server s.entry_list = false) :
    (init_loop env ns s).dnsproxy_enabled = true ∧
    fallback_ok (init_loop env ns s).entry_list (init_loop env ns s).trace := by
  induction ns generalizing s with
  | nil => exact ⟨hp, h⟩
  | cons n rest ih =>
    unfold init_loop
    have hkey : ¬ ((some n : Option String) = none ∧ (none : Option String) = none) := by simp
    have hc := (append_resolver_core env s (-1) none (some n) 0 RESOLVER_FLAG_PUBLIC hkey).2
    apply ih
    · exact (congrArg Core.dnsproxy_enabled hc).trans hp
    · exact fallback_ok_append_resolver env s (-1) none (some n) 0 RESOLVER_FLAG_PUBLIC hp h
        (fun _ _ => hno)
    · have : (append_resolver env s (-1) none (some n) 0 RESOLVER_FLAG_PUBLIC).2.entry_list =
          s.entry_list ++ [new_entry env s (-1) none (some n) 0 RESOLVER_FLAG_PUBLIC] :=
        congrArg Core.entry_list hc
      rw [this, has_iface_server_append, hno]
      simp [new_entry]

theorem fallback_ok_init (env : Env) (useProxy : Bool) :
    (__connman_resolver_init env (empty_state false) useProxy).2.dnsproxy_enabled = true →
    fallback_ok (__connman_resolver_init env (empty_state false) useProxy).2.entry_list
      (__connman_resolver_init env (empty_state false) useProxy).2.trace := by
  unfold __connman_resolver_init
  split
  · intro h; simp [empty_state] at h
  · split
    · intro h; simp [empty_state] at h
    · intro _
      refine (fallback_ok_init_loop env _ _ rfl ?_ ?_).2
      · intro e he
        simp [empty_state] at he
      · simp [empty_state, has_iface_server]

theorem fallback_ok_reachable (env : Env) (s0 s : State)
    (h0 : s0.dnsproxy_enabled = true → fallback_ok s0.entry_list s0.trace)
    (hr : Reachable env fallback_allowed s0 s) :
    s.dnsproxy_enabled = s0.dnsproxy_enabled ∧
    (s.dnsproxy_enabled = true → fallback_ok s.entry_list s.trace) := by
  induction hr with
  | start => exact ⟨rfl, h0⟩
  | next op _ hal hstep ih =>
    have hflag := step_dnsproxy_enabled env _ _ op hstep
    refine ⟨hflag.trans ih.1, ?_⟩
    intro hp
    rw [hflag] at hp
    exact fallback_ok_step env _ _ op hp (ih.2 hp) hal hstep

theorem file_ok_of_eq {s s' : State} (h : file_ok s) (he : s'.resolvfile_list = s.resolvfile_list) :
    file_ok s' := by
  unfold file_ok
  rw [he]
  exact h

theorem file_ok_resolvfile_append (env : Env) (s : State) (index : Int)
    (domain server : Option String) (h : file_ok s) :
    file_ok (__connman_resolvfile_append env s index domain server).2 := by
  unfold __connman_resolvfile_append
  split
  · exact h
  · rename_i hi
    intro r hr
    have hr' : r ∈ s.resolvfile_list ++ [⟨index, domain, server⟩] := hr
    rcases List.mem_append.mp hr' with h1 | h1
    · exact h r h1
    · simp only [List.mem_singleton] at h1
      subst h1
      exact not_lt.mp hi

theorem file_ok_remove_entries_file (entries : List resolvfile_entry) (s : State)
    (h : file_ok s) : file_ok (resolvfile_remove_entries s entries) := by
  unfold resolvfile_remove_entries
  induction entries generalizing s with
  | nil => exact h
  | cons e rest ih =>
    rw [List.foldl_cons]
    apply ih
    intro r hr
    exact h r (List.mem_of_mem_erase hr)

theorem file_ok_resolvfile_remove (env : Env) (s : State) (index : Int)
    (domain server : Option String) (h : file_ok s) :
    file_ok (__connman_resolvfile_remove env s index domain server).2 := by
  unfold __connman_resolvfile_remove
  exact file_ok_of_eq (file_ok_remove_entries_file _ s h) rfl

theorem file_ok_backend_append (env : Env) (s : State) (index : Int)
    (domain server : Option String) (h : file_ok s) :
    file_ok (backend_append env s index domain server) := by
  unfold backend_append
  split
  · exact file_ok_of_eq h rfl
  · exact file_ok_resolvfile_append env s _ _ _ h

theorem file_ok_backend_remove (env : Env) (s : State) (index : Int)
    (domain server : Option String) (h : file_ok s) :
    file_ok (backend_remove env s index domain server) := by
  unfold backend_remove
  split
  · exact file_ok_of_eq h rfl
  · exact file_ok_resolvfile_remove env s _ _ _ h

theorem file_ok_append_fallback_loop (env : Env) (l : List entry_data) (s : State)
    (h : file_ok s) : file_ok (append_fallback_loop env l s) := by
  induction l generalizing s with
  | nil => exact h
  | cons e rest ih =>
    unfold append_fallback_loop
    split
    · exact ih s h
    · exact ih _ (file_ok_backend_append env s _ _ _ h)

theorem file_ok_append_fallback (env : Env) (s : State) (h : file_ok s) :
    file_ok (__connman_resolver_append_fallback_nameservers env s) := by
  unfold __connman_resolver_append_fallback_nameservers
  split
  · exact h
  · exact file_ok_append_fallback_loop env _ s h

theorem file_ok_remove_fallback (env : Env) (s : State) (h : file_ok s) :
    file_ok (remove_fallback_nameservers env s) := by
  unfold remove_fallback_nameservers
  generalize s.entry_list = l
  induction l generalizing s with
  | nil => exact h
  | cons e rest ih =>
    unfold remove_fallback_loop
    split
    · exact ih s h
    · exact ih _ (file_ok_backend_remove env s _ _ _ h)

theorem file_ok_remove_entries (env : Env) (s : State) (ms : List entry_data) (h : file_ok s) :
    file_ok (remove_entries env s ms) := by
  unfold remove_entries
  apply file_ok_append_fallback
  induction ms generalizing s with
  | nil => exact h
  | cons m rest ih =>
    unfold remove_entries_loop
    apply ih
    unfold remove_entries_body
    simp only []
    have hb := file_ok_backend_remove env { s with entry_list := g_slist_remove s.entry_list m }
      m.index m.domain m.server (file_ok_of_eq h rfl)
    split
    · exact file_ok_of_eq hb rfl
    · exact hb

theorem file_ok_expire_cb (env : Env) (s : State) (entry : entry_data) (h : file_ok s) :
    file_ok (resolver_expire_cb env s entry) := by
  unfold resolver_expire_cb
  apply file_ok_remove_entries
  split
  · exact file_ok_of_eq h rfl
  · exact h

theorem file_ok_refresh_cb (env : Env) (s : State) (entry : entry_data) (h : file_ok s) :
    file_ok (resolver_refresh_cb env s entry) := by
  unfold resolver_refresh_cb
  simp only []
  split
  · exact file_ok_of_eq h rfl
  · exact file_ok_of_eq h rfl

theorem file_ok_append_resolver (env : Env) (s : State) (index : Int)
    (domain server : Option String) (lifetime flags : Nat) (h : file_ok s) :
    file_ok (append_resolver env s index domain server lifetime flags).2 := by
  unfold append_resolver
  split
  · exact h
  · simp only []
    have h1 : file_ok (if lifetime ≠ 0 then
        g_timeout_add_seconds { s with heap_seq := s.heap_seq + 1 } (refresh_interval lifetime)
          Callback.refresh (s.heap_seq + 1)
        else (0, { s with heap_seq := s.heap_seq + 1 })).2 := by
      split
      · exact file_ok_of_eq h rfl
      · exact file_ok_of_eq h rfl
    generalize (if lifetime ≠ 0 then
        g_timeout_add_seconds { s with heap_seq := s.heap_seq + 1 } (refresh_interval lifetime)
          Callback.refresh (s.heap_seq + 1)
        else (0, { s with heap_seq := s.heap_seq + 1 })) = r at h1
    have h2 : file_ok (if index ≥ 0 ∧ server ≠ none then remove_fallback_nameservers env r.2
        else r.2) := by
      split
      · exact file_ok_remove_fallback env _ h1
      · exact h1
    generalize (if index ≥ 0 ∧ server ≠ none then remove_fallback_nameservers env r.2
        else r.2) = s2 at h2
    have h4 := file_ok_backend_append env
      { s2 with entry_list := s2.entry_list ++ [⟨s.heap_seq + 1, index, domain, server,
          entry_family env server, flags, lifetime, r.1⟩] } index domain server
      (file_ok_of_eq h2 rfl)
    split
    · exact file_ok_of_eq h4 rfl
    · exact h4

theorem file_ok_step (env : Env) (s s' : State) (op : Op) (h : file_ok s)
    (hs : step env s op = some s') : file_ok s' := by
  cases op with
  | append index domain server =>
    simp only [step, Option.some.injEq] at hs
    subst hs
    unfold connman_resolver_append
    split
    · exact h
    · split
      · simp only []
        split
        · exact file_ok_of_eq h rfl
        · exact h
      · exact file_ok_append_resolver env s _ _ _ _ _ h
  | append_lifetime index domain server lifetime =>
    simp only [step, Option.some.injEq] at hs
    subst hs
    unfold connman_resolver_append_lifetime
    split
    · exact h
    · split
      · split
        · exact file_ok_expire_cb env _ _ (file_ok_of_eq h rfl)
        · exact file_ok_of_eq h rfl
      · exact file_ok_append_resolver env s _ _ _ _ _ h
  | remove index domain server =>
    simp only [step, Option.some.injEq] at hs
    subst hs
    unfold connman_resolver_remove
    split
    · exact h
    · exact file_ok_remove_entries env s _ h
  | remove_all index =>
    simp only [step, Option.some.injEq] at hs
    subst hs
    unfold connman_resolver_remove_all
    split
    · exact h
    · simp only []
      split
      · exact h
      · exact file_ok_remove_entries env s _ h
  | timer id =>
    simp only [step] at hs
    unfold dispatch at hs
    split at hs
    · cases hs
    · simp only [] at hs
      split at hs
      · cases hs
      · split at hs
        · cases hs
          exact file_ok_refresh_cb env _ _ (file_ok_of_eq h rfl)
        · cases hs
          exact file_ok_expire_cb env _ _ (file_ok_of_eq h rfl)

theorem file_ok_init (env : Env) (useProxy : Bool) :
    file_ok (__connman_resolver_init env (empty_state false) useProxy).2 := by
  have h0 : file_ok (empty_state false) := by
    intro r hr
    simp [empty_state] at hr
  unfold __connman_resolver_init
  split
  · exact h0
  · split
    · exact h0
    · simp only []
      have h1 : file_ok { empty_state false with dnsproxy_enabled := true } :=
        file_ok_of_eq h0 rfl
      generalize ({ empty_state false with dnsproxy_enabled := true } : State) = s at h1
      generalize env.fallback_nameservers = ns
      induction ns generalizing s with
      | nil => exact h1
      | cons n rest ih =>
        unfold init_loop
        exact ih _ (file_ok_append_resolver env s _ _ _ _ _ h1)

theorem file_ok_reachable (env : Env) (allowed : State → Op → Bool) (s0 s : State)
    (h0 : file_ok s0) (hr : Reachable env allowed s0 s) : file_ok s := by
  induction hr with
  | start => exact h0
  | next op _ _ hstep ih => exact file_ok_step env _ _ op ih hstep

theorem init_loop_core (env : Env) (ns : List String) (s : State) :
    (init_loop env ns s).dnsproxy_enabled = s.dnsproxy_enabled ∧
    (init_loop env ns s).entry_list.map entry_data.registration =
      s.entry_list.map entry_data.registration ++ ns.map fallback_registration ∧
    (init_loop env ns s).sources = s.sources := by
  induction ns generalizing s with
  | nil => simp [init_loop]
  | cons n rest ih =>
    unfold init_loop
    have hkey : ¬ ((some n : Option String) = none ∧ (none : Option String) = none) := by simp
    have hc := (append_resolver_core env s (-1) none (some n) 0 RESOLVER_FLAG_PUBLIC hkey).2
    obtain ⟨h1, h2, h3⟩ := ih (append_resolver env s (-1) none (some n) 0 RESOLVER_FLAG_PUBLIC).2
    have hl : (append_resolver env s (-1) none (some n) 0 RESOLVER_FLAG_PUBLIC).2.entry_list =
        s.entry_list ++ [new_entry env s (-1) none (some n) 0 RESOLVER_FLAG_PUBLIC] :=
      congrArg Core.entry_list hc
    refine ⟨h1.trans (congrArg Core.dnsproxy_enabled hc), ?_, ?_⟩
    · rw [h2, hl, List.map_append, List.map_cons, List.append_assoc]
      rfl
    · rw [h3]
      have := congrArg Core.sources hc
      simpa using this

theorem redo_servers_loop_eq (index : Int) (l : List entry_data) (s : State) :
    redo_servers_loop index l s =
      { s with trace := s.trace ++ redo_server_events index l } := by
  induction l generalizing s with
  | nil => simp [redo_servers_loop, redo_server_events]
  | cons e rest ih =>
    unfold redo_servers_loop
    by_cases h1 : e.timeout = 0 ∨ e.index ≠ index
    · rw [if_pos h1, ih]
      have : ¬ (e.timeout ≠ 0 ∧ e.index = index ∧ e.family = AF_INET6) := by
        rintro ⟨a, b, _⟩
        rcases h1 with h | h
        · exact a h
        · exact h b
      simp [redo_server_events, List.filter_cons, this]
    · rw [if_neg h1]
      by_cases h2 : e.family ≠ AF_INET6
      · rw [if_pos h2, ih]
        have : ¬ (e.timeout ≠ 0 ∧ e.index = index ∧ e.family = AF_INET6) := by
          rintro ⟨_, _, c⟩
          exact h2 c
        simp [redo_server_events, List.filter_cons, this]
      · rw [if_neg h2]
        simp only []
        rw [ih]
        have : e.timeout ≠ 0 ∧ e.index = index ∧ e.family = AF_INET6 := by
          simp only [not_or, not_not] at h1 h2
          exact ⟨h1.1, h1.2, h2⟩
        simp [redo_server_events, List.filter_cons, this, __connman_dnsproxy_append,
          __connman_dnsproxy_remove, log]

theorem redo_domains_loop_eq (index : Int) (l : List entry_data) (s : State) :
    redo_domains_loop index l s =
      { s with trace := s.trace ++ redo_domain_events index l } := by
  induction l generalizing s with
  | nil => simp [redo_domains_loop, redo_domain_events]
  | cons e rest ih =>
    unfold redo_domains_loop
    by_cases h1 : e.index ≠ index
    · rw [if_pos h1, ih]
      have : ¬ (e.index = index ∧ e.server = none) := fun h => h1 h.1
      simp [redo_domain_events, List.filter_cons, this]
    · rw [if_neg h1]
      by_cases h2 : e.server ≠ none
      · rw [if_pos h2, ih]
        have : ¬ (e.index = index ∧ e.server = none) := fun h => h2 h.2
        simp [redo_domain_events, List.filter_cons, this]
      · rw [if_neg h2, ih]
        have : e.index = index ∧ e.server = none := by
          simp only [not_not] at h1 h2
          exact ⟨h1, h2⟩
        simp [redo_domain_events, List.filter_cons, this, __connman_dnsproxy_append, log]

theorem foldl_erase_cons_of_not_mem (x : resolvfile_entry) (m l : List resolvfile_entry)
    (h : x ∉ m) : m.foldl List.erase (x :: l) = x :: m.foldl List.erase l := by
  induction m generalizing l with
  | nil => rfl
  | cons y rest ih =>
    have hy : x ≠ y := fun e => h (e ▸ List.mem_cons_self _ _)
    have hr : x ∉ rest := fun e => h (List.mem_cons_of_mem _ e)
    rw [List.foldl_cons, List.foldl_cons, List.erase_cons_tail, ih _ hr]
    simpa using hy

theorem foldl_erase_filter (p : resolvfile_entry → Bool) (l : List resolvfile_entry) :
    (l.filter p).foldl List.erase l = l.filter (fun e => !p e) := by
  induction l with
  | nil => rfl
  | cons x rest ih =>
    by_cases hx : p x = true
    · rw [List.filter_cons_of_pos hx, List.foldl_cons, List.erase_cons_head, ih,
        List.filter_cons_of_neg (by simp [hx])]
    · rw [List.filter_cons_of_neg hx, foldl_erase_cons_of_not_mem, ih,
        List.filter_cons_of_pos (by simpa using hx)]
      intro hmem
      exact hx (List.mem_filter.mp hmem).2

theorem resolvfile_remove_entries_list (s : State) (entries : List resolvfile_entry) :
    (resolvfile_remove_entries s entries).resolvfile_list =
      entries.foldl List.erase s.resolvfile_list := by
  unfold resolvfile_remove_entries
  induction entries generalizing s with
  | nil => rfl
  | cons e rest ih =>
    rw [List.foldl_cons, List.foldl_cons, ih]

theorem resolvfile_remove_list (env : Env) (s : State) (index : Int)
    (domain server : Option String) :
    (__connman_resolvfile_remove env s index domain server).2.resolvfile_list =
      s.resolvfile_list.filter (fun e => !resolvfile_match index domain server e) := by
  unfold __connman_resolvfile_remove
  show (resolvfile_remove_entries s _).resolvfile_list = _
  rw [resolvfile_remove_entries_list, foldl_erase_filter]

theorem resolvfile_match_iff (index : Int) (domain server : Option String)
    (e : resolvfile_entry) :
    resolvfile_match index domain server e = true ↔
      (index < 0 ∨ e.index = index) ∧ (domain = none ∨ e.domain = domain) ∧
        e.server = server := by
  unfold resolvfile_match
  by_cases h1 : index ≥ 0 ∧ e.index ≠ index
  · rw [if_pos h1]
    simp only [Bool.false_eq_true, false_iff, not_and]
    intro h
    rcases h with h | h
    · omega
    · exact absurd h h1.2
  · rw [if_neg h1]
    have h1' : index < 0 ∨ e.index = index := by
      by_cases hi : index < 0
      · exact Or.inl hi
      · right
        by_contra hne
        exact h1 ⟨not_lt.mp hi, hne⟩
    by_cases h2 : domain ≠ none ∧ e.domain ≠ domain
    · rw [if_pos h2]
      simp only [Bool.false_eq_true, false_iff, not_and]
      intro _ h
      rcases h with h | h
      · exact absurd h h2.1
      · exact absurd h h2.2
    · rw [if_neg h2]
      have h2' : domain = none ∨ e.domain = domain := by
        by_cases hd : domain = none
        · exact Or.inl hd
        · right
          by_contra hne
          exact h2 ⟨hd, hne⟩
      by_cases h3 : e.server ≠ server
      · rw [if_pos h3]
        simp only [Bool.false_eq_true, false_iff, not_and]
        intro _ _
        exact h3
      · rw [if_neg h3]
        simp only [not_not] at h3
        simp [h1', h2', h3]

theorem append_fallback_loop_file (env : Env) (l : List entry_data) (s : State)
    (hp : s.dnsproxy_enabled = false) : append_fallback_loop env l s = s := by
  induction l with
  | nil => rfl
  | cons e rest ih =>
    unfold append_fallback_loop
    split
    · exact ih
    · rename_i h
      simp only [not_or, not_not] at h
      have : backend_append env s e.index e.domain e.server = s := by
        unfold backend_append __connman_resolvfile_append
        rw [if_neg (by simp [hp]), if_pos (by rw [h.1]; decide)]
      rw [this]
      exact ih

theorem append_fallback_file (env : Env) (s : State) (hp : s.dnsproxy_enabled = false) :
    __connman_resolver_append_fallback_nameservers env s = s := by
  unfold __connman_resolver_append_fallback_nameservers
  split
  · rfl
  · exact append_fallback_loop_file env _ s hp

theorem expire_cb_file (env : Env) (s : State) (e : entry_data)
    (hp : s.dnsproxy_enabled = false) :
    (resolver_expire_cb env s e).resolvfile_list =
      s.resolvfile_list.filter (fun r => !resolvfile_match e.index e.domain e.server r) ∧
    (resolver_expire_cb env s e).trace = s.trace ++ detach_events env e ++
      [Event.resolvfile_write (render (export_content
        (s.resolvfile_list.filter (fun r => !resolvfile_match e.index e.domain e.server r))))] := by
  unfold resolver_expire_cb remove_entries
  simp only [remove_entries_loop]
  have hp0 : (if e.index ≥ 0 ∧ env.service_lookup e.index = true then
      log s (Event.service_nameserver_remove e.index e.server) else s).dnsproxy_enabled =
      false := by
    split <;> exact hp
  have hr0 : (if e.index ≥ 0 ∧ env.service_lookup e.index = true then
      log s (Event.service_nameserver_remove e.index e.server) else s).resolvfile_list =
      s.resolvfile_list := by
    split <;> rfl
  have ht0 : (if e.index ≥ 0 ∧ env.service_lookup e.index = true then
      log s (Event.service_nameserver_remove e.index e.server) else s).trace =
      s.trace ++ detach_events env e := by
    unfold detach_events
    split
    · rfl
    · simp
  generalize (if e.index ≥ 0 ∧ env.service_lookup e.index = true then
      log s (Event.service_nameserver_remove e.index e.server) else s) = s0 at hp0 hr0 ht0
  have hb : (remove_entries_body env s0 e).dnsproxy_enabled = false ∧
      (remove_entries_body env s0 e).resolvfile_list =
        s0.resolvfile_list.filter (fun r => !resolvfile_match e.index e.domain e.server r) ∧
      (remove_entries_body env s0 e).trace = s0.trace ++
        [Event.resolvfile_write (render (export_content
          (s0.resolvfile_list.filter
            (fun r => !resolvfile_match e.index e.domain e.server r))))] := by
    unfold remove_entries_body
    simp only []
    have hbr : backend_remove env { s0 with entry_list := g_slist_remove s0.entry_list e }
        e.index e.domain e.server =
        (__connman_resolvfile_remove env
          { s0 with entry_list := g_slist_remove s0.entry_list e } e.index e.domain e.server).2 := by
      unfold backend_remove
      rw [if_neg (by simp [hp0])]
    rw [hbr]
    have hl := resolvfile_remove_list env { s0 with entry_list := g_slist_remove s0.entry_list e }
      e.index e.domain e.server
    have ht : (__connman_resolvfile_remove env
        { s0 with entry_list := g_slist_remove s0.entry_list e } e.index e.domain e.server).2.trace =
        s0.trace ++ [Event.resolvfile_write (render (export_content
          (__connman_resolvfile_remove env
            { s0 with entry_list := g_slist_remove s0.entry_list e }
            e.index e.domain e.server).2.resolvfile_list))] := by
      unfold __connman_resolvfile_remove resolvfile_export
      simp only [log]
      have : ∀ (entries : List resolvfile_entry) (x : State),
          (resolvfile_remove_entries x entries).trace = x.trace := by
        intro entries
        unfold resolvfile_remove_entries
        induction entries with
        | nil => intro x; rfl
        | cons a rest ih => intro x; rw [List.foldl_cons, ih]
      rw [this]
    rw [hl] at ht
    have hd := resolvfile_remove_dnsproxy_enabled env
      { s0 with entry_list := g_slist_remove s0.entry_list e } e.index e.domain e.server
    split
    · exact ⟨hd.trans hp0, hl, ht⟩
    · exact ⟨hd.trans hp0, hl, ht⟩
  rw [append_fallback_file env _ hb.1, hb.2.1, hb.2.2, hr0, ht0]
  exact ⟨rfl, rfl⟩

theorem trace_remove_entries_proxy (env : Env) (s : State) (ms : List entry_data)
    (hp : s.dnsproxy_enabled = true) :
    ∃ pushes, (remove_entries env s ms).trace = s.trace ++
      ms.map (fun e => Event.dnsproxy_remove e.index e.domain e.server) ++ pushes ∧
      ∀ ev ∈ pushes, ∃ i d srv, ev = Event.dnsproxy_append i d srv := by
  have h1 := trace_remove_entries_loop env ms s hp
  have hp1 : (remove_entries_loop env ms s).dnsproxy_enabled = true := by
    rw [core_dnsproxy_enabled, remove_entries_loop_core]; exact hp
  unfold remove_entries
  generalize remove_entries_loop env ms s = s1 at h1 hp1
  unfold __connman_resolver_append_fallback_nameservers
  split
  · exact ⟨[], by rw [h1]; simp, by simp⟩
  · refine ⟨(s1.entry_list.filter (fun e => e.index = -1 ∧ e.server ≠ none)).map
      (fun e => Event.dnsproxy_append e.index e.domain e.server), ?_, ?_⟩
    · rw [trace_append_fallback_loop env _ s1 hp1, h1]
    · intro ev hev
      obtain ⟨x, _, hx⟩ := List.mem_map.mp hev
      exact ⟨_, _, _, hx.symm⟩

theorem expire_cb_proxy (env : Env) (s : State) (e : entry_data)
    (hp : s.dnsproxy_enabled = true) :
    ∃ pushes, (resolver_expire_cb env s e).trace = s.trace ++ detach_events env e ++
      [Event.dnsproxy_remove e.index e.domain e.server] ++ pushes ∧
      ∀ ev ∈ pushes, ∃ i d srv, ev = Event.dnsproxy_append i d srv := by
  have hp0 : (if e.index ≥ 0 ∧ env.service_lookup e.index = true then
      log s (Event.service_nameserver_remove e.index e.server) else s).dnsproxy_enabled =
      true := by
    split <;> exact hp
  have ht0 : (if e.index ≥ 0 ∧ env.service_lookup e.index = true then
      log s (Event.service_nameserver_remove e.index e.server) else s).trace =
      s.trace ++ detach_events env e := by
    unfold detach_events
    split
    · rfl
    · simp
  obtain ⟨pushes, h1, h2⟩ := trace_remove_entries_proxy env _ [e] hp0
  refine ⟨pushes, ?_, h2⟩
  unfold resolver_expire_cb
  simp only []
  rw [h1, ht0]
  rfl

theorem eq_of_id_eq {l : List source} (hnd : (l.map source.id).Nodup)
    {a b : source} (ha : a ∈ l) (hb : b ∈ l) (h : a.id = b.id) : a = b :=
  List.inj_on_of_nodup_map hnd ha hb h

/-- Two entries of the store with the same armed timer handle are the same. -/
theorem eq_of_timeout_eq (c : Core) (hinv : Inv c) (ht : TimerInv c) {a b : entry_data}
    (ha : a ∈ c.entry_list) (hb : b ∈ c.entry_list) (hat : a.timeout ≠ 0)
    (h : a.timeout = b.timeout) : a = b := by
  obtain ⟨sa, hsa, hsa1, hsa2⟩ := ht.entry_src a ha hat
  obtain ⟨sb, hsb, hsb1, hsb2⟩ := ht.entry_src b hb (h ▸ hat)
  have : sa = sb := eq_of_id_eq ht.src_nodup hsa hsb (by rw [hsa1, hsb1, h])
  subst this
  exact eq_of_addr_eq hinv.addr_nodup ha hb (hsa2.symm.trans hsb2)

theorem timer_inv_append_untimed (c c' : Core) (e : entry_data) (ht : TimerInv c)
    (he0 : e.timeout = 0) (hel : e.lifetime = 0)
    (h1 : c'.entry_list = c.entry_list ++ [e]) (h2 : c'.sources = c.sources)
    (h3 : c'.source_seq = c.source_seq) : TimerInv c' := by
  constructor
  · intro x hx
    rw [h1] at hx
    rcases List.mem_append.mp hx with h | h
    · exact ht.lifetime_iff x h
    · simp only [List.mem_singleton] at h
      subst h
      simp [he0, hel]
  · intro x hx hxt
    rw [h1] at hx
    rw [h2]
    rcases List.mem_append.mp hx with h | h
    · exact ht.entry_src x h hxt
    · simp only [List.mem_singleton] at h
      subst h
      exact absurd he0 hxt
  · rw [h2]; exact ht.src_nodup
  · rw [h2, h3]; exact ht.src_bound

theorem timer_inv_append_timed (c c' : Core) (e : entry_data) (src : source) (ht : TimerInv c)
    (het : e.timeout = c.source_seq + 1) (hel : e.lifetime ≠ 0)
    (hs1 : src.id = c.source_seq + 1) (hs2 : src.user_data = e.addr)
    (h1 : c'.entry_list = c.entry_list ++ [e]) (h2 : c'.sources = c.sources ++ [src])
    (h3 : c'.source_seq = c.source_seq + 1) : TimerInv c' := by
  constructor
  · intro x hx
    rw [h1] at hx
    rcases List.mem_append.mp hx with h | h
    · exact ht.lifetime_iff x h
    · simp only [List.mem_singleton] at h
      subst h
      simp [het, hel]
  · intro x hx hxt
    rw [h1] at hx
    rw [h2]
    rcases List.mem_append.mp hx with h | h
    · obtain ⟨s0, hs0, ha, hb⟩ := ht.entry_src x h hxt
      exact ⟨s0, List.mem_append_left _ hs0, ha, hb⟩
    · simp only [List.mem_singleton] at h
      subst h
      exact ⟨src, List.mem_append_right _ (List.mem_singleton_self _), hs1.trans het.symm, hs2⟩
  · rw [h2, List.map_append, List.nodup_append]
    refine ⟨ht.src_nodup, by simp, ?_⟩
    intro a ha hb
    simp only [List.map_cons, List.map_nil, List.mem_singleton] at hb
    obtain ⟨x, hx, hxa⟩ := List.mem_map.mp ha
    have := ht.src_bound x hx
    omega
  · intro x hx
    rw [h2] at hx
    rw [h3]
    rcases List.mem_append.mp hx with h | h
    · have := ht.src_bound x h; omega
    · simp only [List.mem_singleton] at h
      subst h
      omega

theorem timer_inv_remove (c c' : Core) (e : entry_data) (hinv : Inv c) (ht : TimerInv c)
    (he : e ∈ c.entry_list)
    (h1 : c'.entry_list = g_slist_remove c.entry_list e)
    (hsub : c'.sources.Sublist c.sources)
    (hkeep : ∀ src ∈ c.sources, src.id ≠ e.timeout → src ∈ c'.sources)
    (h3 : c'.source_seq = c.source_seq) : TimerInv c' := by
  have hmem : ∀ x, x ∈ c'.entry_list ↔ x ∈ c.entry_list ∧ x.addr ≠ e.addr := by
    intro x
    rw [h1]
    exact mem_g_slist_remove hinv.addr_nodup e x
  constructor
  · intro x hx
    exact ht.lifetime_iff x ((hmem x).mp hx).1
  · intro x hx hxt
    obtain ⟨hx1, hx2⟩ := (hmem x).mp hx
    obtain ⟨s0, hs0, ha, hb⟩ := ht.entry_src x hx1 hxt
    refine ⟨s0, hkeep s0 hs0 ?_, ha, hb⟩
    intro heq
    have : x = e := eq_of_timeout_eq c hinv ht hx1 he hxt (ha.symm.trans heq)
    exact hx2 (this ▸ rfl)
  · exact List.Nodup.sublist (List.Sublist.map _ hsub) ht.src_nodup
  · intro x hx
    rw [h3]
    exact ht.src_bound x (hsub.subset hx)

theorem timer_inv_set_timeout (c c' : Core) (e : entry_data) (old : List source) (src : source)
    (hinv : Inv c) (ht : TimerInv c) (he : e ∈ c.entry_list) (het : e.timeout ≠ 0)
    (hs1 : src.id = c.source_seq + 1) (hs2 : src.user_data = e.addr)
    (h1 : c'.entry_list = set_timeout c.entry_list e.addr (c.source_seq + 1))
    (h2 : c'.sources = old ++ [src])
    (hsub : old.Sublist c.sources)
    (hkeep : ∀ x ∈ c.sources, x.id ≠ e.timeout → x ∈ old)
    (h3 : c'.source_seq = c.source_seq + 1) : TimerInv c' := by
  have hmem : ∀ x ∈ c'.entry_list, ∃ y ∈ c.entry_list,
      (y.addr = e.addr ∧ x = { y with timeout := c.source_seq + 1 }) ∨ (y.addr ≠ e.addr ∧ x = y) := by
    intro x hx
    rw [h1] at hx
    unfold set_timeout at hx
    obtain ⟨y, hy, hyx⟩ := List.mem_map.mp hx
    refine ⟨y, hy, ?_⟩
    by_cases hya : y.addr = e.addr
    · left; rw [if_pos hya] at hyx; exact ⟨hya, hyx.symm⟩
    · right; rw [if_neg hya] at hyx; exact ⟨hya, hyx.symm⟩
  constructor
  · intro x hx
    obtain ⟨y, hy, h | h⟩ := hmem x hx
    · have hye : y = e := eq_of_addr_eq hinv.addr_nodup hy he h.1
      have hl := (ht.lifetime_iff e he).mp het
      rw [h.2, hye]
      simp [hl]
    · rw [h.2]; exact ht.lifetime_iff y hy
  · intro x hx hxt
    rw [h2]
    obtain ⟨y, hy, h | h⟩ := hmem x hx
    · refine ⟨src, List.mem_append_right _ (List.mem_singleton_self _), ?_, ?_⟩
      · rw [h.2]; exact hs1
      · rw [h.2]; exact hs2.trans h.1.symm
    · rw [h.2] at hxt ⊢
      obtain ⟨s0, hs0, ha, hb⟩ := ht.entry_src y hy hxt
      refine ⟨s0, List.mem_append_left _ (hkeep s0 hs0 ?_), ha, hb⟩
      intro heq
      have : y = e := eq_of_timeout_eq c hinv ht hy he hxt (ha.symm.trans heq)
      exact h.1 (this ▸ rfl)
  · rw [h2, List.map_append, List.nodup_append]
    refine ⟨List.Nodup.sublist (List.Sublist.map _ hsub) ht.src_nodup, by simp, ?_⟩
    intro a ha hb
    simp only [List.map_cons, List.map_nil, List.mem_singleton] at hb
    obtain ⟨x, hx, hxa⟩ := List.mem_map.mp ha
    have := ht.src_bound x (hsub.subset hx)
    omega
  · intro x hx
    rw [h2] at hx
    rw [h3]
    rcases List.mem_append.mp hx with h | h
    · have := ht.src_bound x (hsub.subset h); omega
    · simp only [List.mem_singleton] at h
      subst h
      omega

theorem timer_inv_append_resolver (env : Env) (s : State) (index : Int)
    (domain server : Option String) (lifetime flags : Nat) (ht : TimerInv s.core) :
    TimerInv (append_resolver env s index domain server lifetime flags).2.core := by
  by_cases hkey : server = none ∧ domain = none
  · unfold append_resolver
    rw [if_pos hkey]
    exact ht
  · have hc := (append_resolver_core env s index domain server lifetime flags hkey).2
    by_cases hl : lifetime = 0
    · subst hl
      exact timer_inv_append_untimed s.core _ (new_entry env s index domain server 0 flags) ht
        rfl rfl (by rw [hc]; rfl) (by rw [hc]; rfl) (by rw [hc]; rfl)
    · rw [if_pos hl, if_pos hl] at hc
      exact timer_inv_append_timed s.core _ (new_entry env s index domain server lifetime flags)
        ⟨s.source_seq + 1, refresh_interval lifetime, Callback.refresh, s.heap_seq + 1⟩ ht
        (by simp [new_entry, hl, State.core]) hl rfl rfl (congrArg Core.entry_list hc)
        (congrArg Core.sources hc) (congrArg Core.source_seq hc)

theorem timer_inv_remove_list (ms : List entry_data) (c : Core) (hinv : Inv c)
    (ht : TimerInv c) (hmem : ∀ m ∈ ms, m ∈ c.entry_list)
    (hnd : (ms.map entry_data.addr).Nodup) :
    TimerInv { c with
      entry_list := ms.foldl g_slist_remove c.entry_list,
      sources := ms.foldl (fun srcs e =>
        if e.timeout ≠ 0 then srcs.filter (fun src => src.id ≠ e.timeout) else srcs) c.sources } := by
  induction ms generalizing c with
  | nil => exact ht
  | cons m rest ih =>
    rw [List.map_cons, List.nodup_cons] at hnd
    have hm : m ∈ c.entry_list := hmem m (List.mem_cons_self _ _)
    have hsrcs : ∀ src ∈ (if m.timeout ≠ 0 then c.sources.filter (fun src => src.id ≠ m.timeout)
        else c.sources), src ∈ c.sources ∧ (m.timeout ≠ 0 → src.id ≠ m.timeout) := by
      intro src hsrc
      split at hsrc
      · rw [List.mem_filter] at hsrc
        exact ⟨hsrc.1, fun _ => by simpa using hsrc.2⟩
      · rename_i h0
        exact ⟨hsrc, fun h => absurd h h0⟩
    have h1 := inv_remove c m
      (if m.timeout ≠ 0 then c.sources.filter (fun src => src.id ≠ m.timeout) else c.sources)
      c.source_seq hinv hm hsrcs
    have h2 : TimerInv { c with
        entry_list := g_slist_remove c.entry_list m,
        sources := if m.timeout ≠ 0 then c.sources.filter (fun src => src.id ≠ m.timeout)
          else c.sources, source_seq := c.source_seq } := by
      apply timer_inv_remove c _ m hinv ht hm rfl
      · show List.Sublist (if m.timeout ≠ 0 then _ else _) c.sources
        split
        · exact List.filter_sublist _
        · exact List.Sublist.refl _
      · intro src hsrc hne
        show src ∈ (if m.timeout ≠ 0 then _ else _)
        split
        · rw [List.mem_filter]
          exact ⟨hsrc, by simpa using hne⟩
        · exact hsrc
      · rfl
    exact ih _ h1 h2 (by
      intro x hx
      show x ∈ g_slist_remove c.entry_list m
      rw [mem_g_slist_remove hinv.addr_nodup]
      refine ⟨hmem x (List.mem_cons_of_mem _ hx), ?_⟩
      intro heq
      exact hnd.1 (heq ▸ List.mem_map_of_mem _ hx)) hnd.2

theorem timer_inv_remove_entries (env : Env) (s : State) (ms : List entry_data)
    (hinv : Inv s.core) (ht : TimerInv s.core)
    (hmem : ∀ m ∈ ms, m ∈ s.entry_list) (hnd : (ms.map entry_data.addr).Nodup) :
    TimerInv (remove_entries env s ms).core := by
  rw [remove_entries_core]
  exact timer_inv_remove_list ms s.core hinv ht hmem hnd

theorem timer_inv_expire (env : Env) (s : State) (e : entry_data)
    (hinv : Inv s.core) (ht : TimerInv s.core) (he : e ∈ s.entry_list) :
    TimerInv (resolver_expire_cb env (g_source_remove s e.timeout) e).core := by
  have hc := resolver_expire_cb_core env (g_source_remove s e.timeout) e
  apply timer_inv_remove s.core _ e hinv ht he (congrArg Core.entry_list hc)
  · rw [congrArg Core.sources hc]
    show List.Sublist (if e.timeout ≠ 0 then (s.sources.filter _).filter _
      else s.sources.filter _) s.sources
    split
    · exact (List.filter_sublist _).trans (List.filter_sublist _)
    · exact List.filter_sublist _
  · intro src hsrc hne
    rw [congrArg Core.sources hc]
    show src ∈ (if e.timeout ≠ 0 then (s.sources.filter _).filter _ else s.sources.filter _)
    have h1 : src ∈ s.sources.filter (fun x => decide (x.id ≠ e.timeout)) := by
      rw [List.mem_filter]
      exact ⟨hsrc, by simpa using hne⟩
    split
    · rw [List.mem_filter]
      exact ⟨h1, by simpa using hne⟩
    · exact h1
  · rw [hc]; rfl

theorem timer_inv_rearm (s : State) (e : entry_data) (interval : Nat) (cb : Callback)
    (hinv : Inv s.core) (ht : TimerInv s.core) (he : e ∈ s.entry_list) (het : e.timeout ≠ 0)
    (c' : Core)
    (h1 : c'.entry_list = set_timeout s.entry_list e.addr (s.source_seq + 1))
    (h2 : c'.sources = s.sources.filter (fun src => src.id ≠ e.timeout) ++
      [⟨s.source_seq + 1, interval, cb, e.addr⟩])
    (h3 : c'.source_seq = s.source_seq + 1) : TimerInv c' := by
  apply timer_inv_set_timeout s.core c' e _ _ hinv ht he het rfl rfl h1 h2
    (List.filter_sublist _) _ h3
  intro x hx hne
  rw [List.mem_filter]
  exact ⟨hx, by simpa using hne⟩

theorem timer_inv_step (env : Env) (s s' : State) (op : Op) (hinv : Inv s.core)
    (ht : TimerInv s.core) (hs : step env s op = some s') : TimerInv s'.core := by
  cases op with
  | append index domain server =>
    simp only [step, Option.some.injEq] at hs
    subst hs
    unfold connman_resolver_append
    split
    · exact ht
    · split
      · simp only []
        split
        · rw [core_dnsproxy_append]; exact ht
        · exact ht
      · exact timer_inv_append_resolver env s _ _ _ _ _ ht
  | append_lifetime index domain server lifetime =>
    simp only [step, Option.some.injEq] at hs
    subst hs
    unfold connman_resolver_append_lifetime
    split
    · exact ht
    · split
      · rename_i entry hf
        have hmem : entry ∈ s.entry_list := List.mem_of_find?_eq_some hf
        have hp := List.find?_some hf
        simp only [key_match_iff, decide_eq_true_eq] at hp
        split
        · exact timer_inv_expire env s entry hinv ht hmem
        · exact timer_inv_rearm s entry (refresh_interval lifetime) Callback.refresh hinv ht
            hmem hp.1 _ rfl rfl rfl
      · exact timer_inv_append_resolver env s _ _ _ _ _ ht
  | remove index domain server =>
    simp only [step, Option.some.injEq] at hs
    subst hs
    unfold connman_resolver_remove
    split
    · exact ht
    · rename_i entry hf
      apply timer_inv_remove_entries env s _ hinv ht
      · intro m hm
        simp only [List.mem_singleton] at hm
        subst hm
        exact List.mem_of_find?_eq_some hf
      · simp
  | remove_all index =>
    simp only [step, Option.some.injEq] at hs
    subst hs
    unfold connman_resolver_remove_all
    split
    · exact ht
    · simp only [remove_all_matches, List.append_nil]
      split
      · exact ht
      · apply timer_inv_remove_entries env s _ hinv ht
        · intro m hm
          rw [List.mem_reverse] at hm
          exact List.mem_of_mem_filter hm
        · rw [List.map_reverse, List.nodup_reverse]
          exact nodup_addr_filter _ _ hinv.addr_nodup
  | timer id =>
    simp only [step] at hs
    unfold dispatch at hs
    split at hs
    · cases hs
    · rename_i src hsrc
      have hsm : src ∈ s.sources := List.mem_of_find?_eq_some hsrc
      have hsid : src.id = id := by simpa using List.find?_some hsrc
      simp only [] at hs
      split at hs
      · cases hs
      · rename_i entry hent
        have hem : entry ∈ s.entry_list := List.mem_of_find?_eq_some hent
        have hea : entry.addr = src.user_data := by simpa using List.find?_some hent
        obtain ⟨h0, x, hx, hxa, hxt⟩ := hinv.src_entry src hsm
        have hxe : x = entry := eq_of_addr_eq hinv.addr_nodup hx hem (hxa.trans hea.symm)
        subst hxe
        have het : x.timeout = id := hxt.trans hsid
        split at hs
        · cases hs
          rw [resolver_refresh_cb_core]
          apply timer_inv_rearm s x (expire_interval x.lifetime) Callback.expire hinv ht hem
            (hxt ▸ h0)
          · rfl
          · show (s.sources.filter _) ++ _ = _
            rw [het]
            rfl
          · rfl
        · cases hs
          rw [← het]
          exact timer_inv_expire env s x hinv ht hem

theorem timer_inv_reachable (env : Env) (allowed : State → Op → Bool) (s0 s : State)
    (h0 : Inv s0.core) (h1 : TimerInv s0.core) (h : Reachable env allowed s0 s) :
    Inv s.core ∧ TimerInv s.core := by
  induction h with
  | start => exact ⟨h0, h1⟩
  | next op _ _ hstep ih => exact ⟨inv_step env _ _ op ih.1 hstep,
      timer_inv_step env _ _ op ih.1 ih.2 hstep⟩

theorem timer_inv_empty (dnsproxy : Bool) : TimerInv (empty_state dnsproxy).core := by
  constructor <;> simp [empty_state, State.core]

theorem length_le_one_of_nodup_const {α : Type} (l : List α) (t : α) (hnd : l.Nodup)
    (h : ∀ x ∈ l, x = t) : l.length ≤ 1 := by
  match l, hnd, h with
  | [], _, _ => simp
  | [_], _, _ => simp
  | a :: b :: rest, hnd, h =>
    exfalso
    have ha := h a (by simp)
    have hb := h b (by simp)
    rw [List.nodup_cons] at hnd
    exact hnd.1 (by rw [ha, ← hb]; simp)

theorem count_sources_of_timed (c : Core) (hinv : Inv c) (ht : TimerInv c) (e : entry_data)
    (he : e ∈ c.entry_list) (het : e.timeout ≠ 0) :
    c.sources.countP (fun src => src.user_data = e.addr) = 1 := by
  rw [List.countP_eq_length_filter]
  apply Nat.le_antisymm
  · have hnd : ((c.sources.filter (fun src => decide (src.user_data = e.addr))).map
        source.id).Nodup :=
      List.Nodup.sublist ((List.filter_sublist _).map _) ht.src_nodup
    have := length_le_one_of_nodup_const _ e.timeout hnd (by
      intro x hx
      rw [List.mem_map] at hx
      obtain ⟨src, hsrc, rfl⟩ := hx
      rw [List.mem_filter] at hsrc
      obtain ⟨_, y, hy, hya, hyt⟩ := hinv.src_entry src hsrc.1
      have hye : y = e := eq_of_addr_eq hinv.addr_nodup hy he
        (hya.trans (by simpa using hsrc.2))
      rw [← hyt, hye])
    simpa using this
  · obtain ⟨src, hsrc, _, hu⟩ := ht.entry_src e he het
    apply List.length_pos_of_mem
    rw [List.mem_filter]
    exact ⟨hsrc, by simpa using hu⟩

theorem count_sources_of_untimed (c : Core) (hinv : Inv c) (e : entry_data)
    (he : e ∈ c.entry_list) (het : e.timeout = 0) :
    c.sources.countP (fun src => src.user_data = e.addr) = 0 := by
  rw [List.countP_eq_zero]
  intro src hsrc hp
  obtain ⟨h0, y, hy, hya, hyt⟩ := hinv.src_entry src hsrc
  have hye : y = e := eq_of_addr_eq hinv.addr_nodup hy he (hya.trans (by simpa using hp))
  rw [hye, het] at hyt
  exact h0 hyt.symm

theorem set_timeout_of_not_mem (l : List entry_data) (addr id : Nat)
    (h : ∀ x ∈ l, x.addr ≠ addr) : set_timeout l addr id = l := by
  unfold set_timeout
  induction l with
  | nil => rfl
  | cons x rest ih =>
    rw [List.map_cons, if_neg (h x (List.mem_cons_self _ _)),
      ih (fun y hy => h y (List.mem_cons_of_mem _ hy))]

theorem set_timeout_split (before after : List entry_data) (entry : entry_data) (id : Nat)
    (hnd : ((before ++ entry :: after).map entry_data.addr).Nodup) :
    set_timeout (before ++ entry :: after) entry.addr id =
      before ++ { entry with timeout := id } :: after := by
  rw [List.map_append, List.map_cons, List.nodup_append] at hnd
  obtain ⟨_, h2, h3⟩ := hnd
  rw [List.nodup_cons] at h2
  have hb : ∀ x ∈ before, x.addr ≠ entry.addr := by
    intro x hx heq
    exact h3 (List.mem_map_of_mem _ hx) (by rw [heq]; exact List.mem_cons_self _ _)
  have ha : ∀ x ∈ after, x.addr ≠ entry.addr := by
    intro x hx heq
    exact h2.1 (heq ▸ List.mem_map_of_mem _ hx)
  have h := set_timeout_of_not_mem before entry.addr id hb
  have h' := set_timeout_of_not_mem after entry.addr id ha
  unfold set_timeout at h h' ⊢
  rw [List.map_append, List.map_cons, h, h', if_pos rfl]

theorem find_timed_split (index : Int) (domain server : Option String)
    (before after : List entry_data) (entry : entry_data)
    (het : entry.timeout ≠ 0) (hi : entry.index = index) (hd : entry.domain = domain)
    (hs : entry.server = server)
    (hb : ∀ x ∈ before, ¬ (x.timeout ≠ 0 ∧ x.index = index ∧ x.domain = domain ∧
      x.server = server)) :
    (before ++ entry :: after).find?
      (fun e => decide (e.timeout ≠ 0 ∧ key_match index domain server e = true)) = some entry := by
  rw [List.find?_append, List.find?_eq_none.mpr, Option.none_or, List.find?_cons_of_pos]
  · simp [key_match, het, hi, hd, hs]
  · intro x hx
    have := hb x hx
    simpa [key_match] using this

theorem render_append (a b : List Chunk) : render (a ++ b) = render a ++ render b := by
  induction a with
  | nil => rw [List.nil_append, render_nil, String.empty_append]
  | cons c rest ih => rw [List.cons_append, render_cons, render_cons, ih, String.append_assoc]

theorem render_map_domain (doms : List String) :
    render (doms.map Chunk.domain) = concat_text (doms.map (fun d => d ++ " ")) := by
  induction doms with
  | nil => rfl
  | cons d rest ih =>
    rw [List.map_cons, render_cons, ih]
    rfl

theorem render_map_nameserver (srvs : List String) :
    render (srvs.map Chunk.nameserver) =
      concat_text (srvs.map (fun srv => "nameserver " ++ srv ++ "\n")) := by
  induction srvs with
  | nil => rfl
  | cons d rest ih =>
    rw [List.map_cons, render_cons, ih]
    rfl

theorem render_export_content (l : List resolvfile_entry) :
    render (export_content l) = spec_text l := by
  rw [export_content_eq_spec]
  unfold spec_content spec_text
  simp only []
  rw [render_cons, render_append, render_map_nameserver]
  congr 2
  split
  · rfl
  · rw [render_cons, render_append, render_map_domain, render_cons, render_nil,
      String.append_empty]
    rfl

theorem splitOn_first (c : Char) (line rest : List Char) (h : c ∉ line) :
    (line ++ c :: rest).splitOn c = line :: rest.splitOn c := by
  unfold List.splitOn
  apply List.splitOnP_first
  · intro x hx hp
    have : x = c := by simpa using hp
    exact h (this ▸ hx)
  · simp

theorem splitOn_nil_char (c : Char) : ([] : List Char).splitOn c = [[]] := by
  unfold List.splitOn
  exact List.splitOnP_nil _

theorem lines_nameservers (srvs : List String) (hs : ∀ srv ∈ srvs, '\n' ∉ srv.data) :
    (concat_text (srvs.map (fun srv => "nameserver " ++ srv ++ "\n"))).data.splitOn '\n' =
      srvs.map (fun srv => "nameserver ".data ++ srv.data) ++ [[]] := by
  induction srvs with
  | nil => exact splitOn_nil_char _
  | cons srv rest ih =>
    have h1 : (concat_text ((srv :: rest).map (fun srv => "nameserver " ++ srv ++ "\n"))).data =
        ("nameserver ".data ++ srv.data) ++ '\n' ::
          (concat_text (rest.map (fun srv => "nameserver " ++ srv ++ "\n"))).data := by
      show (("nameserver " ++ srv ++ "\n") ++ concat_text _).data = _
      simp only [String.data_append, List.append_assoc]
      rfl
    rw [h1, splitOn_first, ih (fun x hx => hs x (List.mem_cons_of_mem _ hx))]
    · rfl
    · intro hmem
      rw [List.mem_append] at hmem
      rcases hmem with hmem | hmem
      · revert hmem; decide
      · exact hs srv (List.mem_cons_self _ _) hmem

theorem words_domains (doms : List String) (hd : ∀ d ∈ doms, ' ' ∉ d.data) :
    (concat_text (doms.map (fun d => d ++ " "))).data.splitOn ' ' =
      doms.map String.data ++ [[]] := by
  induction doms with
  | nil => exact splitOn_nil_char _
  | cons d rest ih =>
    have h1 : (concat_text ((d :: rest).map (fun d => d ++ " "))).data =
        d.data ++ ' ' :: (concat_text (rest.map (fun d => d ++ " "))).data := by
      show ((d ++ " ") ++ concat_text _).data = _
      simp only [String.data_append, List.append_assoc]
      rfl
    rw [h1, splitOn_first _ _ _ (hd d (List.mem_cons_self _ _)),
      ih (fun x hx => hd x (List.mem_cons_of_mem _ hx))]
    rfl

theorem not_mem_concat_domains (doms : List String) (hd : ∀ d ∈ doms, '\n' ∉ d.data) :
    '\n' ∉ (concat_text (doms.map (fun d => d ++ " "))).data := by
  induction doms with
  | nil => simp [concat_text]
  | cons d rest ih =>
    show '\n' ∉ ((d ++ " ") ++ concat_text _).data
    simp only [String.data_append, List.mem_append, not_or]
    exact ⟨⟨hd d (List.mem_cons_self _ _), by decide⟩,
      ih (fun x hx => hd x (List.mem_cons_of_mem _ hx))⟩

theorem text_lines_spec (l : List resolvfile_entry)
    (hd : ∀ e ∈ l, ∀ d, e.domain = some d → '\n' ∉ d.data)
    (hs : ∀ e ∈ l, ∀ srv, e.server = some srv → '\n' ∉ srv.data) :
    text_lines (spec_text l) =
      "# Generated by Connection Manager".data ::
        ((if (l.reverse.filterMap (fun e => e.domain)).take MAXDNSRCH = [] then []
          else [search_line ((l.reverse.filterMap (fun e => e.domain)).take MAXDNSRCH)]) ++
        (((l.reverse.filterMap (fun e => e.server)).take MAXNS).map
          (fun srv => "nameserver ".data ++ srv.data) ++ [[]])) := by
  have hd' : ∀ d ∈ (l.reverse.filterMap (fun e => e.domain)).take MAXDNSRCH, '\n' ∉ d.data := by
    intro d hmem
    have := List.mem_of_mem_take hmem
    rw [List.mem_filterMap] at this
    obtain ⟨e, he, hde⟩ := this
    exact hd e (List.mem_reverse.mp he) d hde
  have hs' : ∀ srv ∈ (l.reverse.filterMap (fun e => e.server)).take MAXNS, '\n' ∉ srv.data := by
    intro d hmem
    have := List.mem_of_mem_take hmem
    rw [List.mem_filterMap] at this
    obtain ⟨e, he, hde⟩ := this
    exact hs e (List.mem_reverse.mp he) d hde
  unfold text_lines spec_text
  simp only []
  generalize (l.reverse.filterMap (fun e => e.domain)).take MAXDNSRCH = doms at hd'
  generalize (l.reverse.filterMap (fun e => e.server)).take MAXNS = srvs at hs'
  have hh : ("# Generated by Connection Manager\n" : String).data =
      "# Generated by Connection Manager".data ++ ['\n'] := by decide
  rw [String.data_append, hh, List.append_assoc, List.singleton_append,
    splitOn_first _ _ _ (by decide)]
  congr 1
  by_cases hdm : doms = []
  · rw [if_pos hdm, if_pos hdm, String.data_append]
    show ([] ++ _).splitOn '\n' = _
    rw [List.nil_append, List.nil_append]
    exact lines_nameservers srvs hs'
  · rw [if_neg hdm, if_neg hdm]
    have h2 : (("search " ++ (concat_text (doms.map (fun d => d ++ " ")) ++ "\n")) ++
        concat_text (srvs.map (fun srv => "nameserver " ++ srv ++ "\n"))).data =
        search_line doms ++ '\n' ::
          (concat_text (srvs.map (fun srv => "nameserver " ++ srv ++ "\n"))).data := by
      unfold search_line
      simp only [String.data_append, List.append_assoc]
      rfl
    rw [h2, splitOn_first, lines_nameservers srvs hs']
    · rfl
    · unfold search_line
      intro hmem
      rw [List.mem_append] at hmem
      rcases hmem with hmem | hmem
      · revert hmem; decide
      · exact not_mem_concat_domains doms hd' hmem

theorem starts_with_nameserver_line (srv : String) :
    starts_with "search " ("nameserver ".data ++ srv.data) = false ∧
    starts_with "nameserver " ("nameserver ".data ++ srv.data) = true := by
  constructor
  · unfold starts_with
    rw [List.take_append_of_le_length (by decide)]
    decide
  · unfold starts_with
    rw [List.take_left]
    decide

theorem starts_with_search_line (doms : List String) :
    starts_with "search " (search_line doms) = true ∧
    starts_with "nameserver " (search_line doms) = false := by
  unfold search_line starts_with
  constructor
  · rw [List.take_left]
    decide
  · have : ∀ rest : List Char, ("search ".data ++ rest).take "nameserver ".data.length ≠
        "nameserver ".data := by
      intro rest h
      have h1 : ("search ".data ++ rest) = 's' :: ("earch ".data ++ rest) := rfl
      have h2 : "nameserver ".data.length = 10 + 1 := by decide
      have h3 : "nameserver ".data = 'n' :: "ameserver ".data := by decide
      rw [h1, h2, List.take_succ_cons, h3] at h
      exact absurd (List.cons.inj h).1 (by decide)
    exact decide_eq_false (this _)

theorem search_line_words (doms : List String) (hd : ∀ d ∈ doms, ' ' ∉ d.data) :
    (line_words (search_line doms)).tail.length ≤ doms.length := by
  unfold line_words search_line
  have hs : ("search " : String).data = "search".data ++ [' '] := by decide
  rw [hs, List.append_assoc, List.singleton_append, splitOn_first _ _ _ (by decide),
    words_domains doms hd, List.filter_cons_of_pos (by decide), List.tail_cons,
    List.filter_append]
  have h1 := List.length_filter_le (fun w : List Char => decide (w ≠ [])) (doms.map String.data)
  simp only [List.length_append, List.length_map] at h1 ⊢
  have : (List.filter (fun w : List Char => decide (w ≠ [])) [[]]).length = 0 := by decide
  omega

theorem countP_map_const {α β : Type} (p : β → Bool) (q : Bool) (f : α → β)
    (h : ∀ a, p (f a) = q) (l : List α) :
    (l.map f).countP p = if q then l.length else 0 := by
  induction l with
  | nil => simp
  | cons d rest ih =>
    rw [List.map_cons, List.countP_cons, ih, h d]
    cases q <;> simp

/-! ## Claims -/

/-- C1: for a key with domain or server present, if the store holds an untimed
entry with that index, domain and server, `connman_resolver_append` returns
`-EEXIST` and changes nothing (entry store, timers, resolv-file list) except
for one append notification to the DNS proxy when the proxy backend is active. -/
theorem append_existing_untimed (env : Env) (s : State) (index : Int)
    (domain server : Option String)
    (hkey : domain ≠ none ∨ server ≠ none)
    (hdup : ∃ e ∈ s.entry_list, e.timeout = 0 ∧ e.index = index ∧ e.domain = domain ∧
      e.server = server) :
    connman_resolver_append env s index domain server =
      (-EEXIST, { s with trace := s.trace ++
        (if s.dnsproxy_enabled then [Event.dnsproxy_append index domain server] else []) }) := by
  obtain ⟨e, he, ht, hi, hd, hs⟩ := hdup
  have hne : ¬ (server = none ∧ domain = none) := by
    rintro ⟨h1, h2⟩; rcases hkey with h | h <;> contradiction
  unfold connman_resolver_append
  rw [if_neg hne]
  cases hf : s.entry_list.find?
      (fun entry => decide (entry.timeout = 0 ∧ key_match index domain server entry = true)) with
  | none =>
    rw [List.find?_eq_none] at hf
    have := hf e he
    simp [key_match, ht, hi, hd, hs] at this
  | some entry =>
    have hm := List.find?_some hf
    simp [key_match] at hm
    cases s with
    | mk el dp rl src sq hq tr =>
      cases dp <;> simp [__connman_dnsproxy_append, log, hm.2.1]

theorem append_existing_untimed_witness :
    connman_resolver_append env_demo state_demo 1 none (some "1.1.1.1") =
      (-EEXIST, { state_demo with trace := state_demo.trace ++
        (if state_demo.dnsproxy_enabled then
          [Event.dnsproxy_append 1 none (some "1.1.1.1")] else []) }) :=
  append_existing_untimed env_demo state_demo 1 none (some "1.1.1.1") (Or.inr (by simp))
    ⟨⟨1, 1, none, some "1.1.1.1", AF_INET6, 0, 0, 0⟩, by decide, rfl, rfl, rfl, rfl⟩

/-- C2: in every state reachable from the empty store by appends, appends with
lifetime, removes, remove-alls and timer firings, no two entries with an armed
timer share the same (index, domain, server) key; and
`connman_resolver_append_lifetime` with a lifetime > 0 on a key that has a timed
entry adds no entry (same number of entries, same keys in the same order): it
returns 0, cancels the pending timer of the first timed entry with the key
(`g_source_remove` of its handle), arms a new refresh timer of
`refresh_interval lifetime` seconds for that entry and stores the new handle in
it, changing nothing else; with distinct allocations the store is the old one
with that entry's handle replaced. -/
theorem no_duplicate_timed_entries (env : Env) :
    (∀ (dnsproxy : Bool) (s : State),
      Reachable env (fun _ _ => true) (empty_state dnsproxy) s →
      s.entry_list.Pairwise (fun a b => a.timeout ≠ 0 → b.timeout ≠ 0 →
        ¬ (a.index = b.index ∧ a.domain = b.domain ∧ a.server = b.server))) ∧
    (∀ (s : State) (index : Int) (domain server : Option String) (lifetime : Nat),
      0 < lifetime →
      (∃ e ∈ s.entry_list, e.timeout ≠ 0 ∧ e.index = index ∧ e.domain = domain ∧
        e.server = server) →
      (connman_resolver_append_lifetime env s index domain server lifetime).2.entry_list.length =
        s.entry_list.length ∧
      (connman_resolver_append_lifetime env s index domain server lifetime).2.entry_list.map
        (fun e => (e.index, e.domain, e.server)) =
        s.entry_list.map (fun e => (e.index, e.domain, e.server))) ∧
    (∀ (s : State) (index : Int) (domain server : Option String) (lifetime : Nat)
      (before after : List entry_data) (entry : entry_data),
      (server ≠ none ∨ domain ≠ none) → 0 < lifetime →
      s.entry_list = before ++ entry :: after →
      entry.timeout ≠ 0 → entry.index = index → entry.domain = domain →
      entry.server = server →
      (∀ x ∈ before, ¬ (x.timeout ≠ 0 ∧ x.index = index ∧ x.domain = domain ∧
        x.server = server)) →
      connman_resolver_append_lifetime env s index domain server lifetime =
        (0, { s with
          entry_list := set_timeout s.entry_list entry.addr (s.source_seq + 1),
          sources := s.sources.filter (fun src => src.id ≠ entry.timeout) ++
            [⟨s.source_seq + 1, refresh_interval lifetime, Callback.refresh, entry.addr⟩],
          source_seq := s.source_seq + 1 }) ∧
      ((s.entry_list.map entry_data.addr).Nodup →
        (connman_resolver_append_lifetime env s index domain server lifetime).2.entry_list =
          before ++ { entry with timeout := s.source_seq + 1 } :: after)) := by
  refine ⟨?_, ?_, ?_⟩
  · intro dnsproxy s hr
    exact (inv_reachable env _ _ s (inv_empty dnsproxy) hr).timed
  · rintro s index domain server lifetime hl ⟨e, he, het, hei, hed, hes⟩
    have hkeys : (connman_resolver_append_lifetime env s index domain server
        lifetime).2.entry_list.map (fun e => (e.index, e.domain, e.server)) =
        s.entry_list.map (fun e => (e.index, e.domain, e.server)) := by
      unfold connman_resolver_append_lifetime
      split
      · rfl
      · split
        · rw [if_neg (by omega)]
          exact set_timeout_keys _ _ _
        · rename_i hf
          rw [List.find?_eq_none] at hf
          exact absurd (by simp [key_match, het, hei, hed, hes]) (hf e he)
    refine ⟨?_, hkeys⟩
    have := congrArg List.length hkeys
    simpa using this
  · intro s index domain server lifetime before after entry hkey hl hsplit het hi hd hs hb
    have hres : connman_resolver_append_lifetime env s index domain server lifetime =
        (0, { s with
          entry_list := set_timeout s.entry_list entry.addr (s.source_seq + 1),
          sources := s.sources.filter (fun src => src.id ≠ entry.timeout) ++
            [⟨s.source_seq + 1, refresh_interval lifetime, Callback.refresh, entry.addr⟩],
          source_seq := s.source_seq + 1 }) := by
      have hf : s.entry_list.find?
          (fun e => decide (e.timeout ≠ 0 ∧ key_match index domain server e = true)) =
          some entry := by
        rw [hsplit]
        exact find_timed_split index domain server before after entry het hi hd hs hb
      unfold connman_resolver_append_lifetime
      rw [if_neg (by
        intro h
        rcases hkey with hk | hk
        · exact hk h.1
        · exact hk h.2), hf]
      simp only []
      rw [if_neg (by omega)]
      rfl
    refine ⟨hres, fun hnd => ?_⟩
    rw [hres]
    show set_timeout s.entry_list entry.addr (s.source_seq + 1) = _
    rw [hsplit] at hnd ⊢
    exact set_timeout_split before after entry _ hnd

theorem no_duplicate_timed_entries_witness :
    (connman_resolver_append_lifetime env_demo
      (connman_resolver_append_lifetime env_demo (empty_state true) 1 none
        (some "2001:db8::1") 101).2 1 none (some "2001:db8::1") 12).2.entry_list.length = 1 ∧
    (connman_resolver_append_lifetime env_demo
      (connman_resolver_append_lifetime env_demo (empty_state true) 1 none
        (some "2001:db8::1") 101).2 1 none (some "2001:db8::1") 12).2.entry_list.Pairwise
      (fun a b => a.timeout ≠ 0 → b.timeout ≠ 0 →
        ¬ (a.index = b.index ∧ a.domain = b.domain ∧ a.server = b.server)) ∧
    (connman_resolver_append_lifetime env_demo (empty_state true) 1 none
      (some "2001:db8::1") 101).2.sources = [⟨1, 80, Callback.refresh, 1⟩] ∧
    (connman_resolver_append_lifetime env_demo
      (connman_resolver_append_lifetime env_demo (empty_state true) 1 none
        (some "2001:db8::1") 101).2 1 none (some "2001:db8::1") 12).2.sources =
      [⟨2, 9, Callback.refresh, 1⟩] ∧
    (connman_resolver_append_lifetime env_demo
      (connman_resolver_append_lifetime env_demo (empty_state true) 1 none
        (some "2001:db8::1") 101).2 1 none (some "2001:db8::1") 12).2.entry_list =
      [⟨1, 1, none, some "2001:db8::1", AF_INET6, 0, 101, 2⟩] := by
  refine ⟨?_, ?_, by decide, ?_, ?_⟩
  · exact ((no_duplicate_timed_entries env_demo).2.1
      (connman_resolver_append_lifetime env_demo (empty_state true) 1 none
        (some "2001:db8::1") 101).2 1 none (some "2001:db8::1") 12 (by decide)
      ⟨⟨1, 1, none, some "2001:db8::1", AF_INET6, 0, 101, 1⟩, by decide, by decide, rfl, rfl,
        rfl⟩).1
  · exact (no_duplicate_timed_entries env_demo).1 true _
      (Reachable.next (Op.append_lifetime 1 none (some "2001:db8::1") 12)
        (Reachable.next (Op.append_lifetime 1 none (some "2001:db8::1") 101)
          Reachable.start rfl rfl) rfl rfl)
  · rw [((no_duplicate_timed_entries env_demo).2.2
      (connman_resolver_append_lifetime env_demo (empty_state true) 1 none
        (some "2001:db8::1") 101).2 1 none (some "2001:db8::1") 12 [] []
      ⟨1, 1, none, some "2001:db8::1", AF_INET6, 0, 101, 1⟩ (Or.inl (by decide)) (by decide)
      (by decide) (by decide) rfl rfl rfl (by simp)).1]
    decide
  · rw [((no_duplicate_timed_entries env_demo).2.2
      (connman_resolver_append_lifetime env_demo (empty_state true) 1 none
        (some "2001:db8::1") 101).2 1 none (some "2001:db8::1") 12 [] []
      ⟨1, 1, none, some "2001:db8::1", AF_INET6, 0, 101, 1⟩ (Or.inl (by decide)) (by decide)
      (by decide) (by decide) rfl rfl rfl (by simp)).2 (by decide)]
    decide

/-- C3 (amended): from the state `__connman_resolver_init` leaves, (1) in Proxy
mode, as long as no key with index -1 and a server is appended while an
interface-scoped server entry exists, every fallback entry of the store (index
-1, server present) is pushed to the DNS proxy and not withdrawn iff the store
has no entry with `index >= 0` and a server; (2) in File mode a fallback entry
is never in the resolv-file list (`__connman_resolvfile_append` rejects a
negative index), whatever the store holds. -/
theorem fallback_activation (env : Env) (useProxy : Bool) :
    (∀ s : State,
      Reachable env fallback_allowed
        (__connman_resolver_init env (empty_state false) useProxy).2 s →
      s.dnsproxy_enabled = true →
      ∀ e ∈ s.entry_list, e.index = -1 → e.server ≠ none →
        (proxy_has s.trace (e.index, e.domain, e.server) = true ↔
          ∀ x ∈ s.entry_list, ¬ (0 ≤ x.index ∧ x.server ≠ none))) ∧
    (∀ s : State,
      Reachable env (fun _ _ => true)
        (__connman_resolver_init env (empty_state false) useProxy).2 s →
      s.dnsproxy_enabled = false →
      ∀ e ∈ s.entry_list, e.index = -1 →
        (⟨e.index, e.domain, e.server⟩ : resolvfile_entry) ∉ s.resolvfile_list) := by
  constructor
  · intro s hr hp e he hi hs
    have h := (fallback_ok_reachable env _ s (fallback_ok_init env useProxy) hr).2 hp e he hi hs
    rw [show (e.index, e.domain, e.server) = e.key from rfl, h]
    simp [has_iface_server]
  · intro s hr _ e _ hi hmem
    have := file_ok_reachable env _ _ s (file_ok_init env useProxy) hr _ hmem
    simp only [hi] at this
    omega

theorem fallback_activation_witness :
    (proxy_has (connman_resolver_append env_demo
        (__connman_resolver_init env_demo (empty_state false) true).2 1 none
          (some "1.1.1.1")).2.trace (-1, none, some "8.8.8.8") = true ↔
      ∀ x ∈ (connman_resolver_append env_demo
        (__connman_resolver_init env_demo (empty_state false) true).2 1 none
          (some "1.1.1.1")).2.entry_list, ¬ (0 ≤ x.index ∧ x.server ≠ none)) ∧
    (⟨-1, none, some "8.8.8.8"⟩ : resolvfile_entry) ∉
      (connman_resolver_append env_demo
        (__connman_resolver_init env_demo (empty_state false) false).2 (-1) none
          (some "8.8.8.8")).2.resolvfile_list :=
  ⟨(fallback_activation env_demo true).1 _
      (Reachable.next (Op.append 1 none (some "1.1.1.1")) Reachable.start rfl rfl) (by decide)
      ⟨1, -1, none, some "8.8.8.8", AF_INET6, RESOLVER_FLAG_PUBLIC, 0, 0⟩ (by decide) rfl
      (by decide),
   (fallback_activation env_demo false).2 _
      (Reachable.next (Op.append (-1) none (some "8.8.8.8")) Reachable.start rfl rfl) (by decide)
      ⟨1, -1, none, some "8.8.8.8", AF_INET6, 0, 0, 0⟩ (by decide) rfl⟩

/-- C3 fails as stated.  File mode: after `connman_resolver_append(-1, NULL,
"8.8.8.8")` the store holds that fallback entry and no interface-scoped server
entry, yet the resolv-file list is empty.  Proxy mode: after the start-up
registered the fallback, `connman_resolver_append(1, NULL, "1.1.1.1")` and then
`connman_resolver_append(-1, NULL, "9.9.9.9")` leave the fallback 9.9.9.9 pushed
to the proxy while an interface-scoped server entry exists. -/
theorem fallback_rule_violations :
    ((connman_resolver_append env_demo
        (__connman_resolver_init env_demo (empty_state false) false).2 (-1) none
          (some "8.8.8.8")).2.dnsproxy_enabled = false ∧
      (connman_resolver_append env_demo
        (__connman_resolver_init env_demo (empty_state false) false).2 (-1) none
          (some "8.8.8.8")).2.entry_list.map entry_data.key = [(-1, none, some "8.8.8.8")] ∧
      (connman_resolver_append env_demo
        (__connman_resolver_init env_demo (empty_state false) false).2 (-1) none
          (some "8.8.8.8")).2.resolvfile_list = []) ∧
    ((connman_resolver_append env_demo
        (connman_resolver_append env_demo
          (__connman_resolver_init env_demo (empty_state false) true).2 1 none
            (some "1.1.1.1")).2 (-1) none (some "9.9.9.9")).2.entry_list.map entry_data.key =
        [(-1, none, some "8.8.8.8"), (1, none, some "1.1.1.1"), (-1, none, some "9.9.9.9")] ∧
      proxy_has (connman_resolver_append env_demo
        (connman_resolver_append env_demo
          (__connman_resolver_init env_demo (empty_state false) true).2 1 none
            (some "1.1.1.1")).2 (-1) none (some "9.9.9.9")).2.trace
        (-1, none, some "9.9.9.9") = true) := by
  decide

/-- C4 (amended): for every resolv-file list the content of `resolvfile_export`
is built from at most one `search ` call, at most `MAXDNSRCH` (6) domain calls
and at most `MAXNS` (3) `nameserver` calls.  When no domain contains a blank or
a newline and no server contains a newline, the generated text has at most one
line beginning with `search `, that line has at most 6 words after the keyword,
and the text has at most 3 lines beginning with `nameserver `. -/
theorem export_content_bounds (l : List resolvfile_entry) :
    ((export_content l).countP Chunk.is_search ≤ 1 ∧
      (export_content l).countP Chunk.is_domain ≤ MAXDNSRCH ∧
      (export_content l).countP Chunk.is_nameserver ≤ MAXNS ∧
      MAXDNSRCH = 6 ∧ MAXNS = 3) ∧
    ((∀ e ∈ l, ∀ d, e.domain = some d → ' ' ∉ d.data ∧ '\n' ∉ d.data) →
      (∀ e ∈ l, ∀ srv, e.server = some srv → '\n' ∉ srv.data) →
      (text_lines (render (export_content l))).countP (starts_with "search ") ≤ 1 ∧
      (∀ line ∈ text_lines (render (export_content l)), starts_with "search " line = true →
        (line_words line).tail.length ≤ 6) ∧
      (text_lines (render (export_content l))).countP (starts_with "nameserver ") ≤ 3) := by
  constructor
  · rw [export_content_eq_spec]
    unfold spec_content
    have hd : ((l.reverse.filterMap (fun e => e.domain)).take MAXDNSRCH).length ≤ MAXDNSRCH :=
      List.length_take_le _ _
    have hs : ((l.reverse.filterMap (fun e => e.server)).take MAXNS).length ≤ MAXNS :=
      List.length_take_le _ _
    generalize (l.reverse.filterMap (fun e => e.domain)).take MAXDNSRCH = doms at hd
    generalize (l.reverse.filterMap (fun e => e.server)).take MAXNS = srvs at hs
    refine ⟨?_, ?_, ?_, rfl, rfl⟩
    · cases doms with
      | nil =>
        simp [List.countP_cons, countP_map_domain Chunk.is_search false Chunk.nameserver
          (fun _ => rfl), Chunk.is_search]
      | cons d ds =>
        simp [List.countP_cons, List.countP_append,
          countP_map_domain Chunk.is_search false Chunk.nameserver (fun _ => rfl),
          countP_map_domain Chunk.is_search false Chunk.domain (fun _ => rfl), Chunk.is_search]
    · cases doms with
      | nil =>
        simp [List.countP_cons, countP_map_domain Chunk.is_domain false Chunk.nameserver
          (fun _ => rfl), Chunk.is_domain]
      | cons d ds =>
        simp [List.countP_cons, List.countP_append,
          countP_map_domain Chunk.is_domain false Chunk.nameserver (fun _ => rfl),
          countP_map_domain Chunk.is_domain true Chunk.domain (fun _ => rfl), Chunk.is_domain]
        simpa using hd
    · cases doms with
      | nil =>
        simp [List.countP_cons, countP_map_domain Chunk.is_nameserver true Chunk.nameserver
          (fun _ => rfl), Chunk.is_nameserver]
        exact hs
      | cons d ds =>
        simp [List.countP_cons, List.countP_append,
          countP_map_domain Chunk.is_nameserver true Chunk.nameserver (fun _ => rfl),
          countP_map_domain Chunk.is_nameserver false Chunk.domain (fun _ => rfl),
          Chunk.is_nameserver]
        exact hs
  · intro hd hs
    rw [render_export_content,
      text_lines_spec l (fun e he d hde => (hd e he d hde).2) hs]
    have hd' : ∀ d ∈ (l.reverse.filterMap (fun e => e.domain)).take MAXDNSRCH, ' ' ∉ d.data := by
      intro d hmem
      have := List.mem_of_mem_take hmem
      rw [List.mem_filterMap] at this
      obtain ⟨e, he, hde⟩ := this
      exact (hd e (List.mem_reverse.mp he) d hde).1
    have hdl : ((l.reverse.filterMap (fun e => e.domain)).take MAXDNSRCH).length ≤ 6 :=
      List.length_take_le _ _
    have hsl : ((l.reverse.filterMap (fun e => e.server)).take MAXNS).length ≤ 3 :=
      List.length_take_le _ _
    generalize (l.reverse.filterMap (fun e => e.domain)).take MAXDNSRCH = doms at hd' hdl
    generalize (l.reverse.filterMap (fun e => e.server)).take MAXNS = srvs at hsl
    have hsrch : (if doms = [] then [] else [search_line doms]).countP
        (starts_with "search ") ≤ 1 := by
      split
      · simp
      · simp [List.countP_cons]
        split <;> omega
    have hnsrch : (if doms = [] then [] else [search_line doms]).countP
        (starts_with "nameserver ") = 0 := by
      split
      · simp
      · simp [List.countP_cons, (starts_with_search_line doms).2]
    have h1 : starts_with "search " "# Generated by Connection Manager".data = false := by
      decide
    have h2 : starts_with "nameserver " "# Generated by Connection Manager".data = false := by
      decide
    have h3 : starts_with "search " [] = false := by decide
    have h4 : starts_with "nameserver " [] = false := by decide
    refine ⟨?_, ?_, ?_⟩
    · rw [List.countP_cons, List.countP_append, List.countP_append,
        countP_map_const (starts_with "search ") false _
          (fun srv => (starts_with_nameserver_line srv).1), List.countP_singleton, h1, h3]
      simpa using hsrch
    · intro line hline hsw
      rw [List.mem_cons, List.mem_append, List.mem_append, List.mem_map,
        List.mem_singleton] at hline
      rcases hline with rfl | hline | ⟨srv, _, rfl⟩ | rfl
      · rw [h1] at hsw; cases hsw
      · split at hline
        · cases hline
        · rw [List.mem_singleton] at hline
          subst hline
          exact (search_line_words doms hd').trans hdl
      · rw [(starts_with_nameserver_line srv).1] at hsw; cases hsw
      · rw [h3] at hsw; cases hsw
    · rw [List.countP_cons, List.countP_append, List.countP_append,
        countP_map_const (starts_with "nameserver ") true _
          (fun srv => (starts_with_nameserver_line srv).2), List.countP_singleton, h2, h4,
        hnsrch]
      simpa using hsl

theorem export_content_bounds_witness :
    (text_lines (render (export_content
      [⟨1, some "lan", some "1.1.1.1"⟩, ⟨1, none, some "2.2.2.2"⟩, ⟨2, some "home", none⟩,
        ⟨2, none, some "3.3.3.3"⟩, ⟨3, none, some "4.4.4.4"⟩]))).countP
          (starts_with "nameserver ") ≤ 3 ∧
    text_lines (render (export_content
      [⟨1, some "lan", some "1.1.1.1"⟩, ⟨1, none, some "2.2.2.2"⟩, ⟨2, some "home", none⟩,
        ⟨2, none, some "3.3.3.3"⟩, ⟨3, none, some "4.4.4.4"⟩])) =
      ["# Generated by Connection Manager".data, "search home lan ".data,
        "nameserver 4.4.4.4".data, "nameserver 3.3.3.3".data, "nameserver 2.2.2.2".data, []] :=
  ⟨((export_content_bounds
      [⟨1, some "lan", some "1.1.1.1"⟩, ⟨1, none, some "2.2.2.2"⟩, ⟨2, some "home", none⟩,
        ⟨2, none, some "3.3.3.3"⟩, ⟨3, none, some "4.4.4.4"⟩]).2
      (by
        intro e he d hde
        simp only [List.mem_cons, List.mem_singleton, List.not_mem_nil, or_false] at he
        rcases he with rfl | rfl | rfl | rfl | rfl <;> cases hde <;> decide)
      (by
        intro e he d hde
        simp only [List.mem_cons, List.mem_singleton, List.not_mem_nil, or_false] at he
        rcases he with rfl | rfl | rfl | rfl | rfl <;> cases hde <;> decide)).2.2,
    by decide⟩

/-- C4 fails as stated for strings that hold separators: in File mode,
`connman_resolver_append(1, NULL, server)` with a server string of four
addresses joined by `\nnameserver ` writes a file with 4 lines beginning with
`nameserver ` from a single `nameserver` call, and a single entry whose domain
string is `a b c d e f g` gives a `search` line with 7 words after the
keyword. -/
theorem export_text_unbounded :
    (connman_resolver_append env_demo (empty_state false) 1 none
      (some "1.1.1.1\nnameserver 2.2.2.2\nnameserver 3.3.3.3\nnameserver 4.4.4.4")).2.trace =
      [Event.resolvfile_write
        "# Generated by Connection Manager\nnameserver 1.1.1.1\nnameserver 2.2.2.2\nnameserver 3.3.3.3\nnameserver 4.4.4.4\n"] ∧
    (text_lines (render (export_content
      [⟨1, none, some "1.1.1.1\nnameserver 2.2.2.2\nnameserver 3.3.3.3\nnameserver 4.4.4.4"⟩]))).countP
        (starts_with "nameserver ") = 4 ∧
    (export_content
      [⟨1, none, some "1.1.1.1\nnameserver 2.2.2.2\nnameserver 3.3.3.3\nnameserver 4.4.4.4"⟩]).countP
        Chunk.is_nameserver = 1 ∧
    text_lines (render (export_content [⟨1, some "a b c d e f g", none⟩])) =
      ["# Generated by Connection Manager".data, "search a b c d e f g ".data, []] ∧
    (line_words "search a b c d e f g ".data).tail.length = 7 := by
  decide

/-- C5: the text generated by `resolvfile_export` is the header line, then (only
if some entry has a domain) the line `search d1 d2 ... ` with the domains of the
first `MAXDNSRCH` domain-bearing entries of the reversed list, then a line
`nameserver <server>` for each of the first `MAXNS` server-bearing entries of
the reversed list; this text is what `resolvfile_export` hands to the file
write; after appends with domains A, B, C the search line reads `C B A`. -/
theorem export_content_most_recent_first :
    (∀ l : List resolvfile_entry, export_content l = spec_content l) ∧
    (∀ l : List resolvfile_entry, render (export_content l) =
      "# Generated by Connection Manager\n" ++
        ((if (l.reverse.filterMap (fun e => e.domain)).take MAXDNSRCH = [] then ""
          else "search " ++ (concat_text
            (((l.reverse.filterMap (fun e => e.domain)).take MAXDNSRCH).map
              (fun d => d ++ " ")) ++ "\n")) ++
          concat_text (((l.reverse.filterMap (fun e => e.server)).take MAXNS).map
            (fun srv => "nameserver " ++ srv ++ "\n")))) ∧
    (∀ (env : Env) (s : State), resolvfile_export env s =
      (env.export_result (spec_text s.resolvfile_list),
        log s (Event.resolvfile_write (spec_text s.resolvfile_list)))) ∧
    (∀ (env : Env) (s : State) (i1 i2 i3 : Int) (A B C : String) (srv1 srv2 srv3 : Option String),
      s.resolvfile_list = [] → 0 ≤ i1 → 0 ≤ i2 → 0 ≤ i3 →
      ((__connman_resolvfile_append env
        (__connman_resolvfile_append env
          (__connman_resolvfile_append env s i1 (some A) srv1).2 i2 (some B) srv2).2
            i3 (some C) srv3).2).trace.getLast? =
        some (Event.resolvfile_write
          ("# Generated by Connection Manager\n" ++
            ("search " ++ ((C ++ " ") ++ ((B ++ " ") ++ ((A ++ " ") ++ ("\n" ++
              concat_text (([srv3, srv2, srv1].filterMap id).map
                (fun srv => "nameserver " ++ srv ++ "\n")))))))))) := by
  refine ⟨export_content_eq_spec, render_export_content, ?_, ?_⟩
  · intro env s
    unfold resolvfile_export
    rw [render_export_content]
  · intro env s i1 i2 i3 A B C srv1 srv2 srv3 hs h1 h2 h3
    simp only [__connman_resolvfile_append, if_neg (not_lt.mpr h1), if_neg (not_lt.mpr h2),
      if_neg (not_lt.mpr h3), resolvfile_export, log, hs, List.nil_append, List.cons_append,
      List.getLast?_append, List.getLast?_singleton]
    rw [export_content_eq_spec]
    cases srv1 <;> cases srv2 <;> cases srv3 <;>
      simp [spec_content, MAXDNSRCH, MAXNS, render_cons, render_nil, Chunk.text, concat_text]

theorem export_content_most_recent_first_witness :
    ((__connman_resolvfile_append env_demo
      (__connman_resolvfile_append env_demo
        (__connman_resolvfile_append env_demo (empty_state false) 1 (some "A") (some "1.1.1.1")).2
          1 (some "B") none).2 2 (some "C") (some "2.2.2.2")).2).trace.getLast? =
      some (Event.resolvfile_write
        "# Generated by Connection Manager\nsearch C B A \nnameserver 2.2.2.2\nnameserver 1.1.1.1\n") :=
  (export_content_most_recent_first.2.2.2 env_demo (empty_state false) 1 1 2 "A" "B" "C"
    (some "1.1.1.1") none (some "2.2.2.2") rfl (by decide) (by decide) (by decide)).trans
      (by decide)

/-- C6 (amended): for a lifetime `0 < L < 2^32` and a key without a timed entry
(in a state whose allocations and source ids were handed out by the counters),
`connman_resolver_append_lifetime` appends a timed entry and arms its refresh
timer with `floor(L * 0.8)` seconds; when that timer fires the expire timer is
armed with `ceil(L / 5)` seconds (the `double` value of `L * (1 - 0.8) + 1.0`
truncated: `floor(L / 5) + 1` unless 5 divides `L`, then `L / 5`); when the
expire timer fires the entry and its timer are gone, with one nameserver-remove
notification if `index >= 0` and the service exists.  The two intervals add up
to `L`. -/
theorem lifetime_schedule (env : Env) (s : State) (index : Int)
    (domain server : Option String) (L : Nat)
    (hkey : domain ≠ none ∨ server ≠ none) (h0 : 0 < L) (hL : L < 2 ^ 32)
    (haddr : ∀ e ∈ s.entry_list, e.addr ≤ s.heap_seq)
    (hsrc : ∀ src ∈ s.sources, src.id ≤ s.source_seq)
    (hnew : ∀ e ∈ s.entry_list, e.timeout ≠ 0 →
      ¬ (e.index = index ∧ e.domain = domain ∧ e.server = server)) :
    ∃ s1 s2 s3 : State,
      connman_resolver_append_lifetime env s index domain server L = (0, s1) ∧
      s1.entry_list = s.entry_list ++ [new_entry env s index domain server L 0] ∧
      (new_entry env s index domain server L 0).lifetime = L ∧
      (new_entry env s index domain server L 0).timeout = s.source_seq + 1 ∧
      s1.sources = s.sources ++ [{ id := s.source_seq + 1, interval := 4 * L / 5,
                                   callback := Callback.refresh, user_data := s.heap_seq + 1 }] ∧
      dispatch env s1 (s.source_seq + 1) = some s2 ∧
      s2.entry_list = s.entry_list ++
        [{ new_entry env s index domain server L 0 with timeout := s.source_seq + 2 }] ∧
      s2.sources = s.sources ++ [{ id := s.source_seq + 2, interval := (L + 4) / 5,
                                   callback := Callback.expire, user_data := s.heap_seq + 1 }] ∧
      dispatch env s2 (s.source_seq + 2) = some s3 ∧
      s3.entry_list = s.entry_list ∧ s3.sources = s.sources ∧
      s3.trace.countP Event.is_detach = s2.trace.countP Event.is_detach +
        (if 0 ≤ index ∧ env.service_lookup index = true then 1 else 0) ∧
      4 * L / 5 + (L + 4) / 5 = L := by
  have hne : ¬ (server = none ∧ domain = none) := by
    rintro ⟨h1, h2⟩; rcases hkey with h | h <;> contradiction
  have hL0 : L ≠ 0 := by omega
  obtain ⟨hr, hcore⟩ := append_resolver_core env s index domain server L 0 hne
  have happ := append_lifetime_fresh env s index domain server L hne hnew
  -- abbreviations
  generalize hs1 : (append_resolver env s index domain server L 0).2 = s1 at hcore
  generalize he : new_entry env s index domain server L 0 = e at hcore
  have hea : e.addr = s.heap_seq + 1 := by rw [← he]; rfl
  have hel : e.lifetime = L := by rw [← he]; rfl
  have hei : e.index = index := by rw [← he]; rfl
  have het : e.timeout = s.source_seq + 1 := by rw [← he]; simp [new_entry, hL0]
  have hfresh : ∀ x ∈ s.entry_list, x.addr ≠ e.addr := by
    intro x hx; have := haddr x hx; omega
  rw [if_pos hL0, if_pos hL0] at hcore
  have h1e : s1.entry_list = s.entry_list ++ [e] := congrArg Core.entry_list hcore
  have h1s : s1.sources = s.sources ++
      [⟨s.source_seq + 1, 4 * L / 5, Callback.refresh, s.heap_seq + 1⟩] := by
    rw [← refresh_interval_eq L hL]; exact congrArg Core.sources hcore
  have h1q : s1.source_seq = s.source_seq + 1 := congrArg Core.source_seq hcore
  -- the refresh timer fires
  have hid1 : ∀ x ∈ s.sources, x.id ≠ s.source_seq + 1 := by
    intro x hx; have := hsrc x hx; omega
  have hid2 : ∀ x ∈ s.sources, x.id ≠ s.source_seq + 2 := by
    intro x hx; have := hsrc x hx; omega
  have hd1 : dispatch env s1 (s.source_seq + 1) =
      some (resolver_refresh_cb env (g_source_remove s1 (s.source_seq + 1)) e) := by
    unfold dispatch
    rw [h1s, find_source_new s.sources ⟨s.source_seq + 1, 4 * L / 5, Callback.refresh,
      s.heap_seq + 1⟩ hid1]
    simp only [g_source_remove]
    rw [h1e, ← hea, find_entry_new _ _ hfresh]
  generalize hs1' : g_source_remove s1 (s.source_seq + 1) = s1' at hd1
  have h1'e : s1'.entry_list = s.entry_list ++ [e] := by rw [← hs1']; exact h1e
  have h1's : s1'.sources = s.sources := by
    rw [← hs1']; simp only [g_source_remove]; rw [h1s]
    exact filter_source_new s.sources ⟨s.source_seq + 1, 4 * L / 5, Callback.refresh,
      s.heap_seq + 1⟩ hid1
  have h1'q : s1'.source_seq = s.source_seq + 1 := by rw [← hs1']; exact h1q
  have hc2 := resolver_refresh_cb_core env s1' e
  generalize hs2 : resolver_refresh_cb env s1' e = s2 at hd1 hc2
  rw [h1'e, h1's, h1'q, set_timeout_new _ _ _ hfresh] at hc2
  have h2e : s2.entry_list = s.entry_list ++ [{ e with timeout := s.source_seq + 2 }] :=
    congrArg Core.entry_list hc2
  have h2s : s2.sources = s.sources ++
      [⟨s.source_seq + 2, (L + 4) / 5, Callback.expire, s.heap_seq + 1⟩] := by
    rw [← expire_interval_eq L h0 hL, ← hel, ← hea]
    exact congrArg Core.sources hc2
  -- the expire timer fires
  have hd2 : dispatch env s2 (s.source_seq + 2) =
      some (resolver_expire_cb env (g_source_remove s2 (s.source_seq + 2))
        { e with timeout := s.source_seq + 2 }) := by
    unfold dispatch
    rw [h2s, find_source_new s.sources ⟨s.source_seq + 2, (L + 4) / 5, Callback.expire,
      s.heap_seq + 1⟩ hid2]
    simp only [g_source_remove]
    rw [h2e, ← hea]
    rw [find_entry_new s.entry_list { e with timeout := s.source_seq + 2 } hfresh]
  generalize hs2' : g_source_remove s2 (s.source_seq + 2) = s2' at hd2
  have h2'e : s2'.entry_list = s.entry_list ++ [{ e with timeout := s.source_seq + 2 }] := by
    rw [← hs2']; exact h2e
  have h2's : s2'.sources = s.sources := by
    rw [← hs2']; simp only [g_source_remove]; rw [h2s]
    exact filter_source_new s.sources ⟨s.source_seq + 2, (L + 4) / 5, Callback.expire,
      s.heap_seq + 1⟩ hid2
  have h2't : s2'.trace = s2.trace := by rw [← hs2']; rfl
  have hc3 := resolver_expire_cb_core env s2' { e with timeout := s.source_seq + 2 }
  generalize hs3 : resolver_expire_cb env s2' { e with timeout := s.source_seq + 2 } = s3
    at hd2 hc3
  rw [h2'e, g_slist_remove_new s.entry_list { e with timeout := s.source_seq + 2 }
    { e with timeout := s.source_seq + 2 } hfresh rfl, h2's] at hc3
  have h3e : s3.entry_list = s.entry_list := congrArg Core.entry_list hc3
  have h3s : s3.sources = s.sources := by
    have h := congrArg Core.sources hc3
    have hf : s.sources.filter (fun src => decide (src.id ≠ s.source_seq + 2)) = s.sources := by
      rw [List.filter_eq_self]
      intro x hx
      simpa using hid2 x hx
    simp only [ne_eq, Nat.add_eq_zero, OfNat.ofNat_ne_zero, and_false, not_false_eq_true,
      if_true] at h
    rw [← hf]
    exact h
  have h3d : s3.trace.countP Event.is_detach = s2.trace.countP Event.is_detach +
      (if 0 ≤ index ∧ env.service_lookup index = true then 1 else 0) := by
    have := congrArg Core.detaches hc3
    simp only [State.core, h2't, hei] at this
    exact this
  refine ⟨s1, s2, s3, ?_, h1e, hel, het, h1s, hd1, h2e, h2s, hd2, h3e, h3s, h3d, by omega⟩
  rw [happ, ← hs1, ← hr]

theorem lifetime_schedule_witness :
    ∃ s1 s2 s3 : State,
      connman_resolver_append_lifetime env_demo (empty_state true) 1 none
        (some "2001:db8::1") 10 = (0, s1) ∧
      s1.sources = [⟨1, 8, Callback.refresh, 1⟩] ∧
      dispatch env_demo s1 1 = some s2 ∧
      s2.sources = [⟨2, 2, Callback.expire, 1⟩] ∧
      dispatch env_demo s2 2 = some s3 ∧ s3.entry_list = [] ∧ s3.sources = [] := by
  obtain ⟨s1, s2, s3, h1, _, _, _, h2, h3, _, h4, h5, h6, h7, _, _⟩ :=
    lifetime_schedule env_demo (empty_state true) 1 none (some "2001:db8::1") 10
      (Or.inr (by simp)) (by decide) (by norm_num)
      (by simp [empty_state]) (by simp [empty_state]) (by simp [empty_state])
  exact ⟨s1, s2, s3, h1, h2, h3, h4, h5, h6, h7⟩

/-- C6 fails as stated: for lifetime 10 the refresh timer is armed with 8 s, but
the expire timer armed at the refresh has 2 s, not `floor(10 * 0.2) + 1 = 3` s,
so the entry is removed 10 s after arming, not 11 s. -/
theorem lifetime_ten_expire_interval :
    (connman_resolver_append_lifetime env_demo (empty_state true) 1 none
      (some "2001:db8::1") 10).2.sources = [⟨1, 8, Callback.refresh, 1⟩] ∧
    (dispatch env_demo (connman_resolver_append_lifetime env_demo (empty_state true) 1 none
      (some "2001:db8::1") 10).2 1).map (fun s => s.sources) =
        some [⟨2, 2, Callback.expire, 1⟩] ∧
    expire_interval 10 ≠ 10 / 5 + 1 ∧ refresh_interval 10 + expire_interval 10 ≠ 11 := by
  decide

/-- C7: the code misses the claim.  A timed entry created with lifetime 101 and
updated by `connman_resolver_append_lifetime` with lifetime 12 has its refresh
timer re-armed with `floor(12 * 0.8) = 9` s, but `entry->lifetime` stays 101, and
the expire timer armed at the following refresh has 21 s (computed from 101),
not `floor(12 * 0.2) + 1 = 3` s. -/
theorem rearm_keeps_old_lifetime :
    (connman_resolver_append_lifetime env_demo
      (connman_resolver_append_lifetime env_demo (empty_state true) 1 none
        (some "2001:db8::1") 101).2 1 none (some "2001:db8::1") 12).2.entry_list.map
          entry_data.lifetime = [101] ∧
    (connman_resolver_append_lifetime env_demo
      (connman_resolver_append_lifetime env_demo (empty_state true) 1 none
        (some "2001:db8::1") 101).2 1 none (some "2001:db8::1") 12).2.sources =
          [⟨2, 9, Callback.refresh, 1⟩] ∧
    (dispatch env_demo (connman_resolver_append_lifetime env_demo
      (connman_resolver_append_lifetime env_demo (empty_state true) 1 none
        (some "2001:db8::1") 101).2 1 none (some "2001:db8::1") 12).2 2).map
          (fun s => s.sources) = some [⟨3, 21, Callback.expire, 1⟩] := by
  decide

/-- C8: `connman_resolver_remove` returns `-ENOENT` with the state unchanged iff no
entry matches (index, domain, server); otherwise it returns 0 and the store is
the original one with exactly the first matching entry taken out, every other
entry (later duplicates of the key included) kept in order.  Allocations are
distinct. -/
theorem remove_first_match (env : Env) (s : State) (index : Int)
    (domain server : Option String)
    (hnd : (s.entry_list.map entry_data.addr).Nodup) :
    (connman_resolver_remove env s index domain server = (-ENOENT, s) ↔
      ∀ e ∈ s.entry_list, ¬ (e.index = index ∧ e.domain = domain ∧ e.server = server)) ∧
    ((∃ e ∈ s.entry_list, e.index = index ∧ e.domain = domain ∧ e.server = server) →
      (connman_resolver_remove env s index domain server).1 = 0 ∧
      ∃ before entry after, s.entry_list = before ++ entry :: after ∧
        (∀ e ∈ before, ¬ (e.index = index ∧ e.domain = domain ∧ e.server = server)) ∧
        (entry.index = index ∧ entry.domain = domain ∧ entry.server = server) ∧
        (connman_resolver_remove env s index domain server).2.entry_list = before ++ after) := by
  unfold connman_resolver_remove
  cases hf : s.entry_list.find? (key_match index domain server) with
  | none =>
    rw [List.find?_eq_none] at hf
    constructor
    · simp only [true_iff]
      intro e he
      simpa [key_match] using hf e he
    · rintro ⟨e, he, hk⟩
      exact absurd (by simpa [key_match] using hk) (hf e he)
  | some entry =>
    constructor
    · constructor
      · intro h
        simp [ENOENT] at h
      · intro h
        have := h entry (List.mem_of_find?_eq_some hf)
        have hm := List.find?_some hf
        simp [key_match] at hm
        exact absurd hm this
    · intro _
      refine ⟨rfl, ?_⟩
      simp only
      rw [remove_entries_entry_list, List.foldl_cons, List.foldl_nil,
        eraseP_addr_of_find _ _ _ hnd hf]
      have hm := List.find?_some hf
      obtain ⟨a, l1, l2, h1, h2, h3, h4⟩ :=
        List.exists_of_eraseP (List.mem_of_find?_eq_some hf) hm
      refine ⟨l1, a, l2, h3, ?_, ?_, h4⟩
      · intro b hb
        simpa [key_match] using h1 b hb
      · simpa [key_match] using h2

theorem remove_first_match_witness :
    (connman_resolver_remove env_demo state_demo 1 none (some "1.1.1.1")).1 = 0 ∧
    ∃ before entry after, state_demo.entry_list = before ++ entry :: after ∧
      (∀ e ∈ before, ¬ (e.index = 1 ∧ e.domain = none ∧ e.server = some "1.1.1.1")) ∧
      (entry.index = 1 ∧ entry.domain = none ∧ entry.server = some "1.1.1.1") ∧
      (connman_resolver_remove env_demo state_demo 1 none (some "1.1.1.1")).2.entry_list =
        before ++ after :=
  (remove_first_match env_demo state_demo 1 none (some "1.1.1.1") (by decide)).2
    ⟨⟨1, 1, none, some "1.1.1.1", AF_INET6, 0, 0, 0⟩, by decide, rfl, rfl, rfl⟩

/-- C9: `connman_resolver_remove_all` returns `-EINVAL` with the state unchanged for
`index < 0`; for `index >= 0` it returns `-ENOENT` with the state unchanged when
no entry has that index, and otherwise 0 with the store filtered to the entries
of a different index, in their original order.  Allocations are distinct. -/
theorem remove_all_spec (env : Env) (s : State) (index : Int)
    (hnd : (s.entry_list.map entry_data.addr).Nodup) :
    (index < 0 → connman_resolver_remove_all env s index = (-EINVAL, s)) ∧
    (0 ≤ index → (∀ e ∈ s.entry_list, e.index ≠ index) →
      connman_resolver_remove_all env s index = (-ENOENT, s)) ∧
    (0 ≤ index → (∃ e ∈ s.entry_list, e.index = index) →
      (connman_resolver_remove_all env s index).1 = 0 ∧
      (connman_resolver_remove_all env s index).2.entry_list =
        s.entry_list.filter (fun e => e.index ≠ index)) := by
  refine ⟨?_, ?_, ?_⟩
  · intro h
    simp [connman_resolver_remove_all, h]
  · intro h hno
    unfold connman_resolver_remove_all
    rw [if_neg (not_lt.mpr h)]
    simp only [remove_all_matches, List.append_nil]
    have : s.entry_list.filter (fun e => decide (e.index = index)) = [] := by
      rw [List.filter_eq_nil_iff]
      intro a ha
      simpa using hno a ha
    simp [this]
  · rintro h ⟨e, he, hei⟩
    unfold connman_resolver_remove_all
    rw [if_neg (not_lt.mpr h)]
    simp only [remove_all_matches, List.append_nil]
    have hne : ¬ (s.entry_list.filter (fun e => decide (e.index = index))).reverse = [] := by
      intro hnil
      rw [List.reverse_eq_nil_iff, List.filter_eq_nil_iff] at hnil
      exact hnil e he (by simpa using hei)
    rw [if_neg hne]
    refine ⟨rfl, ?_⟩
    simp only
    rw [remove_entries_entry_list, foldl_g_slist_remove _ _ hnd]
    apply List.filter_congr
    intro a ha
    have hiff : a.addr ∈ List.map entry_data.addr
        (s.entry_list.filter (fun e => decide (e.index = index))).reverse ↔ a.index = index := by
      simp only [List.map_reverse, List.mem_reverse, List.mem_map, List.mem_filter,
        decide_eq_true_eq]
      constructor
      · rintro ⟨b, ⟨hb, hbi⟩, hab⟩
        have := List.inj_on_of_nodup_map hnd hb ha hab
        rw [← this]; exact hbi
      · intro hai
        exact ⟨a, ⟨ha, hai⟩, rfl⟩
    simp only [hiff]

theorem remove_all_spec_witness :
    (connman_resolver_remove_all env_demo state_demo 1).1 = 0 ∧
    (connman_resolver_remove_all env_demo state_demo 1).2.entry_list =
      state_demo.entry_list.filter (fun e => e.index ≠ 1) :=
  (remove_all_spec env_demo state_demo 1 (by decide)).2.2 (by decide)
    ⟨⟨1, 1, none, some "1.1.1.1", AF_INET6, 0, 0, 0⟩, by decide, rfl⟩

/-- C10: with domain and server both absent `connman_resolver_append` and
`connman_resolver_append_lifetime` return `-EINVAL` and leave the whole state
(store, resolv-file list, timers, trace of notifications) unchanged; with one of
them present they never return `-EINVAL`. -/
theorem append_both_absent (env : Env) (s : State) (index : Int) (lifetime : Nat) :
    connman_resolver_append env s index none none = (-EINVAL, s) ∧
    connman_resolver_append_lifetime env s index none none lifetime = (-EINVAL, s) ∧
    (∀ domain server, (domain ≠ none ∨ server ≠ none) →
      (connman_resolver_append env s index domain server).1 ≠ -EINVAL ∧
      (connman_resolver_append_lifetime env s index domain server lifetime).1 ≠ -EINVAL) := by
  refine ⟨by simp [connman_resolver_append], by simp [connman_resolver_append_lifetime], ?_⟩
  intro domain server hkey
  have hne : ¬ (server = none ∧ domain = none) := by
    rintro ⟨h1, h2⟩; rcases hkey with h | h <;> contradiction
  constructor
  · unfold connman_resolver_append
    rw [if_neg hne]
    split
    · simp [EEXIST, EINVAL]
    · unfold append_resolver
      rw [if_neg hne]
      simp [EINVAL]
  · unfold connman_resolver_append_lifetime
    rw [if_neg hne]
    split
    · split <;> simp [EINVAL]
    · unfold append_resolver
      rw [if_neg hne]
      simp [EINVAL]

theorem append_both_absent_witness :
    (connman_resolver_append env_demo state_demo 2 (some "lan") none).1 ≠ -EINVAL ∧
    (connman_resolver_append_lifetime env_demo state_demo 2 (some "lan") none 10).1 ≠ -EINVAL :=
  (append_both_absent env_demo state_demo 2 10).2.2 (some "lan") none (Or.inl (by simp))

/-- C11 (amended): `__connman_resolvfile_remove` compares the server exactly
(equal or both absent), but a negative index argument matches every index and
an absent domain argument matches every domain.  It deletes exactly the tuples
matching under that rule and keeps the others in order; so with `index >= 0`
and a domain present it deletes exactly the tuples equal to the arguments. -/
theorem resolvfile_remove_rule (env : Env) (s : State) (index : Int)
    (domain server : Option String) :
    (__connman_resolvfile_remove env s index domain server).2.resolvfile_list =
      s.resolvfile_list.filter (fun e =>
        ¬ ((index < 0 ∨ e.index = index) ∧ (domain = none ∨ e.domain = domain) ∧
          e.server = server)) ∧
    (0 ≤ index → domain ≠ none →
      (__connman_resolvfile_remove env s index domain server).2.resolvfile_list =
        s.resolvfile_list.filter (fun e =>
          ¬ (e.index = index ∧ e.domain = domain ∧ e.server = server))) := by
  have h1 : (__connman_resolvfile_remove env s index domain server).2.resolvfile_list =
      s.resolvfile_list.filter (fun e =>
        ¬ ((index < 0 ∨ e.index = index) ∧ (domain = none ∨ e.domain = domain) ∧
          e.server = server)) := by
    rw [resolvfile_remove_list]
    apply List.filter_congr
    intro e _
    by_cases h : resolvfile_match index domain server e = true
    · have := (resolvfile_match_iff index domain server e).mp h
      simp [h, this]
    · have := mt (resolvfile_match_iff index domain server e).mpr h
      simp only [Bool.not_eq_true] at h
      simp [h, this]
  refine ⟨h1, ?_⟩
  intro hi hd
  rw [h1]
  apply List.filter_congr
  intro e _
  have h2 : ¬ index < 0 := not_lt.mpr hi
  simp [h2, hd]

theorem resolvfile_remove_rule_witness :
    (__connman_resolvfile_remove env_demo
      { empty_state false with resolvfile_list :=
          [⟨1, some "lan", some "1.1.1.1"⟩, ⟨1, some "home", some "1.1.1.1"⟩] }
      1 (some "lan") (some "1.1.1.1")).2.resolvfile_list =
      [⟨1, some "home", some "1.1.1.1"⟩] := by
  rw [((resolvfile_remove_rule env_demo
    { empty_state false with resolvfile_list :=
        [⟨1, some "lan", some "1.1.1.1"⟩, ⟨1, some "home", some "1.1.1.1"⟩] }
    1 (some "lan") (some "1.1.1.1")).2 (by decide) (by simp))]
  decide

/-- C11 fails as stated: removing (1, no domain, "1.1.1.1") deletes the tuple
(1, "lan", "1.1.1.1"), whose domain differs from the absent argument, and
removing (-1, no domain, "1.1.1.1") deletes the tuple (1, no domain, "1.1.1.1"),
whose index differs from the argument. -/
theorem resolvfile_remove_wildcards :
    (__connman_resolvfile_append env_demo (empty_state false) 1 (some "lan")
      (some "1.1.1.1")).2.resolvfile_list = [⟨1, some "lan", some "1.1.1.1"⟩] ∧
    (__connman_resolvfile_remove env_demo
      (__connman_resolvfile_append env_demo (empty_state false) 1 (some "lan")
        (some "1.1.1.1")).2 1 none (some "1.1.1.1")).2.resolvfile_list = [] ∧
    (__connman_resolvfile_append env_demo (empty_state false) 1 none
      (some "1.1.1.1")).2.resolvfile_list = [⟨1, none, some "1.1.1.1"⟩] ∧
    (__connman_resolvfile_remove env_demo
      (__connman_resolvfile_append env_demo (empty_state false) 1 none
        (some "1.1.1.1")).2 (-1) none (some "1.1.1.1")).2.resolvfile_list = [] := by
  decide

/-- C12: `__connman_resolver_init` returns 0 for every `useProxy`, every result of
the proxy start-up and every configured nameserver list; starting with
`dnsproxy_enabled` false, the module ends in Proxy mode iff `useProxy` holds and
`__connman_dnsproxy_init` did not fail; in that case the store gained, in
configuration order, one entry per configured nameserver with index -1, no
domain, that server, lifetime 0, no timer and the `PUBLIC` flag (and no timer
was armed); otherwise the whole state is unchanged. -/
theorem init_registers_fallbacks (env : Env) (s : State) (useProxy : Bool) :
    (__connman_resolver_init env s useProxy).1 = 0 ∧
    (s.dnsproxy_enabled = false →
      ((__connman_resolver_init env s useProxy).2.dnsproxy_enabled = true ↔
        (useProxy = true ∧ 0 ≤ env.dnsproxy_init))) ∧
    (useProxy = true → 0 ≤ env.dnsproxy_init →
      (__connman_resolver_init env s useProxy).2.entry_list.map entry_data.registration =
        s.entry_list.map entry_data.registration ++
          env.fallback_nameservers.map fallback_registration ∧
      (__connman_resolver_init env s useProxy).2.sources = s.sources) ∧
    (¬ (useProxy = true ∧ 0 ≤ env.dnsproxy_init) →
      (__connman_resolver_init env s useProxy).2 = s) := by
  unfold __connman_resolver_init
  by_cases hu : useProxy = true
  · by_cases hi : env.dnsproxy_init < 0
    · rw [if_neg (not_not.mpr hu), if_pos hi]
      refine ⟨rfl, ?_, ?_, fun _ => rfl⟩
      · intro hs
        show s.dnsproxy_enabled = true ↔ _
        rw [hs]
        constructor
        · intro h; cases h
        · intro h; omega
      · intro _ h; omega
    · rw [if_neg (not_not.mpr hu), if_neg hi]
      obtain ⟨h1, h2, h3⟩ := init_loop_core env env.fallback_nameservers
        { s with dnsproxy_enabled := true }
      refine ⟨rfl, ?_, ?_, ?_⟩
      · intro _
        constructor
        · intro _; exact ⟨hu, not_lt.mp hi⟩
        · intro _; exact h1
      · intro _ _
        exact ⟨h2, h3⟩
      · intro h
        exact absurd ⟨hu, not_lt.mp hi⟩ h
  · rw [if_pos hu]
    refine ⟨rfl, ?_, ?_, fun _ => rfl⟩
    · intro hs
      show s.dnsproxy_enabled = true ↔ _
      rw [hs]
      constructor
      · intro h; cases h
      · intro h; exact absurd h.1 hu
    · intro h; exact absurd h hu

theorem init_registers_fallbacks_witness :
    ((__connman_resolver_init env_demo (empty_state false) true).2.dnsproxy_enabled = true ↔
      (true = true ∧ 0 ≤ env_demo.dnsproxy_init)) ∧
    (__connman_resolver_init env_demo (empty_state false) true).2.entry_list.map
      entry_data.registration = [] ++ [fallback_registration "8.8.8.8"] ∧
    (__connman_resolver_init env_demo (empty_state false) false).2 = empty_state false :=
  ⟨(init_registers_fallbacks env_demo (empty_state false) true).2.1 rfl,
   ((init_registers_fallbacks env_demo (empty_state false) true).2.2.1 rfl (by decide)).1,
   (init_registers_fallbacks env_demo (empty_state false) false).2.2.2 (by decide)⟩

/-- C13: the code misses the claim.  In File mode, with one timed entry in the
store, `__connman_resolver_cleanup` empties the entry store and the resolv-file
list and writes no file, but `free_entry` does not cancel the entry's timer:
the refresh source stays pending with the released entry as `user_data`, and
its dispatch finds no entry to work on. -/
theorem cleanup_leaves_timer_armed :
    (connman_resolver_append_lifetime env_demo (empty_state false) 1 none
      (some "2001:db8::1") 10).2.sources = [⟨1, 8, Callback.refresh, 1⟩] ∧
    (__connman_resolver_cleanup (connman_resolver_append_lifetime env_demo (empty_state false) 1
      none (some "2001:db8::1") 10).2).entry_list = [] ∧
    (__connman_resolver_cleanup (connman_resolver_append_lifetime env_demo (empty_state false) 1
      none (some "2001:db8::1") 10).2).resolvfile_list = [] ∧
    (__connman_resolver_cleanup (connman_resolver_append_lifetime env_demo (empty_state false) 1
      none (some "2001:db8::1") 10).2).trace =
      (connman_resolver_append_lifetime env_demo (empty_state false) 1 none
        (some "2001:db8::1") 10).2.trace ∧
    (__connman_resolver_cleanup (connman_resolver_append_lifetime env_demo (empty_state false) 1
      none (some "2001:db8::1") 10).2).sources = [⟨1, 8, Callback.refresh, 1⟩] ∧
    dispatch env_demo (__connman_resolver_cleanup (connman_resolver_append_lifetime env_demo
      (empty_state false) 1 none (some "2001:db8::1") 10).2) 1 = none := by
  decide

/-- C14 (amended): `__connman_resolver_redo_servers` changes nothing but the trace
of proxy calls.  With the proxy backend inactive it returns 0 and makes no call.
With the proxy active and `index < 0` it returns `-EINVAL` and makes no call.
With the proxy active and `index >= 0` it returns 0 and makes exactly these
calls: a proxy remove immediately followed by an append of the same tuple for
each entry with an armed timer, that index and an IPv6 server, then an append of
(index, domain, no server) for each domain-only entry of that index; so when
no timed entry of the index is IPv6 there is no proxy remove at all. -/
theorem redo_servers_effect (s : State) (index : Int) :
    (s.dnsproxy_enabled = false → __connman_resolver_redo_servers s index = (0, s)) ∧
    (s.dnsproxy_enabled = true → index < 0 →
      __connman_resolver_redo_servers s index = (-EINVAL, s)) ∧
    (s.dnsproxy_enabled = true → 0 ≤ index →
      __connman_resolver_redo_servers s index =
        (0, { s with trace := s.trace ++ redo_server_events index s.entry_list ++
                redo_domain_events index s.entry_list })) ∧
    ((∀ e ∈ s.entry_list, e.timeout ≠ 0 → e.index = index → e.family ≠ AF_INET6) →
      redo_server_events index s.entry_list = []) ∧
    (__connman_resolver_redo_servers s index).2.entry_list = s.entry_list ∧
    (__connman_resolver_redo_servers s index).2.resolvfile_list = s.resolvfile_list ∧
    (__connman_resolver_redo_servers s index).2.sources = s.sources := by
  have h3 : s.dnsproxy_enabled = true → 0 ≤ index →
      __connman_resolver_redo_servers s index =
        (0, { s with trace := s.trace ++ redo_server_events index s.entry_list ++
                redo_domain_events index s.entry_list }) := by
    intro hp hi
    unfold __connman_resolver_redo_servers
    rw [if_neg (by simp [hp]), if_neg (not_lt.mpr hi), redo_servers_loop_eq,
      redo_domains_loop_eq]
  have h1 : s.dnsproxy_enabled = false → __connman_resolver_redo_servers s index = (0, s) := by
    intro hp
    unfold __connman_resolver_redo_servers
    rw [if_pos (by simp [hp])]
  have h2 : s.dnsproxy_enabled = true → index < 0 →
      __connman_resolver_redo_servers s index = (-EINVAL, s) := by
    intro hp hi
    unfold __connman_resolver_redo_servers
    rw [if_neg (by simp [hp]), if_pos hi]
  have hall : (__connman_resolver_redo_servers s index).2.entry_list = s.entry_list ∧
      (__connman_resolver_redo_servers s index).2.resolvfile_list = s.resolvfile_list ∧
      (__connman_resolver_redo_servers s index).2.sources = s.sources := by
    cases hp : s.dnsproxy_enabled
    · rw [h1 hp]; exact ⟨rfl, rfl, rfl⟩
    · by_cases hi : index < 0
      · rw [h2 hp hi]; exact ⟨rfl, rfl, rfl⟩
      · rw [h3 hp (not_lt.mp hi)]; exact ⟨rfl, rfl, rfl⟩
  refine ⟨h1, h2, h3, ?_, hall⟩
  intro hv4
  unfold redo_server_events
  have : s.entry_list.filter
      (fun e => decide (e.timeout ≠ 0 ∧ e.index = index ∧ e.family = AF_INET6)) = [] := by
    rw [List.filter_eq_nil_iff]
    intro e he
    simp only [decide_eq_true_eq, not_and]
    intro a b
    exact hv4 e he a b
  rw [this]
  rfl

theorem redo_servers_effect_witness :
    __connman_resolver_redo_servers
      (connman_resolver_append env_demo
        (connman_resolver_append_lifetime env_demo (empty_state true) 1 none
          (some "2001:db8::1") 10).2 1 (some "lan") none).2 1 =
      (0, { (connman_resolver_append env_demo
        (connman_resolver_append_lifetime env_demo (empty_state true) 1 none
          (some "2001:db8::1") 10).2 1 (some "lan") none).2 with
        trace := (connman_resolver_append env_demo
          (connman_resolver_append_lifetime env_demo (empty_state true) 1 none
            (some "2001:db8::1") 10).2 1 (some "lan") none).2.trace ++
          redo_server_events 1 (connman_resolver_append env_demo
            (connman_resolver_append_lifetime env_demo (empty_state true) 1 none
              (some "2001:db8::1") 10).2 1 (some "lan") none).2.entry_list ++
          redo_domain_events 1 (connman_resolver_append env_demo
            (connman_resolver_append_lifetime env_demo (empty_state true) 1 none
              (some "2001:db8::1") 10).2 1 (some "lan") none).2.entry_list }) :=
  (redo_servers_effect _ 1).2.2.1 (by decide) (by decide)

/-- C14 fails as stated for a negative index: with the proxy active and a
domain-only entry of index -1 in the store, `__connman_resolver_redo_servers(-1)`
returns `-EINVAL` and re-appends nothing. -/
theorem redo_servers_negative_index :
    (connman_resolver_append env_demo (empty_state true) (-1) (some "lan") none).2.entry_list.map
      entry_data.key = [(-1, some "lan", none)] ∧
    __connman_resolver_redo_servers
      (connman_resolver_append env_demo (empty_state true) (-1) (some "lan") none).2 (-1) =
      (-EINVAL, (connman_resolver_append env_demo (empty_state true) (-1) (some "lan") none).2) := by
  decide

/-- C15: with a timed entry matching (index, domain, server) in the store (key
not empty, allocations distinct), `connman_resolver_append_lifetime` with
lifetime 0 returns 0, cancels that entry's timer and expires it at once: the
store is the original one without the first matching timed entry and nothing is
added; in Proxy mode the proxy is told to remove the tuple, in File mode the
tuple is taken out of the resolv-file list and the file is rewritten; the
network service gets one nameserver-remove notification iff `index >= 0` and the
service exists. -/
theorem append_lifetime_zero_expires (env : Env) (s : State) (index : Int)
    (domain server : Option String)
    (hkey : domain ≠ none ∨ server ≠ none)
    (hnd : (s.entry_list.map entry_data.addr).Nodup)
    (hm : ∃ e ∈ s.entry_list, e.timeout ≠ 0 ∧ e.index = index ∧ e.domain = domain ∧
      e.server = server) :
    (connman_resolver_append_lifetime env s index domain server 0).1 = 0 ∧
    ∃ before entry after,
      s.entry_list = before ++ entry :: after ∧
      (∀ e ∈ before, ¬ (e.timeout ≠ 0 ∧ e.index = index ∧ e.domain = domain ∧
        e.server = server)) ∧
      (entry.timeout ≠ 0 ∧ entry.index = index ∧ entry.domain = domain ∧
        entry.server = server) ∧
      (connman_resolver_append_lifetime env s index domain server 0).2.entry_list =
        before ++ after ∧
      (connman_resolver_append_lifetime env s index domain server 0).2.sources =
        s.sources.filter (fun src => src.id ≠ entry.timeout) ∧
      (s.dnsproxy_enabled = true → ∃ pushes,
        (connman_resolver_append_lifetime env s index domain server 0).2.trace =
          s.trace ++ detach_events env entry ++
            [Event.dnsproxy_remove index domain server] ++ pushes ∧
        ∀ ev ∈ pushes, ∃ i d srv, ev = Event.dnsproxy_append i d srv) ∧
      (s.dnsproxy_enabled = false →
        (∀ r ∈ (connman_resolver_append_lifetime env s index domain server 0).2.resolvfile_list,
          r ∈ s.resolvfile_list ∧
          ¬ (r.index = index ∧ r.domain = domain ∧ r.server = server)) ∧
        (connman_resolver_append_lifetime env s index domain server 0).2.trace =
          s.trace ++ detach_events env entry ++
            [Event.resolvfile_write (render (export_content
              (connman_resolver_append_lifetime env s index domain server
                0).2.resolvfile_list))]) ∧
      (connman_resolver_append_lifetime env s index domain server 0).2.trace.countP
          Event.is_detach =
        s.trace.countP Event.is_detach +
          (if 0 ≤ index ∧ env.service_lookup index = true then 1 else 0) := by
  have hne : ¬ (server = none ∧ domain = none) := by
    rintro ⟨h1, h2⟩; rcases hkey with h | h <;> contradiction
  obtain ⟨e0, he0, ht0, hi0, hd0, hs0⟩ := hm
  cases hf : s.entry_list.find?
      (fun entry => decide (entry.timeout ≠ 0 ∧ key_match index domain server entry = true)) with
  | none =>
    rw [List.find?_eq_none] at hf
    exact absurd (by simp [key_match, ht0, hi0, hd0, hs0]) (hf e0 he0)
  | some entry =>
    have hres : connman_resolver_append_lifetime env s index domain server 0 =
        (0, resolver_expire_cb env (g_source_remove s entry.timeout) entry) := by
      unfold connman_resolver_append_lifetime
      rw [if_neg hne, hf]
      simp
    have hmem := List.mem_of_find?_eq_some hf
    have hp := List.find?_some hf
    have hp' : entry.timeout ≠ 0 ∧ entry.index = index ∧ entry.domain = domain ∧
        entry.server = server := by
      simpa [key_match] using hp
    obtain ⟨a, l1, l2, hb1, hb2, hb3, hb4⟩ := @List.exists_of_eraseP entry_data
      (fun x : entry_data => decide (x.timeout ≠ 0 ∧ key_match index domain server x = true))
      s.entry_list entry hmem hp
    have ha : a = entry := by
      have hfa : s.entry_list.find? (fun entry => decide (entry.timeout ≠ 0 ∧
          key_match index domain server entry = true)) = some a := by
        rw [hb3, List.find?_append]
        have : l1.find? (fun entry => decide (entry.timeout ≠ 0 ∧
            key_match index domain server entry = true)) = none := by
          rw [List.find?_eq_none]
          intro x hx
          exact hb1 x hx
        rw [this, Option.none_or]
        exact List.find?_cons_of_pos _ hb2
      rw [hf] at hfa
      exact (Option.some.inj hfa).symm
    subst ha
    have hcore := resolver_expire_cb_core env (g_source_remove s a.timeout) a
    rw [hres]
    refine ⟨rfl, l1, a, l2, hb3, ?_, hp', ?_, ?_, ?_, ?_, ?_⟩
    · intro x hx
      simpa [key_match] using hb1 x hx
    · have := congrArg Core.entry_list hcore
      show (resolver_expire_cb env (g_source_remove s a.timeout) a).entry_list = l1 ++ l2
      rw [core_entry_list, this]
      show g_slist_remove s.entry_list a = _
      rw [eraseP_addr_of_find _ _ _ hnd hf, hb4]
    · have := congrArg Core.sources hcore
      show (resolver_expire_cb env (g_source_remove s a.timeout) a).sources = _
      rw [core_sources, this]
      show (if a.timeout ≠ 0 then (s.sources.filter _).filter _ else s.sources.filter _) = _
      rw [if_pos hp'.1, List.filter_filter]
      simp
    · intro hpx
      obtain ⟨pushes, h1, h2⟩ := expire_cb_proxy env (g_source_remove s a.timeout) a hpx
      refine ⟨pushes, ?_, h2⟩
      rw [← hp'.2.1, ← hp'.2.2.1, ← hp'.2.2.2]
      exact h1
    · intro hpx
      obtain ⟨h1, h2⟩ := expire_cb_file env (g_source_remove s a.timeout) a hpx
      constructor
      · intro r hr
        have hr' : r ∈ (g_source_remove s a.timeout).resolvfile_list.filter
            (fun r => !resolvfile_match a.index a.domain a.server r) := h1 ▸ hr
        rw [List.mem_filter] at hr'
        refine ⟨hr'.1, ?_⟩
        intro hk
        have : resolvfile_match a.index a.domain a.server r = true := by
          rw [resolvfile_match_iff]
          rw [hp'.2.1, hp'.2.2.1, hp'.2.2.2]
          exact ⟨Or.inr hk.1, Or.inr hk.2.1, hk.2.2⟩
        simp [this] at hr'
      · show (resolver_expire_cb env (g_source_remove s a.timeout) a).trace = _
        rw [h2]
        show _ = s.trace ++ detach_events env a ++ [Event.resolvfile_write (render (export_content
          (resolver_expire_cb env (g_source_remove s a.timeout) a).resolvfile_list))]
        rw [h1]
        rfl
    · have := congrArg Core.detaches hcore
      rw [← hp'.2.1]
      exact this

theorem append_lifetime_zero_expires_witness :
    (connman_resolver_append_lifetime env_demo
      (connman_resolver_append_lifetime env_demo (empty_state true) 1 none
        (some "2001:db8::1") 10).2 1 none (some "2001:db8::1") 0).1 = 0 := by
  exact (append_lifetime_zero_expires env_demo
    (connman_resolver_append_lifetime env_demo (empty_state true) 1 none
      (some "2001:db8::1") 10).2 1 none (some "2001:db8::1") (Or.inr (by simp)) (by decide)
    ⟨⟨1, 1, none, some "2001:db8::1", AF_INET6, 0, 10, 1⟩, by decide, by decide, rfl, rfl,
      rfl⟩).1

/-- C17: the code misses the second half of the claim.  An entry armed with
lifetime 100 and left alone is removed after 80 + 20 = 100 s.  But an entry
armed with lifetime 5 and re-armed by `connman_resolver_append_lifetime` with
lifetime 100 gets a refresh timer of 80 s and then an expire timer of 1 s,
computed from the stale `entry->lifetime` 5: it is removed 81 s after the
re-arm, earlier than 100 s. -/
theorem rearm_expires_early :
    refresh_interval 100 + expire_interval 100 = 100 ∧
    (connman_resolver_append_lifetime env_demo
      (connman_resolver_append_lifetime env_demo (empty_state true) 1 none
        (some "2001:db8::1") 5).2 1 none (some "2001:db8::1") 100).2.sources =
          [⟨2, 80, Callback.refresh, 1⟩] ∧
    (dispatch env_demo (connman_resolver_append_lifetime env_demo
      (connman_resolver_append_lifetime env_demo (empty_state true) 1 none
        (some "2001:db8::1") 5).2 1 none (some "2001:db8::1") 100).2 2).map
          (fun s => s.sources) = some [⟨3, 1, Callback.expire, 1⟩] ∧
    ((dispatch env_demo (connman_resolver_append_lifetime env_demo
      (connman_resolver_append_lifetime env_demo (empty_state true) 1 none
        (some "2001:db8::1") 5).2 1 none (some "2001:db8::1") 100).2 2).bind
          (fun s => dispatch env_demo s 3)).map (fun s => s.entry_list) = some [] ∧
    80 + 1 < 100 := by
  decide

/-- C18: in every state reachable from the empty store by
`connman_resolver_append`, `connman_resolver_append_lifetime`,
`connman_resolver_remove`, `connman_resolver_remove_all` and timer firings, an
entry has a timer handle (`timeout != 0`) iff its lifetime is positive; a timed
entry is the user data of exactly one pending source, and that source carries
the entry's handle as its id; an untimed entry is the user data of none; and
every pending source refers to an entry that is in the store and holds the
source's id as its handle. -/
theorem timer_handle_invariant (env : Env) (dnsproxy : Bool) (s : State)
    (h : Reachable env (fun _ _ => true) (empty_state dnsproxy) s) :
    (∀ e ∈ s.entry_list,
      (e.timeout ≠ 0 ↔ 0 < e.lifetime) ∧
      (e.timeout ≠ 0 →
        s.sources.countP (fun src => src.user_data = e.addr) = 1 ∧
        ∃ src ∈ s.sources, src.id = e.timeout ∧ src.user_data = e.addr) ∧
      (e.timeout = 0 → s.sources.countP (fun src => src.user_data = e.addr) = 0)) ∧
    (∀ src ∈ s.sources, ∃ e ∈ s.entry_list, e.addr = src.user_data ∧ e.timeout = src.id) := by
  obtain ⟨hinv, ht⟩ := timer_inv_reachable env _ _ s (inv_empty dnsproxy)
    (timer_inv_empty dnsproxy) h
  refine ⟨fun e he => ⟨?_, ?_, ?_⟩, fun src hsrc => (hinv.src_entry src hsrc).2⟩
  · rw [Nat.pos_iff_ne_zero]
    exact ht.lifetime_iff e he
  · intro het
    exact ⟨count_sources_of_timed s.core hinv ht e he het, ht.entry_src e he het⟩
  · intro het
    exact count_sources_of_untimed s.core hinv e he het

theorem timer_handle_invariant_witness :
    Reachable env_demo (fun _ _ => true) (empty_state true) state_refreshed ∧
    state_refreshed.sources = [⟨2, 2, Callback.expire, 1⟩] ∧
    state_refreshed.sources.countP (fun src => src.user_data = 1) = 1 ∧
    state_refreshed.sources.countP (fun src => src.user_data = 2) = 0 :=
  have hr : Reachable env_demo (fun _ _ => true) (empty_state true) state_refreshed :=
    Reachable.next (Op.timer 1)
      (Reachable.next (Op.append 1 none (some "1.1.1.1"))
        (Reachable.next (Op.append_lifetime 1 none (some "2001:db8::1") 10)
          Reachable.start rfl rfl) rfl rfl) rfl (by decide)
  ⟨hr, by decide,
    ((timer_handle_invariant env_demo true state_refreshed hr).1
      ⟨1, 1, none, some "2001:db8::1", AF_INET6, 0, 10, 2⟩ (by decide)).2.1 (by decide) |>.1,
    ((timer_handle_invariant env_demo true state_refreshed hr).1
      ⟨2, 1, none, some "1.1.1.1", AF_INET6, 0, 0, 0⟩ (by decide)).2.2 rfl⟩

/-- C19: the duplicate check of `connman_resolver_append` skips entries with an
armed timer: when the store has a timed entry with the key and no untimed entry
with it, the call returns 0 and appends a new untimed entry (lifetime 0, no
timer) at the end of the store; the entries already there, the timed one
included, and the pending timers are unchanged. -/
theorem append_beside_timed_entry (env : Env) (s : State) (index : Int)
    (domain server : Option String)
    (hkey : domain ≠ none ∨ server ≠ none)
    (htimed : ∃ e ∈ s.entry_list, e.timeout ≠ 0 ∧ e.index = index ∧ e.domain = domain ∧
      e.server = server)
    (hnone : ∀ e ∈ s.entry_list, e.timeout = 0 →
      ¬ (e.index = index ∧ e.domain = domain ∧ e.server = server)) :
    (connman_resolver_append env s index domain server).1 = 0 ∧
    (connman_resolver_append env s index domain server).2.entry_list =
      s.entry_list ++ [new_entry env s index domain server 0 0] ∧
    (new_entry env s index domain server 0 0).lifetime = 0 ∧
    (new_entry env s index domain server 0 0).timeout = 0 ∧
    (new_entry env s index domain server 0 0).key = (index, domain, server) ∧
    (connman_resolver_append env s index domain server).2.sources = s.sources ∧
    (∃ e ∈ (connman_resolver_append env s index domain server).2.entry_list,
      e.timeout ≠ 0 ∧ e.key = (index, domain, server)) := by
  have hne : ¬ (server = none ∧ domain = none) := by
    rintro ⟨h1, h2⟩; rcases hkey with h | h <;> contradiction
  have hfind : s.entry_list.find?
      (fun entry => decide (entry.timeout = 0 ∧ key_match index domain server entry = true)) =
      none := by
    rw [List.find?_eq_none]
    intro e he
    simp only [key_match_iff, decide_eq_true_eq, not_and]
    intro h1 h2 h3 h4
    exact hnone e he h1 ⟨h2, h3, h4⟩
  have hres : connman_resolver_append env s index domain server =
      append_resolver env s index domain server 0 0 := by
    unfold connman_resolver_append
    rw [if_neg hne, hfind]
  obtain ⟨h1, hc⟩ := append_resolver_core env s index domain server 0 0 hne
  have hl : (append_resolver env s index domain server 0 0).2.entry_list =
      s.entry_list ++ [new_entry env s index domain server 0 0] := congrArg Core.entry_list hc
  have hs : (append_resolver env s index domain server 0 0).2.sources = s.sources := by
    have := congrArg Core.sources hc
    simpa using this
  rw [hres]
  refine ⟨h1, hl, rfl, rfl, rfl, hs, ?_⟩
  obtain ⟨e, he, ht, hi, hd, hsv⟩ := htimed
  refine ⟨e, ?_, ht, ?_⟩
  · rw [hl]; exact List.mem_append_left _ he
  · show (e.index, e.domain, e.server) = _
    rw [hi, hd, hsv]

theorem append_beside_timed_entry_witness :
    (connman_resolver_append env_demo
      (connman_resolver_append_lifetime env_demo (empty_state true) 1 none
        (some "2001:db8::1") 10).2 1 none (some "2001:db8::1")).1 = 0 ∧
    (connman_resolver_append env_demo
      (connman_resolver_append_lifetime env_demo (empty_state true) 1 none
        (some "2001:db8::1") 10).2 1 none (some "2001:db8::1")).2.entry_list.map
          (fun e => (e.key, e.lifetime, e.timeout)) =
      [((1, none, some "2001:db8::1"), 10, 1), ((1, none, some "2001:db8::1"), 0, 0)] := by
  have h := append_beside_timed_entry env_demo
    (connman_resolver_append_lifetime env_demo (empty_state true) 1 none
      (some "2001:db8::1") 10).2 1 none (some "2001:db8::1") (Or.inr (by simp))
    ⟨⟨1, 1, none, some "2001:db8::1", AF_INET6, 0, 10, 1⟩, by decide, by decide, rfl, rfl, rfl⟩
    (by decide)
  refine ⟨h.1, ?_⟩
  rw [h.2.1]
  decide

/-- C20: `__connman_resolvfile_append` with `index < 0` returns `-ENOENT` and
leaves the state as it was (no tuple, no export); with `index >= 0` it puts the
tuple at the end of the resolv-file list, exports, and returns the result of
the export, the tuple staying in the list whatever that result is.  Hence in
every state reached from the start-up state every tuple of the resolv-file
list has a non-negative index. -/
theorem resolvfile_append_rejects_negative (env : Env) :
    (∀ (s : State) (index : Int) (domain server : Option String), index < 0 →
      __connman_resolvfile_append env s index domain server = (-ENOENT, s)) ∧
    (∀ (s : State) (index : Int) (domain server : Option String), 0 ≤ index →
      (__connman_resolvfile_append env s index domain server).2.resolvfile_list =
        s.resolvfile_list ++ [⟨index, domain, server⟩] ∧
      (__connman_resolvfile_append env s index domain server).1 =
        env.export_result
          (render (export_content (s.resolvfile_list ++ [⟨index, domain, server⟩]))) ∧
      (__connman_resolvfile_append env s index domain server).2.trace =
        s.trace ++ [Event.resolvfile_write
          (render (export_content (s.resolvfile_list ++ [⟨index, domain, server⟩])))]) ∧
    (∀ (useProxy : Bool) (s : State),
      Reachable env (fun _ _ => true)
        (__connman_resolver_init env (empty_state false) useProxy).2 s →
      ∀ r ∈ s.resolvfile_list, 0 ≤ r.index) := by
  refine ⟨?_, ?_, ?_⟩
  · intro s index domain server h
    unfold __connman_resolvfile_append
    rw [if_pos h]
  · intro s index domain server h
    unfold __connman_resolvfile_append
    rw [if_neg (not_lt.mpr h)]
    exact ⟨rfl, rfl, rfl⟩
  · intro useProxy s hr
    exact file_ok_reachable env _ _ s (file_ok_init env useProxy) hr

theorem resolvfile_append_rejects_negative_witness :
    __connman_resolvfile_append env_demo (empty_state false) (-1) none (some "8.8.8.8") =
      (-ENOENT, empty_state false) ∧
    (__connman_resolvfile_append env_demo (empty_state false) 1 none
      (some "1.1.1.1")).2.resolvfile_list = [] ++ [⟨1, none, some "1.1.1.1"⟩] ∧
    ∀ r ∈ (connman_resolver_append env_demo
        (__connman_resolver_init env_demo (empty_state false) false).2 (-1) none
          (some "8.8.8.8")).2.resolvfile_list, 0 ≤ r.index :=
  ⟨(resolvfile_append_rejects_negative env_demo).1 _ (-1) none (some "8.8.8.8") (by decide),
   ((resolvfile_append_rejects_negative env_demo).2.1 (empty_state false) 1 none
      (some "1.1.1.1") (by decide)).1,
   (resolvfile_append_rejects_negative env_demo).2.2 false _
      (Reachable.next (Op.append (-1) none (some "8.8.8.8")) Reachable.start rfl rfl)⟩

end Resolver
